import Mathlib

/-!
# FreeFileSync hard filter (`FreeFileSync/Source/lib/hard_filter.cpp`)

A shallow embedding of the name filter of FreeFileSync: the mask compiler
(`addFilterEntry`), the wildcard matcher (`matchesMask` with its three
path-end policies), the prefix matcher (`matchesMaskBegin`) and the two
predicates of `NameFilter` (`passFileFilter`, `passDirFilter`).

Conventions of the embedding.

* The `ZEN_LINUX` branch of the conditional compilation is the one embedded:
  no case folding, and the separator is `/`.
* A `Zstring` is the list of its characters, one `Char` for one `Zchar`. A C string (`const Zchar*`) is
  the list of the characters that stand before its terminator, so that the
  test `*p == 0` of the source is the test `p = []` here, and `++p` is the
  tail of the list.
* File paths and filter phrases do not contain the terminator character.
* An optional output parameter (`bool* childItemMightMatch`) is an
  `Option Bool` passed in (the pointer is null, or points to a value) and
  passed out again next to the returned value.
-/

namespace zen

/-- Zstring of the source: a string of `Zchar`. -/
abbrev Zstring := List Char

/-- Modelled from the spec: the constant `FILE_NAME_SEPARATOR` is declared in
`zen/zstring.h`, which is not part of the excerpt; the spec calls it the
canonical separator, and on the `ZEN_LINUX` build embedded here it is `/`. -/
def FILE_NAME_SEPARATOR : Char := '/'

/-- The function `cStringFind(str, ch)` of the source (`strchr`): the suffix of `str`
that starts at the first occurrence of `ch`, or `none` (the null pointer) when
`ch` does not occur. The source allows `ch = 0`; every call site of the filter
passes a character that is not the terminator. -/
def cStringFind : Zstring → Char → Option Zstring
  | [], _ => none
  | s :: str, ch => if s = ch then some (s :: str) else cStringFind str ch

/-- The three path-end policies `FullMatch`, `ParentFolderMatch`, `AnyMatch`
of the source (the template argument of `matchesMask`). -/
inductive PathEndMatcher where
  | FullMatch
  | ParentFolderMatch
  | AnyMatch
  deriving DecidableEq, Repr

/-- The member `PathEndMatcher::matchesMaskEnd(path)`: the test made when the mask is
exhausted. -/
def PathEndMatcher.matchesMaskEnd : PathEndMatcher → Zstring → Bool
  | .FullMatch, path => path.isEmpty
  | .ParentFolderMatch, path => path.head? == some FILE_NAME_SEPARATOR
  | .AnyMatch, path => path.isEmpty || path.head? == some FILE_NAME_SEPARATOR

/-- The member `PathEndMatcher::matchesMaskStar(path)`: the test made when the mask ends
in `*`. -/
def PathEndMatcher.matchesMaskStar : PathEndMatcher → Zstring → Bool
  | .FullMatch, _ => true
  | .ParentFolderMatch, path => (cStringFind path FILE_NAME_SEPARATOR).isSome
  | .AnyMatch, _ => true

/-- The `*?` loop of `matchesMask`:
`while (*path++ != 0) if (matchesMask(path, mask)) return true; return false;`
with `k` the recursive call on the mask that follows `*?`. -/
def starQuestionLoop (k : Zstring → Bool) : Zstring → Bool
  | [] => false
  | _ :: path => k path || starQuestionLoop k path

/-- The `*[letter]` loop of `matchesMask`:
`for (;;) { path = cStringFind(path, m); if (!path) return false; ++path;
if (matchesMask(path, mask)) return true; }`
with `k` the recursive call on the mask that follows the letter. The search of
`cStringFind` is the scan over the characters that differ from `m`
(see `starLetterLoop_eq_find`). -/
def starLetterLoop (m : Char) (k : Zstring → Bool) : Zstring → Bool
  | [] => false
  | c :: path => if c = m then k path || starLetterLoop m k path else starLetterLoop m k path

/-- The template `matchesMask<PathEndMatcher>(path, mask)` of the source on two C strings.
The outer `for (;; ++mask, ++path)` is the recursion on the tails; the
`do m = *++mask; while (m == '*')` that skips a run of stars is the recursive call
on the tail of the mask while the next mask character is again `*`
(see `matchesMask_star_run`). -/
def matchesMask (pe : PathEndMatcher) (path mask : Zstring) : Bool :=
  match mask with
  | [] => pe.matchesMaskEnd path
  | m :: mask1 =>
    if m = '?' then
      match path with
      | [] => false
      | _ :: path1 => matchesMask pe path1 mask1
    else if m = '*' then
      match mask1 with
      | [] => pe.matchesMaskStar path
      | m2 :: mask2 =>
        if m2 = '*' then matchesMask pe path (m2 :: mask2)
        else if m2 = '?' then starQuestionLoop (fun p => matchesMask pe p mask2) path
        else starLetterLoop m2 (fun p => matchesMask pe p mask2) path
    else
      match path with
      | [] => false
      | c :: path1 => if c ≠ m then false else matchesMask pe path1 mask1

/-- The function `matchesMaskBegin(str, mask)` of the source: true if the string matches at
least the beginning of the mask. -/
def matchesMaskBegin : Zstring → Zstring → Bool
  | str, [] => str.isEmpty
  | str, m :: mask =>
    if m = '?' then
      match str with
      | [] => true
      | _ :: str1 => matchesMaskBegin str1 mask
    else if m = '*' then true
    else
      match str with
      | [] => true
      | c :: str1 => if c ≠ m then false else matchesMaskBegin str1 mask

/-- The overload `matchesMask<PathEndMatcher>(name, masks)` on a vector of masks:
`std::any_of` over the masks. -/
def matchesMaskVec (pe : PathEndMatcher) (name : Zstring) (masks : List Zstring) : Bool :=
  masks.any (fun mask => matchesMask pe name mask)

/-- The overload `matchesMaskBegin(name, masks)` on a vector of masks. -/
def matchesMaskBeginVec (name : Zstring) (masks : List Zstring) : Bool :=
  masks.any (fun mask => matchesMaskBegin name mask)

/-! ## String helpers of `zen` used by the mask compiler -/

/-- Modelled from the spec: `zen::startsWith` is declared in `zen/string_tools.h`,
which is not part of the excerpt; the spec's "starts with". -/
def startsWith (str pre : Zstring) : Bool :=
  match pre, str with
  | [], _ => true
  | _ :: _, [] => false
  | p :: pre1, c :: str1 => c == p && startsWith str1 pre1

/-- Modelled from the spec: `zen::endsWith` is declared in `zen/string_tools.h`,
which is not part of the excerpt; the spec's "ends with". -/
def endsWith (str post : Zstring) : Bool :=
  startsWith str.reverse post.reverse

/-- Modelled from the spec: `zen::afterFirst(str, term, IF_MISSING_RETURN_NONE)` is
declared in `zen/string_tools.h`, which is not part of the excerpt; the spec's
"remainder after the first" occurrence of `term`, and the empty string when
`term` does not occur. -/
def afterFirst : Zstring → Zstring → Zstring
  | [], _ => []
  | c :: str, term =>
    if startsWith (c :: str) term then (c :: str).drop term.length else afterFirst str term

/-- Modelled from the spec: `zen::beforeLast(str, ch, IF_MISSING_RETURN_NONE)` is
declared in `zen/string_tools.h`, which is not part of the excerpt; the text
before the last occurrence of `ch`, and the empty string when `ch` does not
occur. -/
def beforeLast (str : Zstring) (ch : Char) : Zstring :=
  (afterFirst str.reverse [ch]).reverse

/-- Modelled from the spec: `zen::split(str, delimiter)` is declared in
`zen/string_tools.h`, which is not part of the excerpt; the pieces obtained by
cutting `str` at every `delimiter`, empty pieces included. -/
def split : Zstring → Char → List Zstring
  | [], _ => [[]]
  | c :: str, delimiter =>
    if c = delimiter then [] :: split str delimiter
    else
      match split str delimiter with
      | [] => [[c]]
      | piece :: pieces => (c :: piece) :: pieces

/-- Modelled from the spec: `zen::isWhiteSpace` is declared in
`zen/string_tools.h`, which is not part of the excerpt; the whitespace
characters of the "C" locale: space, tab, line feed, vertical tab, form feed,
carriage return. -/
def isWhiteSpace (c : Char) : Bool :=
  c.toNat == 32 || (9 ≤ c.toNat && c.toNat ≤ 13)

/-- Modelled from the spec: `zen::trim` / `zen::trimCpy` are declared in
`zen/string_tools.h`, which is not part of the excerpt; the string without its
leading and trailing whitespace. -/
def trimCpy (str : Zstring) : Zstring :=
  ((str.dropWhile isWhiteSpace).reverse.dropWhile isWhiteSpace).reverse

/-- Modelled from the spec: the order `operator<` of `Zstring` is declared in
`zen/zstring.h`, which is not part of the excerpt; the lexicographic order of
the character sequences. -/
def zstringLess : Zstring → Zstring → Bool
  | [], [] => false
  | [], _ :: _ => true
  | _ :: _, [] => false
  | a :: lhs, b :: rhs =>
    if a.toNat < b.toNat then true
    else if b.toNat < a.toNat then false
    else zstringLess lhs rhs

/-- Insertion of one string into a sorted sequence without duplicates. -/
def insertSortedUnique (x : Zstring) : List Zstring → List Zstring
  | [] => [x]
  | y :: ys =>
    if zstringLess x y then x :: y :: ys
    else if x = y then y :: ys
    else y :: insertSortedUnique x ys

/-- Modelled from the spec: `zen::removeDuplicates` is declared in
`zen/stl_tools.h`, which is not part of the excerpt; the spec's "ordered
sequence of mask strings, deduplicated, insertion order irrelevant": the
strings are sorted and every string is kept once. -/
def removeDuplicates (v : List Zstring) : List Zstring :=
  v.foldr insertSortedUnique []

/-! ## Mask compiler -/

/-- The constant `asterisk` of the source. -/
def asterisk : Zstring := ['*']

/-- The constant `sepAsterisk` of the source. -/
def sepAsterisk : Zstring := FILE_NAME_SEPARATOR :: asterisk

/-- The constant `asteriskSep` of the source. -/
def asteriskSep : Zstring := asterisk ++ [FILE_NAME_SEPARATOR]

/-- The lambda `processTail` of `addFilterEntry`; the two vectors it captures by
reference are passed in and returned. -/
def processTail (phrase : Zstring) (masksFileFolder masksFolder : List Zstring) :
    List Zstring × List Zstring :=
  if endsWith phrase [FILE_NAME_SEPARATOR] || endsWith phrase sepAsterisk then
    let dirPhrase := beforeLast phrase FILE_NAME_SEPARATOR
    if !dirPhrase.isEmpty then (masksFileFolder, masksFolder ++ [dirPhrase])
    else (masksFileFolder, masksFolder)
  else if !phrase.isEmpty then (masksFileFolder ++ [phrase], masksFolder)
  else (masksFileFolder, masksFolder)

/-- The function `addFilterEntry(filterPhrase, masksFileFolder, masksFolder)` of the source
(`ZEN_LINUX`: the phrase is used as it is); the two output vectors are passed in
and returned. -/
def addFilterEntry (filterPhrase : Zstring) (masksFileFolder masksFolder : List Zstring) :
    List Zstring × List Zstring :=
  let filterFmt := filterPhrase
  if startsWith filterFmt [FILE_NAME_SEPARATOR] then
    processTail (afterFirst filterFmt [FILE_NAME_SEPARATOR]) masksFileFolder masksFolder
  else
    let r := processTail filterFmt masksFileFolder masksFolder
    if startsWith filterFmt asteriskSep then
      processTail (afterFirst filterFmt asteriskSep) r.1 r.2
    else r

/-- The function `zen::splitByDelimiter(filterString)` of the source: split at `;`, then at
newline, trim every piece and drop the empty ones. -/
def splitByDelimiter (filterString : Zstring) : List Zstring :=
  ((split filterString ';').map (fun str =>
    ((split str (Char.ofNat 10)).map trimCpy).filter (fun entry => !entry.isEmpty))).flatten

/-! ## NameFilter -/

/-- The four mask vectors of the class `NameFilter`. -/
structure NameFilter where
  includeMasksFileFolder : List Zstring
  includeMasksFolder : List Zstring
  excludeMasksFileFolder : List Zstring
  excludeMasksFolder : List Zstring
  deriving DecidableEq, Repr

/-- The loop `for (entry : entries) addFilterEntry(entry, masksFileFolder, masksFolder)`. -/
def addFilterEntries (entries : List Zstring) (masksFileFolder masksFolder : List Zstring) :
    List Zstring × List Zstring :=
  entries.foldl (fun acc entry => addFilterEntry entry acc.1 acc.2) (masksFileFolder, masksFolder)

/-- The constructor `NameFilter::NameFilter(includePhrase, excludePhrase)`. -/
def NameFilter.ctor (includePhrase excludePhrase : Zstring) : NameFilter :=
  let inc := addFilterEntries (splitByDelimiter includePhrase) [] []
  let exc := addFilterEntries (splitByDelimiter excludePhrase) [] []
  { includeMasksFileFolder := removeDuplicates inc.1
    includeMasksFolder := removeDuplicates inc.2
    excludeMasksFileFolder := removeDuplicates exc.1
    excludeMasksFolder := removeDuplicates exc.2 }

/-- The member `NameFilter::passFileFilter(relFilePath)` (`ZEN_LINUX`: the path is used as
it is). -/
def NameFilter.passFileFilter (f : NameFilter) (relFilePath : Zstring) : Bool :=
  let pathFmt := relFilePath
  if matchesMaskVec .AnyMatch pathFmt f.excludeMasksFileFolder ||
      matchesMaskVec .ParentFolderMatch pathFmt f.excludeMasksFolder then
    false
  else
    matchesMaskVec .AnyMatch pathFmt f.includeMasksFileFolder ||
      matchesMaskVec .ParentFolderMatch pathFmt f.includeMasksFolder

/-- The member `NameFilter::passDirFilter(relDirPath, childItemMightMatch)`. The optional
output is `none` for a null pointer and `some b` for a pointer to the value `b`;
the second component of the result is the pointee after the call. -/
def NameFilter.passDirFilter (f : NameFilter) (relDirPath : Zstring)
    (childItemMightMatch : Option Bool) : Bool × Option Bool :=
  let pathFmt := relDirPath
  if matchesMaskVec .AnyMatch pathFmt f.excludeMasksFileFolder ||
      matchesMaskVec .AnyMatch pathFmt f.excludeMasksFolder then
    (false, childItemMightMatch.map (fun _ => false))
  else if !matchesMaskVec .AnyMatch pathFmt f.includeMasksFileFolder &&
      !matchesMaskVec .AnyMatch pathFmt f.includeMasksFolder then
    (false, childItemMightMatch.map (fun _ =>
      let childPathBegin := pathFmt ++ [FILE_NAME_SEPARATOR]
      matchesMaskBeginVec childPathBegin f.includeMasksFileFolder ||
        matchesMaskBeginVec childPathBegin f.includeMasksFolder))
  else
    (true, childItemMightMatch)

/-- The member `NameFilter::addExclusion(excludePhrase)`: the phrases are compiled onto
the two exclude vectors, which are then deduplicated again. -/
def NameFilter.addExclusion (f : NameFilter) (excludePhrase : Zstring) : NameFilter :=
  let exc := addFilterEntries (splitByDelimiter excludePhrase)
    f.excludeMasksFileFolder f.excludeMasksFolder
  { includeMasksFileFolder := f.includeMasksFileFolder
    includeMasksFolder := f.includeMasksFolder
    excludeMasksFileFolder := removeDuplicates exc.1
    excludeMasksFolder := removeDuplicates exc.2 }

/-- Modelled from the spec: `operator<` of `std::vector<Zstring>` belongs to the
standard library and is not part of the excerpt; the spec's "ordered
sequence/lexicographic comparison" (`std::lexicographical_compare` on the
elements with the order of `Zstring`). -/
def vectorLess : List Zstring → List Zstring → Bool
  | [], [] => false
  | [], _ :: _ => true
  | _ :: _, [] => false
  | a :: lhs, b :: rhs =>
    if zstringLess a b then true
    else if zstringLess b a then false
    else vectorLess lhs rhs

/-- The member `NameFilter::cmpLessSameType(other)`, with `other` already cast to
`NameFilter`. -/
def NameFilter.cmpLessSameType (f other : NameFilter) : Bool :=
  if f.includeMasksFileFolder ≠ other.includeMasksFileFolder then
    vectorLess f.includeMasksFileFolder other.includeMasksFileFolder
  else if f.includeMasksFolder ≠ other.includeMasksFolder then
    vectorLess f.includeMasksFolder other.includeMasksFolder
  else if f.excludeMasksFileFolder ≠ other.excludeMasksFileFolder then
    vectorLess f.excludeMasksFileFolder other.excludeMasksFileFolder
  else if f.excludeMasksFolder ≠ other.excludeMasksFolder then
    vectorLess f.excludeMasksFolder other.excludeMasksFolder
  else
    false

/-- The operator `zen::operator<(lhs, rhs)` of the source on two filters of the class
`NameFilter`: the two `typeid` are the same and the comparison is
`lhs.cmpLessSameType(rhs)`. -/
def hardFilterLess (lhs rhs : NameFilter) : Bool :=
  lhs.cmpLessSameType rhs

/-- Modelled from the spec: `operator==` of `HardFilter` is declared in
`lib/hard_filter.h`, which is not part of the excerpt; the spec's equality "on
compiled content" under the ordering of the filters: neither filter is less
than the other. -/
def hardFilterEq (lhs rhs : NameFilter) : Bool :=
  !hardFilterLess lhs rhs && !hardFilterLess rhs lhs

/-- The static member `NameFilter::isNull(includePhrase, excludePhrase)`: the check on
the raw phrase texts. -/
def NameFilter.isNullPhrases (includePhrase excludePhrase : Zstring) : Bool :=
  let incl := trimCpy includePhrase
  let excl := trimCpy excludePhrase
  incl == ['*'] && excl.isEmpty

/-- The member `NameFilter::isNull()`: comparison with the filter constructed from
`*` and the empty string. -/
def NameFilter.isNull (f : NameFilter) : Bool :=
  hardFilterEq f (NameFilter.ctor ['*'] [])

/-! ## Language dialects (`FreeFileSync/Source/lib/localization.cpp`) -/

/-- Modelled from the spec: the enumeration `wxLanguage` is declared by wxWidgets
(`wx/intl.h`), which is not part of the excerpt. Its enumerators are distinct
values; the ones named in `mapLanguageDialect` are listed by name, and `other`
stands for every enumeration value that the function does not name. -/
inductive wxLanguage where
  | wxLANGUAGE_ARABIC
  | wxLANGUAGE_ARABIC_ALGERIA
  | wxLANGUAGE_ARABIC_BAHRAIN
  | wxLANGUAGE_ARABIC_EGYPT
  | wxLANGUAGE_ARABIC_IRAQ
  | wxLANGUAGE_ARABIC_JORDAN
  | wxLANGUAGE_ARABIC_KUWAIT
  | wxLANGUAGE_ARABIC_LEBANON
  | wxLANGUAGE_ARABIC_LIBYA
  | wxLANGUAGE_ARABIC_MOROCCO
  | wxLANGUAGE_ARABIC_OMAN
  | wxLANGUAGE_ARABIC_QATAR
  | wxLANGUAGE_ARABIC_SAUDI_ARABIA
  | wxLANGUAGE_ARABIC_SUDAN
  | wxLANGUAGE_ARABIC_SYRIA
  | wxLANGUAGE_ARABIC_TUNISIA
  | wxLANGUAGE_ARABIC_UAE
  | wxLANGUAGE_ARABIC_YEMEN
  | wxLANGUAGE_CHINESE_SIMPLIFIED
  | wxLANGUAGE_CHINESE
  | wxLANGUAGE_CHINESE_SINGAPORE
  | wxLANGUAGE_CHINESE_TRADITIONAL
  | wxLANGUAGE_CHINESE_TAIWAN
  | wxLANGUAGE_CHINESE_HONGKONG
  | wxLANGUAGE_CHINESE_MACAU
  | wxLANGUAGE_DUTCH
  | wxLANGUAGE_DUTCH_BELGIAN
  | wxLANGUAGE_ENGLISH_UK
  | wxLANGUAGE_ENGLISH_AUSTRALIA
  | wxLANGUAGE_ENGLISH_NEW_ZEALAND
  | wxLANGUAGE_ENGLISH_TRINIDAD
  | wxLANGUAGE_ENGLISH_CARIBBEAN
  | wxLANGUAGE_ENGLISH_JAMAICA
  | wxLANGUAGE_ENGLISH_BELIZE
  | wxLANGUAGE_ENGLISH_EIRE
  | wxLANGUAGE_ENGLISH_SOUTH_AFRICA
  | wxLANGUAGE_ENGLISH_ZIMBABWE
  | wxLANGUAGE_ENGLISH_BOTSWANA
  | wxLANGUAGE_ENGLISH_DENMARK
  | wxLANGUAGE_ENGLISH_US
  | wxLANGUAGE_ENGLISH
  | wxLANGUAGE_ENGLISH_CANADA
  | wxLANGUAGE_ENGLISH_PHILIPPINES
  | wxLANGUAGE_FRENCH
  | wxLANGUAGE_FRENCH_BELGIAN
  | wxLANGUAGE_FRENCH_CANADIAN
  | wxLANGUAGE_FRENCH_LUXEMBOURG
  | wxLANGUAGE_FRENCH_MONACO
  | wxLANGUAGE_FRENCH_SWISS
  | wxLANGUAGE_GERMAN
  | wxLANGUAGE_GERMAN_AUSTRIAN
  | wxLANGUAGE_GERMAN_BELGIUM
  | wxLANGUAGE_GERMAN_LIECHTENSTEIN
  | wxLANGUAGE_GERMAN_LUXEMBOURG
  | wxLANGUAGE_GERMAN_SWISS
  | wxLANGUAGE_ITALIAN
  | wxLANGUAGE_ITALIAN_SWISS
  | wxLANGUAGE_NORWEGIAN_BOKMAL
  | wxLANGUAGE_NORWEGIAN_NYNORSK
  | wxLANGUAGE_ROMANIAN
  | wxLANGUAGE_MOLDAVIAN
  | wxLANGUAGE_RUSSIAN
  | wxLANGUAGE_RUSSIAN_UKRAINE
  | wxLANGUAGE_SERBIAN
  | wxLANGUAGE_SERBIAN_CYRILLIC
  | wxLANGUAGE_SERBIAN_LATIN
  | wxLANGUAGE_SERBO_CROATIAN
  | wxLANGUAGE_SPANISH
  | wxLANGUAGE_SPANISH_ARGENTINA
  | wxLANGUAGE_SPANISH_BOLIVIA
  | wxLANGUAGE_SPANISH_CHILE
  | wxLANGUAGE_SPANISH_COLOMBIA
  | wxLANGUAGE_SPANISH_COSTA_RICA
  | wxLANGUAGE_SPANISH_DOMINICAN_REPUBLIC
  | wxLANGUAGE_SPANISH_ECUADOR
  | wxLANGUAGE_SPANISH_EL_SALVADOR
  | wxLANGUAGE_SPANISH_GUATEMALA
  | wxLANGUAGE_SPANISH_HONDURAS
  | wxLANGUAGE_SPANISH_MEXICAN
  | wxLANGUAGE_SPANISH_MODERN
  | wxLANGUAGE_SPANISH_NICARAGUA
  | wxLANGUAGE_SPANISH_PANAMA
  | wxLANGUAGE_SPANISH_PARAGUAY
  | wxLANGUAGE_SPANISH_PERU
  | wxLANGUAGE_SPANISH_PUERTO_RICO
  | wxLANGUAGE_SPANISH_URUGUAY
  | wxLANGUAGE_SPANISH_US
  | wxLANGUAGE_SPANISH_VENEZUELA
  | wxLANGUAGE_SWEDISH
  | wxLANGUAGE_SWEDISH_FINLAND
  | wxLANGUAGE_BULGARIAN
  | wxLANGUAGE_CROATIAN
  | wxLANGUAGE_CZECH
  | wxLANGUAGE_DANISH
  | wxLANGUAGE_FINNISH
  | wxLANGUAGE_GREEK
  | wxLANGUAGE_HINDI
  | wxLANGUAGE_HEBREW
  | wxLANGUAGE_HUNGARIAN
  | wxLANGUAGE_JAPANESE
  | wxLANGUAGE_KOREAN
  | wxLANGUAGE_LITHUANIAN
  | wxLANGUAGE_POLISH
  | wxLANGUAGE_PORTUGUESE
  | wxLANGUAGE_PORTUGUESE_BRAZILIAN
  | wxLANGUAGE_SCOTS_GAELIC
  | wxLANGUAGE_SLOVAK
  | wxLANGUAGE_SLOVENIAN
  | wxLANGUAGE_TURKISH
  | wxLANGUAGE_UKRAINIAN
  | other (value : Nat)

/-- The function `mapLanguageDialect(language)` of the source: the `switch` over the
dialects, each group of `case` labels with its `return`, and the `default` that
returns the argument. -/
def mapLanguageDialect (language : wxLanguage) : wxLanguage :=
  match language with
  | .wxLANGUAGE_ARABIC_ALGERIA => .wxLANGUAGE_ARABIC
  | .wxLANGUAGE_ARABIC_BAHRAIN => .wxLANGUAGE_ARABIC
  | .wxLANGUAGE_ARABIC_EGYPT => .wxLANGUAGE_ARABIC
  | .wxLANGUAGE_ARABIC_IRAQ => .wxLANGUAGE_ARABIC
  | .wxLANGUAGE_ARABIC_JORDAN => .wxLANGUAGE_ARABIC
  | .wxLANGUAGE_ARABIC_KUWAIT => .wxLANGUAGE_ARABIC
  | .wxLANGUAGE_ARABIC_LEBANON => .wxLANGUAGE_ARABIC
  | .wxLANGUAGE_ARABIC_LIBYA => .wxLANGUAGE_ARABIC
  | .wxLANGUAGE_ARABIC_MOROCCO => .wxLANGUAGE_ARABIC
  | .wxLANGUAGE_ARABIC_OMAN => .wxLANGUAGE_ARABIC
  | .wxLANGUAGE_ARABIC_QATAR => .wxLANGUAGE_ARABIC
  | .wxLANGUAGE_ARABIC_SAUDI_ARABIA => .wxLANGUAGE_ARABIC
  | .wxLANGUAGE_ARABIC_SUDAN => .wxLANGUAGE_ARABIC
  | .wxLANGUAGE_ARABIC_SYRIA => .wxLANGUAGE_ARABIC
  | .wxLANGUAGE_ARABIC_TUNISIA => .wxLANGUAGE_ARABIC
  | .wxLANGUAGE_ARABIC_UAE => .wxLANGUAGE_ARABIC
  | .wxLANGUAGE_ARABIC_YEMEN => .wxLANGUAGE_ARABIC
  | .wxLANGUAGE_CHINESE => .wxLANGUAGE_CHINESE_SIMPLIFIED
  | .wxLANGUAGE_CHINESE_SINGAPORE => .wxLANGUAGE_CHINESE_SIMPLIFIED
  | .wxLANGUAGE_CHINESE_TAIWAN => .wxLANGUAGE_CHINESE_TRADITIONAL
  | .wxLANGUAGE_CHINESE_HONGKONG => .wxLANGUAGE_CHINESE_TRADITIONAL
  | .wxLANGUAGE_CHINESE_MACAU => .wxLANGUAGE_CHINESE_TRADITIONAL
  | .wxLANGUAGE_DUTCH_BELGIAN => .wxLANGUAGE_DUTCH
  | .wxLANGUAGE_ENGLISH_AUSTRALIA => .wxLANGUAGE_ENGLISH_UK
  | .wxLANGUAGE_ENGLISH_NEW_ZEALAND => .wxLANGUAGE_ENGLISH_UK
  | .wxLANGUAGE_ENGLISH_TRINIDAD => .wxLANGUAGE_ENGLISH_UK
  | .wxLANGUAGE_ENGLISH_CARIBBEAN => .wxLANGUAGE_ENGLISH_UK
  | .wxLANGUAGE_ENGLISH_JAMAICA => .wxLANGUAGE_ENGLISH_UK
  | .wxLANGUAGE_ENGLISH_BELIZE => .wxLANGUAGE_ENGLISH_UK
  | .wxLANGUAGE_ENGLISH_EIRE => .wxLANGUAGE_ENGLISH_UK
  | .wxLANGUAGE_ENGLISH_SOUTH_AFRICA => .wxLANGUAGE_ENGLISH_UK
  | .wxLANGUAGE_ENGLISH_ZIMBABWE => .wxLANGUAGE_ENGLISH_UK
  | .wxLANGUAGE_ENGLISH_BOTSWANA => .wxLANGUAGE_ENGLISH_UK
  | .wxLANGUAGE_ENGLISH_DENMARK => .wxLANGUAGE_ENGLISH_UK
  | .wxLANGUAGE_ENGLISH => .wxLANGUAGE_ENGLISH_US
  | .wxLANGUAGE_ENGLISH_CANADA => .wxLANGUAGE_ENGLISH_US
  | .wxLANGUAGE_ENGLISH_PHILIPPINES => .wxLANGUAGE_ENGLISH_US
  | .wxLANGUAGE_FRENCH_BELGIAN => .wxLANGUAGE_FRENCH
  | .wxLANGUAGE_FRENCH_CANADIAN => .wxLANGUAGE_FRENCH
  | .wxLANGUAGE_FRENCH_LUXEMBOURG => .wxLANGUAGE_FRENCH
  | .wxLANGUAGE_FRENCH_MONACO => .wxLANGUAGE_FRENCH
  | .wxLANGUAGE_FRENCH_SWISS => .wxLANGUAGE_FRENCH
  | .wxLANGUAGE_GERMAN_AUSTRIAN => .wxLANGUAGE_GERMAN
  | .wxLANGUAGE_GERMAN_BELGIUM => .wxLANGUAGE_GERMAN
  | .wxLANGUAGE_GERMAN_LIECHTENSTEIN => .wxLANGUAGE_GERMAN
  | .wxLANGUAGE_GERMAN_LUXEMBOURG => .wxLANGUAGE_GERMAN
  | .wxLANGUAGE_GERMAN_SWISS => .wxLANGUAGE_GERMAN
  | .wxLANGUAGE_ITALIAN_SWISS => .wxLANGUAGE_ITALIAN
  | .wxLANGUAGE_NORWEGIAN_NYNORSK => .wxLANGUAGE_NORWEGIAN_BOKMAL
  | .wxLANGUAGE_MOLDAVIAN => .wxLANGUAGE_ROMANIAN
  | .wxLANGUAGE_RUSSIAN_UKRAINE => .wxLANGUAGE_RUSSIAN
  | .wxLANGUAGE_SERBIAN_CYRILLIC => .wxLANGUAGE_SERBIAN
  | .wxLANGUAGE_SERBIAN_LATIN => .wxLANGUAGE_SERBIAN
  | .wxLANGUAGE_SERBO_CROATIAN => .wxLANGUAGE_SERBIAN
  | .wxLANGUAGE_SPANISH_ARGENTINA => .wxLANGUAGE_SPANISH
  | .wxLANGUAGE_SPANISH_BOLIVIA => .wxLANGUAGE_SPANISH
  | .wxLANGUAGE_SPANISH_CHILE => .wxLANGUAGE_SPANISH
  | .wxLANGUAGE_SPANISH_COLOMBIA => .wxLANGUAGE_SPANISH
  | .wxLANGUAGE_SPANISH_COSTA_RICA => .wxLANGUAGE_SPANISH
  | .wxLANGUAGE_SPANISH_DOMINICAN_REPUBLIC => .wxLANGUAGE_SPANISH
  | .wxLANGUAGE_SPANISH_ECUADOR => .wxLANGUAGE_SPANISH
  | .wxLANGUAGE_SPANISH_EL_SALVADOR => .wxLANGUAGE_SPANISH
  | .wxLANGUAGE_SPANISH_GUATEMALA => .wxLANGUAGE_SPANISH
  | .wxLANGUAGE_SPANISH_HONDURAS => .wxLANGUAGE_SPANISH
  | .wxLANGUAGE_SPANISH_MEXICAN => .wxLANGUAGE_SPANISH
  | .wxLANGUAGE_SPANISH_MODERN => .wxLANGUAGE_SPANISH
  | .wxLANGUAGE_SPANISH_NICARAGUA => .wxLANGUAGE_SPANISH
  | .wxLANGUAGE_SPANISH_PANAMA => .wxLANGUAGE_SPANISH
  | .wxLANGUAGE_SPANISH_PARAGUAY => .wxLANGUAGE_SPANISH
  | .wxLANGUAGE_SPANISH_PERU => .wxLANGUAGE_SPANISH
  | .wxLANGUAGE_SPANISH_PUERTO_RICO => .wxLANGUAGE_SPANISH
  | .wxLANGUAGE_SPANISH_URUGUAY => .wxLANGUAGE_SPANISH
  | .wxLANGUAGE_SPANISH_US => .wxLANGUAGE_SPANISH
  | .wxLANGUAGE_SPANISH_VENEZUELA => .wxLANGUAGE_SPANISH
  | .wxLANGUAGE_SWEDISH_FINLAND => .wxLANGUAGE_SWEDISH
  | _ => language

/-- The `case` labels of the `switch` of `mapLanguageDialect`, in the order of the
source: the values the function lists as a dialect of another language. -/
def listedDialects : List wxLanguage :=
  [ .wxLANGUAGE_ARABIC_ALGERIA,
    .wxLANGUAGE_ARABIC_BAHRAIN,
    .wxLANGUAGE_ARABIC_EGYPT,
    .wxLANGUAGE_ARABIC_IRAQ,
    .wxLANGUAGE_ARABIC_JORDAN,
    .wxLANGUAGE_ARABIC_KUWAIT,
    .wxLANGUAGE_ARABIC_LEBANON,
    .wxLANGUAGE_ARABIC_LIBYA,
    .wxLANGUAGE_ARABIC_MOROCCO,
    .wxLANGUAGE_ARABIC_OMAN,
    .wxLANGUAGE_ARABIC_QATAR,
    .wxLANGUAGE_ARABIC_SAUDI_ARABIA,
    .wxLANGUAGE_ARABIC_SUDAN,
    .wxLANGUAGE_ARABIC_SYRIA,
    .wxLANGUAGE_ARABIC_TUNISIA,
    .wxLANGUAGE_ARABIC_UAE,
    .wxLANGUAGE_ARABIC_YEMEN,
    .wxLANGUAGE_CHINESE,
    .wxLANGUAGE_CHINESE_SINGAPORE,
    .wxLANGUAGE_CHINESE_TAIWAN,
    .wxLANGUAGE_CHINESE_HONGKONG,
    .wxLANGUAGE_CHINESE_MACAU,
    .wxLANGUAGE_DUTCH_BELGIAN,
    .wxLANGUAGE_ENGLISH_AUSTRALIA,
    .wxLANGUAGE_ENGLISH_NEW_ZEALAND,
    .wxLANGUAGE_ENGLISH_TRINIDAD,
    .wxLANGUAGE_ENGLISH_CARIBBEAN,
    .wxLANGUAGE_ENGLISH_JAMAICA,
    .wxLANGUAGE_ENGLISH_BELIZE,
    .wxLANGUAGE_ENGLISH_EIRE,
    .wxLANGUAGE_ENGLISH_SOUTH_AFRICA,
    .wxLANGUAGE_ENGLISH_ZIMBABWE,
    .wxLANGUAGE_ENGLISH_BOTSWANA,
    .wxLANGUAGE_ENGLISH_DENMARK,
    .wxLANGUAGE_ENGLISH,
    .wxLANGUAGE_ENGLISH_CANADA,
    .wxLANGUAGE_ENGLISH_PHILIPPINES,
    .wxLANGUAGE_FRENCH_BELGIAN,
    .wxLANGUAGE_FRENCH_CANADIAN,
    .wxLANGUAGE_FRENCH_LUXEMBOURG,
    .wxLANGUAGE_FRENCH_MONACO,
    .wxLANGUAGE_FRENCH_SWISS,
    .wxLANGUAGE_GERMAN_AUSTRIAN,
    .wxLANGUAGE_GERMAN_BELGIUM,
    .wxLANGUAGE_GERMAN_LIECHTENSTEIN,
    .wxLANGUAGE_GERMAN_LUXEMBOURG,
    .wxLANGUAGE_GERMAN_SWISS,
    .wxLANGUAGE_ITALIAN_SWISS,
    .wxLANGUAGE_NORWEGIAN_NYNORSK,
    .wxLANGUAGE_MOLDAVIAN,
    .wxLANGUAGE_RUSSIAN_UKRAINE,
    .wxLANGUAGE_SERBIAN_CYRILLIC,
    .wxLANGUAGE_SERBIAN_LATIN,
    .wxLANGUAGE_SERBO_CROATIAN,
    .wxLANGUAGE_SPANISH_ARGENTINA,
    .wxLANGUAGE_SPANISH_BOLIVIA,
    .wxLANGUAGE_SPANISH_CHILE,
    .wxLANGUAGE_SPANISH_COLOMBIA,
    .wxLANGUAGE_SPANISH_COSTA_RICA,
    .wxLANGUAGE_SPANISH_DOMINICAN_REPUBLIC,
    .wxLANGUAGE_SPANISH_ECUADOR,
    .wxLANGUAGE_SPANISH_EL_SALVADOR,
    .wxLANGUAGE_SPANISH_GUATEMALA,
    .wxLANGUAGE_SPANISH_HONDURAS,
    .wxLANGUAGE_SPANISH_MEXICAN,
    .wxLANGUAGE_SPANISH_MODERN,
    .wxLANGUAGE_SPANISH_NICARAGUA,
    .wxLANGUAGE_SPANISH_PANAMA,
    .wxLANGUAGE_SPANISH_PARAGUAY,
    .wxLANGUAGE_SPANISH_PERU,
    .wxLANGUAGE_SPANISH_PUERTO_RICO,
    .wxLANGUAGE_SPANISH_URUGUAY,
    .wxLANGUAGE_SPANISH_US,
    .wxLANGUAGE_SPANISH_VENEZUELA,
    .wxLANGUAGE_SWEDISH_FINLAND ]

/-! ## The control flow of the matchers, with explicit budgets -/

/-- The function `cStringFind` as the loop of the source, one unit of `fuel` for each pass
through `for (;;)`; `none` when the fuel runs out, `some none` for the null
pointer. -/
def cStringFindFuel : Nat → Zstring → Char → Option (Option Zstring)
  | 0, _, _ => none
  | fuel + 1, str, ch =>
    match str with
    | [] => some none
    | s :: rest => if s = ch then some (some (s :: rest)) else cStringFindFuel fuel rest ch

/-- Where the control of `matchesMask` stands: at the head of the outer
`for (;; ++mask, ++path)` (`scan`), inside `do m = *++mask; while (m == '*')` with
the mask pointer on the character after a star (`skipStars`), at the head of the
`*?` loop `while (*path++ != 0)` (`starQuestion`), or at the head of the
`*[letter]` loop `for (;;)` (`starLetter`). -/
inductive MatcherLoop where
  | scan (path mask : Zstring)
  | skipStars (path mask : Zstring)
  | starQuestion (path mask : Zstring)
  | starLetter (m : Char) (path mask : Zstring)

/-- The template `matchesMask<PathEndMatcher>` of the source run step by step. Every pass
through one of its loops costs one unit of `steps`, and every recursive call
`matchesMask<PathEndMatcher>(path, mask)` costs one unit of `depth`; the result
is `none` when one of the two budgets runs out. -/
def matchesMaskRun (pe : PathEndMatcher) : Nat → Nat → MatcherLoop → Option Bool
  | 0, _, _ => none
  | steps + 1, depth, .scan path mask =>
    match mask with
    | [] => some (pe.matchesMaskEnd path)
    | m :: mask1 =>
      if m = '?' then
        match path with
        | [] => some false
        | _ :: path1 => matchesMaskRun pe steps depth (.scan path1 mask1)
      else if m = '*' then matchesMaskRun pe steps depth (.skipStars path mask1)
      else
        match path with
        | [] => some false
        | c :: path1 =>
          if c ≠ m then some false else matchesMaskRun pe steps depth (.scan path1 mask1)
  | steps + 1, depth, .skipStars path mask =>
    match mask with
    | [] => some (pe.matchesMaskStar path)
    | m :: mask2 =>
      if m = '*' then matchesMaskRun pe steps depth (.skipStars path mask2)
      else if m = '?' then matchesMaskRun pe steps depth (.starQuestion path mask2)
      else matchesMaskRun pe steps depth (.starLetter m path mask2)
  | steps + 1, depth, .starQuestion path mask =>
    match path with
    | [] => some false
    | _ :: path1 =>
      match depth with
      | 0 => none
      | depth1 + 1 =>
        match matchesMaskRun pe steps depth1 (.scan path1 mask) with
        | none => none
        | some true => some true
        | some false => matchesMaskRun pe steps (depth1 + 1) (.starQuestion path1 mask)
  | steps + 1, depth, .starLetter m path mask =>
    match cStringFindFuel (steps + 1) path m with
    | none => none
    | some none => some false
    | some (some found) =>
      match depth with
      | 0 => none
      | depth1 + 1 =>
        match matchesMaskRun pe steps depth1 (.scan found.tail mask) with
        | none => none
        | some true => some true
        | some false => matchesMaskRun pe steps (depth1 + 1) (.starLetter m found.tail mask)

/-- A call `matchesMask<PathEndMatcher>(path, mask)` with a budget of loop passes and a
budget of nested recursive calls. -/
def matchesMaskFuel (steps depth : Nat) (pe : PathEndMatcher) (path mask : Zstring) :
    Option Bool :=
  matchesMaskRun pe steps depth (.scan path mask)

/-- The function `matchesMaskBegin` as the loop of the source, one unit of `fuel` for each
pass through `for (;; ++mask, ++str)`. -/
def matchesMaskBeginFuel : Nat → Zstring → Zstring → Option Bool
  | 0, _, _ => none
  | fuel + 1, str, mask =>
    match mask with
    | [] => some str.isEmpty
    | m :: mask1 =>
      if m = '?' then
        match str with
        | [] => some true
        | _ :: str1 => matchesMaskBeginFuel fuel str1 mask1
      else if m = '*' then some true
      else
        match str with
        | [] => some true
        | c :: str1 => if c ≠ m then some false else matchesMaskBeginFuel fuel str1 mask1

/-! ## Reference cut of a filter text -/

/-- The pieces of the spec's phrase syntax, "multiple phrases separated by `;` or
newline": the text is cut at every character that is `;` or the newline, empty
pieces included. This follows the spec's words, to be compared with the nested
`split` of `splitByDelimiter`. -/
def cutAtDelimiters : Zstring → List Zstring
  | [] => [[]]
  | c :: str =>
    if c = ';' ∨ c = Char.ofNat 10 then [] :: cutAtDelimiters str
    else
      match cutAtDelimiters str with
      | [] => [[c]]
      | piece :: pieces => (c :: piece) :: pieces

/-! ## Reference glob relation -/

/-- The reference glob relation of the spec, `GlobMatch mask path`: `*` stands
for any (possibly empty) run of arbitrary characters, `?` for exactly one
arbitrary character, every other mask character for itself, and mask and path
are exhausted together. -/
inductive GlobMatch : Zstring → Zstring → Prop where
  | done : GlobMatch [] []
  | star (run rest mask : Zstring) : GlobMatch mask rest → GlobMatch ('*' :: mask) (run ++ rest)
  | question (c : Char) (rest mask : Zstring) :
      GlobMatch mask rest → GlobMatch ('?' :: mask) (c :: rest)
  | literal (c : Char) (rest mask : Zstring) :
      c ≠ '*' → c ≠ '?' → GlobMatch mask rest → GlobMatch (c :: mask) (c :: rest)

/-! ## Unfolding lemmas for the matcher -/

theorem matchesMask_nil (pe : PathEndMatcher) (path : Zstring) :
    matchesMask pe path [] = pe.matchesMaskEnd path := by
  simp [matchesMask]

theorem matchesMask_question (pe : PathEndMatcher) (path mask : Zstring) :
    matchesMask pe path ('?' :: mask) =
      match path with
      | [] => false
      | _ :: path1 => matchesMask pe path1 mask := by
  conv => lhs; unfold matchesMask
  cases path <;> simp

theorem matchesMask_literal (pe : PathEndMatcher) (m : Char) (path mask : Zstring)
    (h1 : m ≠ '*') (h2 : m ≠ '?') :
    matchesMask pe path (m :: mask) =
      match path with
      | [] => false
      | c :: path1 => if c = m then matchesMask pe path1 mask else false := by
  conv => lhs; unfold matchesMask
  cases path <;> simp [h1, h2]

theorem matchesMask_star_end (pe : PathEndMatcher) (path : Zstring) :
    matchesMask pe path ['*'] = pe.matchesMaskStar path := by
  simp [matchesMask]

theorem matchesMask_star_star (pe : PathEndMatcher) (path mask : Zstring) :
    matchesMask pe path ('*' :: '*' :: mask) = matchesMask pe path ('*' :: mask) := by
  conv => lhs; unfold matchesMask
  simp

theorem matchesMask_star_question (pe : PathEndMatcher) (path mask : Zstring) :
    matchesMask pe path ('*' :: '?' :: mask) =
      starQuestionLoop (fun p => matchesMask pe p mask) path := by
  conv => lhs; unfold matchesMask
  simp

theorem matchesMask_star_letter (pe : PathEndMatcher) (m : Char) (path mask : Zstring)
    (h1 : m ≠ '*') (h2 : m ≠ '?') :
    matchesMask pe path ('*' :: m :: mask) =
      starLetterLoop m (fun p => matchesMask pe p mask) path := by
  conv => lhs; unfold matchesMask
  simp [h1, h2]

/-! ## The two backtracking loops -/

theorem starQuestionLoop_iff (k : Zstring → Bool) (path : Zstring) :
    starQuestionLoop k path = true ↔ ∃ a c b, path = a ++ c :: b ∧ k b = true := by
  induction path with
  | nil => simp [starQuestionLoop]
  | cons d path ih =>
    simp only [starQuestionLoop, Bool.or_eq_true, ih]
    constructor
    · rintro (h | ⟨a, c, b, rfl, hk⟩)
      · exact ⟨[], d, path, rfl, h⟩
      · exact ⟨d :: a, c, b, rfl, hk⟩
    · rintro ⟨a, c, b, hab, hk⟩
      cases a with
      | nil =>
        simp only [List.nil_append, List.cons.injEq] at hab
        obtain ⟨-, rfl⟩ := hab
        exact Or.inl hk
      | cons e a =>
        simp only [List.cons_append, List.cons.injEq] at hab
        obtain ⟨-, rfl⟩ := hab
        exact Or.inr ⟨a, c, b, rfl, hk⟩

theorem starLetterLoop_iff (m : Char) (k : Zstring → Bool) (path : Zstring) :
    starLetterLoop m k path = true ↔ ∃ a b, path = a ++ m :: b ∧ k b = true := by
  induction path with
  | nil => simp [starLetterLoop]
  | cons d path ih =>
    constructor
    · intro h
      unfold starLetterLoop at h
      split at h
      · rename_i hd
        subst hd
        rcases Bool.or_eq_true _ _ ▸ h with h | h
        · exact ⟨[], path, rfl, h⟩
        · obtain ⟨a, b, rfl, hk⟩ := ih.mp h
          exact ⟨d :: a, b, rfl, hk⟩
      · obtain ⟨a, b, rfl, hk⟩ := ih.mp h
        exact ⟨d :: a, b, rfl, hk⟩
    · rintro ⟨a, b, hab, hk⟩
      have hrec : starLetterLoop m k path = true → starLetterLoop m k (d :: path) = true := by
        intro h
        unfold starLetterLoop
        split
        · simp [h]
        · exact h
      cases a with
      | nil =>
        simp only [List.nil_append, List.cons.injEq] at hab
        obtain ⟨rfl, rfl⟩ := hab
        unfold starLetterLoop
        simp [hk]
      | cons e a =>
        simp only [List.cons_append, List.cons.injEq] at hab
        obtain ⟨-, rfl⟩ := hab
        exact hrec (ih.mpr ⟨a, b, rfl, hk⟩)

/-- The `*[letter]` loop written with `cStringFind`, as in the source: search the
letter, fail when it is absent, step over it, try the rest of the mask, and
search again from there. -/
theorem starLetterLoop_eq_find (m : Char) (k : Zstring → Bool) (path : Zstring) :
    starLetterLoop m k path =
      match cStringFind path m with
      | none => false
      | some found => k found.tail || starLetterLoop m k found.tail := by
  induction path with
  | nil => simp [starLetterLoop, cStringFind]
  | cons d path ih =>
    rw [starLetterLoop, cStringFind]
    by_cases hd : d = m
    · simp [hd]
    · simp only [hd, if_false]
      exact ih

/-- The `do m = *++mask; while (m == '*')` of the source: a mask that starts with
a star is matched as the star followed by the mask behind the whole run of
stars. -/
theorem matchesMask_star_run (pe : PathEndMatcher) (path mask : Zstring) :
    matchesMask pe path ('*' :: mask) =
      matchesMask pe path ('*' :: mask.dropWhile (fun c => c == '*')) := by
  induction mask with
  | nil => simp
  | cons m mask ih =>
    by_cases hm : m = '*'
    · subst hm
      rw [matchesMask_star_star, ih, List.dropWhile_cons]
      simp
    · rw [List.dropWhile_cons]
      simp [hm]

/-! ## Inversion of the glob relation -/

theorem globMatch_nil_iff (q : Zstring) : GlobMatch [] q ↔ q = [] := by
  constructor
  · intro h
    cases h
    rfl
  · rintro rfl
    exact GlobMatch.done

theorem globMatch_star_iff (mask q : Zstring) :
    GlobMatch ('*' :: mask) q ↔ ∃ a b, q = a ++ b ∧ GlobMatch mask b := by
  constructor
  · intro h
    cases h with
    | star run rest _ h => exact ⟨run, rest, rfl, h⟩
    | literal c rest _ h1 _ _ => exact absurd rfl h1
  · rintro ⟨a, b, rfl, h⟩
    exact GlobMatch.star a b mask h

theorem globMatch_question_iff (mask q : Zstring) :
    GlobMatch ('?' :: mask) q ↔ ∃ c b, q = c :: b ∧ GlobMatch mask b := by
  constructor
  · intro h
    cases h with
    | question c rest _ h => exact ⟨c, rest, rfl, h⟩
    | literal c rest _ _ h2 _ => exact absurd rfl h2
  · rintro ⟨c, b, rfl, h⟩
    exact GlobMatch.question c b mask h

theorem globMatch_literal_iff (m : Char) (mask q : Zstring) (h1 : m ≠ '*') (h2 : m ≠ '?') :
    GlobMatch (m :: mask) q ↔ ∃ b, q = m :: b ∧ GlobMatch mask b := by
  constructor
  · intro h
    cases h with
    | star run rest _ h => exact absurd rfl h1
    | question c rest _ h => exact absurd rfl h2
    | literal c rest _ _ _ h => exact ⟨rest, rfl, h⟩
  · rintro ⟨b, rfl, h⟩
    exact GlobMatch.literal m b mask h1 h2 h

/-! ## The matcher against the glob relation, for every path-end policy -/

theorem cStringFind_isSome_iff (path : Zstring) (ch : Char) :
    (cStringFind path ch).isSome = true ↔ ∃ a b, path = a ++ ch :: b := by
  induction path with
  | nil => simp [cStringFind]
  | cons d path ih =>
    rw [cStringFind]
    by_cases hd : d = ch
    · subst hd
      simp only [if_true, Option.isSome_some, true_iff]
      exact ⟨[], path, rfl⟩
    · simp only [hd, if_false, ih]
      constructor
      · rintro ⟨a, b, rfl⟩
        exact ⟨d :: a, b, rfl⟩
      · rintro ⟨a, b, hab⟩
        cases a with
        | nil =>
          simp only [List.nil_append, List.cons.injEq] at hab
          exact absurd hab.1 hd
        | cons e a =>
          simp only [List.cons_append, List.cons.injEq] at hab
          exact ⟨a, b, hab.2⟩

theorem head?_eq_some_iff (r : Zstring) (c : Char) :
    (r.head? == some c) = true ↔ ∃ b, r = c :: b := by
  cases r with
  | nil =>
    constructor
    · intro h
      simp only [List.head?_nil] at h
      exact absurd h (by simp)
    · rintro ⟨b, hb⟩
      exact absurd hb (by simp)
  | cons d r =>
    constructor
    · intro h
      have hd : d = c := by simpa using h
      exact ⟨r, by rw [hd]⟩
    · rintro ⟨b, hb⟩
      simp only [List.cons.injEq] at hb
      simp [hb.1]

/-- A mask ending in `*` accepts exactly when some suffix of the remaining path is
accepted by the mask-end test of the same policy. -/
theorem matchesMaskStar_iff (pe : PathEndMatcher) (path : Zstring) :
    pe.matchesMaskStar path = true ↔ ∃ a r, path = a ++ r ∧ pe.matchesMaskEnd r = true := by
  cases pe with
  | FullMatch =>
    simp only [PathEndMatcher.matchesMaskStar, PathEndMatcher.matchesMaskEnd, true_iff]
    exact ⟨path, [], by simp, rfl⟩
  | AnyMatch =>
    simp only [PathEndMatcher.matchesMaskStar, PathEndMatcher.matchesMaskEnd, true_iff]
    exact ⟨path, [], by simp, rfl⟩
  | ParentFolderMatch =>
    simp only [PathEndMatcher.matchesMaskStar, PathEndMatcher.matchesMaskEnd,
      cStringFind_isSome_iff, head?_eq_some_iff]
    constructor
    · rintro ⟨a, b, rfl⟩
      exact ⟨a, _, rfl, b, rfl⟩
    · rintro ⟨a, r, rfl, b, rfl⟩
      exact ⟨a, b, rfl⟩

/-- The matcher under any policy: the mask matches, in the sense of the glob
relation, a leading part of the path, and the mask-end test of the policy
accepts what remains. -/
theorem matchesMask_iff (pe : PathEndMatcher) (mask : Zstring) :
    ∀ path : Zstring, matchesMask pe path mask = true ↔
      ∃ q r, path = q ++ r ∧ GlobMatch mask q ∧ pe.matchesMaskEnd r = true := by
  generalize hn : mask.length = n
  induction n using Nat.strong_induction_on generalizing mask with
  | _ n ih =>
    intro path
    cases mask with
    | nil =>
      simp only [matchesMask_nil, globMatch_nil_iff]
      constructor
      · intro h
        exact ⟨[], path, rfl, rfl, h⟩
      · rintro ⟨q, r, rfl, rfl, h⟩
        exact h
    | cons m mask1 =>
      have ih1 : ∀ path : Zstring, matchesMask pe path mask1 = true ↔
          ∃ q r, path = q ++ r ∧ GlobMatch mask1 q ∧ pe.matchesMaskEnd r = true :=
        ih mask1.length (by simp [← hn]) mask1 rfl
      by_cases hq : m = '?'
      · subst hq
        rw [matchesMask_question]
        cases path with
        | nil =>
          simp only [globMatch_question_iff]
          constructor
          · intro h
            exact absurd h (by simp)
          · rintro ⟨q, r, hqr, ⟨c, b, rfl, -⟩, -⟩
            simp at hqr
        | cons d path1 =>
          simp only [ih1, globMatch_question_iff]
          constructor
          · rintro ⟨q, r, rfl, hg, he⟩
            exact ⟨d :: q, r, rfl, ⟨d, q, rfl, hg⟩, he⟩
          · rintro ⟨q, r, hqr, ⟨c, b, rfl, hg⟩, he⟩
            simp only [List.cons_append, List.cons.injEq] at hqr
            exact ⟨b, r, hqr.2, hg, he⟩
      · by_cases hs : m = '*'
        · subst hs
          cases mask1 with
          | nil =>
            rw [matchesMask_star_end, matchesMaskStar_iff]
            constructor
            · rintro ⟨a, r, rfl, he⟩
              exact ⟨a, r, rfl, (globMatch_star_iff _ _).mpr ⟨a, [], by simp, GlobMatch.done⟩, he⟩
            · rintro ⟨q, r, rfl, -, he⟩
              exact ⟨q, r, rfl, he⟩
          | cons m2 mask2 =>
            have ih2 : ∀ path : Zstring, matchesMask pe path mask2 = true ↔
                ∃ q r, path = q ++ r ∧ GlobMatch mask2 q ∧ pe.matchesMaskEnd r = true :=
              ih mask2.length (by simp [← hn]; omega) mask2 rfl
            by_cases hs2 : m2 = '*'
            · subst hs2
              rw [matchesMask_star_star, ih1]
              constructor
              · rintro ⟨q, r, rfl, hg, he⟩
                exact ⟨q, r, rfl, (globMatch_star_iff _ _).mpr ⟨[], q, rfl, hg⟩, he⟩
              · rintro ⟨q, r, rfl, hg, he⟩
                obtain ⟨a, b, rfl, hg1⟩ := (globMatch_star_iff _ _).mp hg
                obtain ⟨a1, b1, rfl, hg2⟩ := (globMatch_star_iff _ _).mp hg1
                refine ⟨a ++ a1 ++ b1, r, by simp, ?_, he⟩
                exact (globMatch_star_iff _ _).mpr ⟨a ++ a1, b1, rfl, hg2⟩
            · by_cases hq2 : m2 = '?'
              · subst hq2
                rw [matchesMask_star_question, starQuestionLoop_iff]
                simp only [ih2]
                constructor
                · rintro ⟨a, c, b, rfl, q, r, rfl, hg, he⟩
                  refine ⟨a ++ c :: q, r, by simp, ?_, he⟩
                  exact (globMatch_star_iff _ _).mpr
                    ⟨a, c :: q, rfl, (globMatch_question_iff _ _).mpr ⟨c, q, rfl, hg⟩⟩
                · rintro ⟨q, r, rfl, hg, he⟩
                  obtain ⟨a, b, rfl, hg1⟩ := (globMatch_star_iff _ _).mp hg
                  obtain ⟨c, b1, rfl, hg2⟩ := (globMatch_question_iff _ _).mp hg1
                  exact ⟨a, c, b1 ++ r, by simp, b1, r, rfl, hg2, he⟩
              · rw [matchesMask_star_letter pe m2 path mask2 hs2 hq2, starLetterLoop_iff]
                simp only [ih2]
                constructor
                · rintro ⟨a, b, rfl, q, r, rfl, hg, he⟩
                  refine ⟨a ++ m2 :: q, r, by simp, ?_, he⟩
                  exact (globMatch_star_iff _ _).mpr
                    ⟨a, m2 :: q, rfl, (globMatch_literal_iff m2 _ _ hs2 hq2).mpr ⟨q, rfl, hg⟩⟩
                · rintro ⟨q, r, rfl, hg, he⟩
                  obtain ⟨a, b, rfl, hg1⟩ := (globMatch_star_iff _ _).mp hg
                  obtain ⟨b1, rfl, hg2⟩ := (globMatch_literal_iff m2 _ _ hs2 hq2).mp hg1
                  exact ⟨a, b1 ++ r, by simp, b1, r, rfl, hg2, he⟩
        · rw [matchesMask_literal pe m path mask1 hs hq]
          cases path with
          | nil =>
            simp only [globMatch_literal_iff m _ _ hs hq]
            constructor
            · intro h
              exact absurd h (by simp)
            · rintro ⟨q, r, hqr, ⟨b, rfl, -⟩, -⟩
              simp at hqr
          | cons d path1 =>
            simp only [globMatch_literal_iff m _ _ hs hq]
            constructor
            · intro h
              split at h
              · rename_i hd
                subst hd
                obtain ⟨q, r, rfl, hg, he⟩ := (ih1 path1).mp h
                exact ⟨d :: q, r, rfl, ⟨q, rfl, hg⟩, he⟩
              · exact absurd h (by simp)
            · rintro ⟨q, r, hqr, ⟨b, rfl, hg⟩, he⟩
              simp only [List.cons_append, List.cons.injEq] at hqr
              obtain ⟨rfl, rfl⟩ := hqr
              simp only [if_true]
              exact (ih1 _).mpr ⟨b, r, rfl, hg, he⟩

/-! ## Consequences for the three policies and for the prefix matcher -/

theorem matchesMask_fullMatch_iff (path mask : Zstring) :
    matchesMask .FullMatch path mask = true ↔ GlobMatch mask path := by
  rw [matchesMask_iff]
  constructor
  · rintro ⟨q, r, rfl, hg, he⟩
    have hr : r = [] := by simpa [PathEndMatcher.matchesMaskEnd] using he
    subst hr
    simpa using hg
  · intro hg
    exact ⟨path, [], by simp, hg, rfl⟩

theorem matchesMask_anyMatch_iff (path mask : Zstring) :
    matchesMask .AnyMatch path mask = true ↔
      ∃ q r, path = q ++ r ∧ GlobMatch mask q ∧ (r = [] ∨ ∃ b, r = FILE_NAME_SEPARATOR :: b) := by
  rw [matchesMask_iff]
  simp only [PathEndMatcher.matchesMaskEnd, Bool.or_eq_true, head?_eq_some_iff,
    List.isEmpty_iff]

theorem matchesMask_parentFolderMatch_iff (path mask : Zstring) :
    matchesMask .ParentFolderMatch path mask = true ↔
      ∃ q b, path = q ++ FILE_NAME_SEPARATOR :: b ∧ GlobMatch mask q := by
  rw [matchesMask_iff]
  simp only [PathEndMatcher.matchesMaskEnd, head?_eq_some_iff]
  constructor
  · rintro ⟨q, r, rfl, hg, b, rfl⟩
    exact ⟨q, b, rfl, hg⟩
  · rintro ⟨q, b, rfl, hg⟩
    exact ⟨q, _, rfl, hg, b, rfl⟩

/-- A string that begins a path the mask fully matches is accepted by the prefix
matcher. -/
theorem matchesMaskBegin_of_globMatch (mask : Zstring) :
    ∀ s t : Zstring, GlobMatch mask (s ++ t) → matchesMaskBegin s mask = true := by
  induction mask with
  | nil =>
    intro s t h
    have hst : s ++ t = [] := (globMatch_nil_iff _).mp h
    have hs : s = [] := (List.append_eq_nil.mp hst).1
    subst hs
    simp [matchesMaskBegin]
  | cons m mask ih =>
    intro s t h
    by_cases hq : m = '?'
    · subst hq
      obtain ⟨c, b, hcb, hg⟩ := (globMatch_question_iff _ _).mp h
      cases s with
      | nil => simp [matchesMaskBegin]
      | cons d s1 =>
        simp only [List.cons_append, List.cons.injEq] at hcb
        obtain ⟨-, rfl⟩ := hcb
        simpa [matchesMaskBegin] using ih s1 t hg
    · by_cases hs : m = '*'
      · subst hs
        unfold matchesMaskBegin
        simp
      · obtain ⟨b, hcb, hg⟩ := (globMatch_literal_iff m _ _ hs hq).mp h
        cases s with
        | nil => simp [matchesMaskBegin, hs, hq]
        | cons d s1 =>
          simp only [List.cons_append, List.cons.injEq] at hcb
          obtain ⟨rfl, rfl⟩ := hcb
          simpa [matchesMaskBegin, hs, hq] using ih s1 t hg

/-- A mask that any-matches a directory any-matches and parent-folder-matches
everything below that directory. -/
theorem anyMatch_child (p x mask : Zstring) (h : matchesMask .AnyMatch p mask = true) :
    matchesMask .AnyMatch (p ++ FILE_NAME_SEPARATOR :: x) mask = true ∧
      matchesMask .ParentFolderMatch (p ++ FILE_NAME_SEPARATOR :: x) mask = true := by
  obtain ⟨q, r, rfl, hg, hr⟩ := (matchesMask_anyMatch_iff _ _).mp h
  rcases hr with rfl | ⟨b, rfl⟩
  · constructor
    · exact (matchesMask_anyMatch_iff _ _).mpr ⟨q, _, by simp, hg, Or.inr ⟨x, rfl⟩⟩
    · exact (matchesMask_parentFolderMatch_iff _ _).mpr ⟨q, x, by simp, hg⟩
  · constructor
    · exact (matchesMask_anyMatch_iff _ _).mpr
        ⟨q, FILE_NAME_SEPARATOR :: (b ++ FILE_NAME_SEPARATOR :: x), by simp, hg, Or.inr ⟨_, rfl⟩⟩
    · exact (matchesMask_parentFolderMatch_iff _ _).mpr
        ⟨q, b ++ FILE_NAME_SEPARATOR :: x, by simp, hg⟩

theorem parentFolderMatch_imp_anyMatch (c mask : Zstring)
    (h : matchesMask .ParentFolderMatch c mask = true) :
    matchesMask .AnyMatch c mask = true := by
  obtain ⟨q, b, rfl, hg⟩ := (matchesMask_parentFolderMatch_iff _ _).mp h
  exact (matchesMask_anyMatch_iff _ _).mpr ⟨q, _, rfl, hg, Or.inr ⟨b, rfl⟩⟩

/-- A mask that any-matches something below a directory either any-matches the
directory itself or is accepted by the prefix matcher on the directory path
followed by the separator. -/
theorem anyMatch_child_cases (p x mask : Zstring)
    (h : matchesMask .AnyMatch (p ++ FILE_NAME_SEPARATOR :: x) mask = true) :
    matchesMask .AnyMatch p mask = true ∨
      matchesMaskBegin (p ++ [FILE_NAME_SEPARATOR]) mask = true := by
  obtain ⟨q, r, hqr, hg, hr⟩ := (matchesMask_anyMatch_iff _ _).mp h
  rcases List.append_eq_append_iff.mp hqr with ⟨a, rfl, ha⟩ | ⟨c, rfl, hc⟩
  · -- the matched part reaches beyond the directory path
    cases a with
    | nil =>
      left
      exact (matchesMask_anyMatch_iff _ _).mpr ⟨p, [], by simp, by simpa using hg, Or.inl rfl⟩
    | cons d a =>
      right
      simp only [List.cons_append, List.cons.injEq] at ha
      obtain ⟨rfl, rfl⟩ := ha
      apply matchesMaskBegin_of_globMatch mask (p ++ [FILE_NAME_SEPARATOR]) a
      simpa using hg
  · -- the matched part ends inside the directory path
    left
    cases c with
    | nil =>
      exact (matchesMask_anyMatch_iff _ _).mpr ⟨q, [], rfl, hg, Or.inl rfl⟩
    | cons d c =>
      rcases hr with rfl | ⟨b, rfl⟩
      · simp at hc
      · simp only [List.cons_append, List.cons.injEq] at hc
        obtain ⟨rfl, -⟩ := hc
        exact (matchesMask_anyMatch_iff _ _).mpr ⟨q, _, rfl, hg, Or.inr ⟨c, rfl⟩⟩

theorem matchesMaskVec_iff (pe : PathEndMatcher) (name : Zstring) (masks : List Zstring) :
    matchesMaskVec pe name masks = true ↔ ∃ mask ∈ masks, matchesMask pe name mask = true := by
  simp [matchesMaskVec, List.any_eq_true]

theorem matchesMaskBeginVec_iff (name : Zstring) (masks : List Zstring) :
    matchesMaskBeginVec name masks = true ↔ ∃ mask ∈ masks, matchesMaskBegin name mask = true := by
  simp [matchesMaskBeginVec, List.any_eq_true]

/-- A mask without wildcards consumes itself from the front of the path and leaves
the decision to the mask-end test of the policy. -/
theorem matchesMask_literal_run (pe : PathEndMatcher) (m t : Zstring)
    (hm : ∀ c ∈ m, c ≠ '*' ∧ c ≠ '?') :
    matchesMask pe (m ++ t) m = pe.matchesMaskEnd t := by
  induction m with
  | nil => simp [matchesMask_nil]
  | cons c m ih =>
    have hc := hm c (List.mem_cons_self c m)
    rw [List.cons_append, matchesMask_literal pe c _ m hc.1 hc.2]
    simp only [if_true]
    exact ih (fun d hd => hm d (List.mem_cons_of_mem c hd))

/-! ## Lists of masks below a directory -/

theorem matchesMaskVec_child_of_anyMatch (p x : Zstring) (masks : List Zstring)
    (h : matchesMaskVec .AnyMatch p masks = true) :
    matchesMaskVec .AnyMatch (p ++ FILE_NAME_SEPARATOR :: x) masks = true ∧
      matchesMaskVec .ParentFolderMatch (p ++ FILE_NAME_SEPARATOR :: x) masks = true := by
  obtain ⟨mask, hmem, hm⟩ := (matchesMaskVec_iff _ _ _).mp h
  have hc := anyMatch_child p x mask hm
  exact ⟨(matchesMaskVec_iff _ _ _).mpr ⟨mask, hmem, hc.1⟩,
    (matchesMaskVec_iff _ _ _).mpr ⟨mask, hmem, hc.2⟩⟩

theorem matchesMaskVec_child_of_not_begin (p x : Zstring) (masks : List Zstring)
    (h1 : matchesMaskVec .AnyMatch p masks = false)
    (h2 : matchesMaskBeginVec (p ++ [FILE_NAME_SEPARATOR]) masks = false) :
    matchesMaskVec .AnyMatch (p ++ FILE_NAME_SEPARATOR :: x) masks = false ∧
      matchesMaskVec .ParentFolderMatch (p ++ FILE_NAME_SEPARATOR :: x) masks = false := by
  have hany : matchesMaskVec .AnyMatch (p ++ FILE_NAME_SEPARATOR :: x) masks = false := by
    rw [← Bool.not_eq_true, matchesMaskVec_iff]
    rintro ⟨mask, hmem, hm⟩
    rcases anyMatch_child_cases p x mask hm with h | h
    · rw [← Bool.not_eq_true, matchesMaskVec_iff] at h1
      exact h1 ⟨mask, hmem, h⟩
    · rw [← Bool.not_eq_true, matchesMaskBeginVec_iff] at h2
      exact h2 ⟨mask, hmem, h⟩
  refine ⟨hany, ?_⟩
  rw [← Bool.not_eq_true, matchesMaskVec_iff]
  rintro ⟨mask, hmem, hm⟩
  rw [← Bool.not_eq_true, matchesMaskVec_iff] at hany
  exact hany ⟨mask, hmem, parentFolderMatch_imp_anyMatch _ _ hm⟩

theorem ctor_nullFilter :
    NameFilter.ctor ['*'] [] =
      { includeMasksFileFolder := [['*']], includeMasksFolder := [],
        excludeMasksFileFolder := [], excludeMasksFolder := [] } := by
  decide

/-- The decision of `passFileFilter` in terms of the single masks. -/
theorem passFileFilter_eq_true_iff (f : NameFilter) (p : Zstring) :
    f.passFileFilter p = true ↔
      ((¬ ∃ mask ∈ f.excludeMasksFileFolder, matchesMask .AnyMatch p mask = true) ∧
        (¬ ∃ mask ∈ f.excludeMasksFolder, matchesMask .ParentFolderMatch p mask = true)) ∧
      ((∃ mask ∈ f.includeMasksFileFolder, matchesMask .AnyMatch p mask = true) ∨
        (∃ mask ∈ f.includeMasksFolder, matchesMask .ParentFolderMatch p mask = true)) := by
  simp only [← matchesMaskVec_iff, NameFilter.passFileFilter]
  split
  · rename_i hex
    simp only [Bool.or_eq_true] at hex
    simp only [Bool.false_eq_true, false_iff, not_and]
    intro hne
    rcases hex with h | h
    · exact absurd h hne.1
    · exact absurd h hne.2
  · rename_i hex
    simp only [Bool.or_eq_true, not_or] at hex
    simp only [Bool.or_eq_true]
    exact ⟨fun h => ⟨hex, h⟩, fun h => h.2⟩

/-! ## The claims -/

/-- C1: pruning invariant. For every name filter and every directory path `p`, if
`passDirFilter(p, &hint)` (hint initially true) returns false and leaves the
hint false, then for every string `x` the path `p + separator + x` fails
`passFileFilter` and fails `passDirFilter`, with or without a hint requested. -/
theorem passDirFilter_pruning_invariant (f : NameFilter) (p : Zstring)
    (h : f.passDirFilter p (some true) = (false, some false)) (x : Zstring) :
    f.passFileFilter (p ++ [FILE_NAME_SEPARATOR] ++ x) = false ∧
      ∀ hint : Option Bool, (f.passDirFilter (p ++ [FILE_NAME_SEPARATOR] ++ x) hint).1 = false := by
  have hpx : p ++ [FILE_NAME_SEPARATOR] ++ x = p ++ FILE_NAME_SEPARATOR :: x := by simp
  rw [hpx]
  by_cases hE1 : matchesMaskVec .AnyMatch p f.excludeMasksFileFolder = true
  · -- excluded by a file-or-folder mask
    have hc := matchesMaskVec_child_of_anyMatch p x _ hE1
    constructor
    · simp [NameFilter.passFileFilter, hc.1]
    · intro hint
      simp [NameFilter.passDirFilter, hc.1]
  · by_cases hE2 : matchesMaskVec .AnyMatch p f.excludeMasksFolder = true
    · -- excluded by a folder-only mask
      have hc := matchesMaskVec_child_of_anyMatch p x _ hE2
      constructor
      · simp [NameFilter.passFileFilter, hc.2]
      · intro hint
        simp [NameFilter.passDirFilter, hc.1]
    · -- not excluded: the directory matches no include mask and the hint was computed
      simp only [Bool.not_eq_true] at hE1 hE2
      have hI : matchesMaskVec .AnyMatch p f.includeMasksFileFolder = false ∧
          matchesMaskVec .AnyMatch p f.includeMasksFolder = false ∧
          matchesMaskBeginVec (p ++ [FILE_NAME_SEPARATOR]) f.includeMasksFileFolder = false ∧
          matchesMaskBeginVec (p ++ [FILE_NAME_SEPARATOR]) f.includeMasksFolder = false := by
        simp only [NameFilter.passDirFilter, hE1, hE2, Bool.or_self, Bool.false_eq_true,
          if_false] at h
        split at h
        · rename_i hni
          simp only [Option.map_some', Prod.mk.injEq, Option.some.injEq, true_and,
            Bool.or_eq_false_iff] at h
          simp only [Bool.and_eq_true, Bool.not_eq_true'] at hni
          exact ⟨hni.1, hni.2, h.1, h.2⟩
        · simp at h
      obtain ⟨hI1, hI2, hB1, hB2⟩ := hI
      have hc1 := matchesMaskVec_child_of_not_begin p x _ hI1 hB1
      have hc2 := matchesMaskVec_child_of_not_begin p x _ hI2 hB2
      constructor
      · simp [NameFilter.passFileFilter, hc1.1, hc2.2]
      · intro hint
        simp only [NameFilter.passDirFilter, hc1.1, hc2.1]
        split <;> simp

/-- Witness for C1: include `a/b`, exclude nothing, directory `x`: the directory fails
with the hint left false, and `x/y` fails both predicates. -/
theorem passDirFilter_pruning_invariant_witness :
    (NameFilter.ctor ['a', '/', 'b'] []).passDirFilter ['x'] (some true) = (false, some false) ∧
      ((NameFilter.ctor ['a', '/', 'b'] []).passFileFilter (['x'] ++ [FILE_NAME_SEPARATOR] ++ ['y'])
          = false ∧
        ∀ hint : Option Bool,
          ((NameFilter.ctor ['a', '/', 'b'] []).passDirFilter
            (['x'] ++ [FILE_NAME_SEPARATOR] ++ ['y']) hint).1 = false) :=
  ⟨by decide, passDirFilter_pruning_invariant _ ['x'] (by decide) ['y']⟩

/-- C2: for the null filter `NameFilter("*", "")` and every path `p`, the empty path
included, `passFileFilter(p)` is true and `passDirFilter(p)` is true, whether or
not the hint is requested (a requested hint is left as it was). -/
theorem nullFilter_passes_all (p : Zstring) :
    (NameFilter.ctor ['*'] []).passFileFilter p = true ∧
      ∀ hint : Option Bool, (NameFilter.ctor ['*'] []).passDirFilter p hint = (true, hint) := by
  rw [ctor_nullFilter]
  have hstar : matchesMask .AnyMatch p ['*'] = true := by
    rw [matchesMask_star_end]
    rfl
  constructor
  · simp [NameFilter.passFileFilter, matchesMaskVec, hstar]
  · intro hint
    simp [NameFilter.passDirFilter, matchesMaskVec, hstar]

/-- C3: `passFileFilter(p)` is true if and only if `p` matches no exclude
file-or-folder mask under any-match and no exclude folder-only mask under
parent-folder match, and `p` matches some include file-or-folder mask under
any-match or some include folder-only mask under parent-folder match. -/
theorem passFileFilter_iff (f : NameFilter) (p : Zstring) :
    f.passFileFilter p = true ↔
      ((¬ ∃ mask ∈ f.excludeMasksFileFolder, matchesMask .AnyMatch p mask = true) ∧
        (¬ ∃ mask ∈ f.excludeMasksFolder, matchesMask .ParentFolderMatch p mask = true)) ∧
      ((∃ mask ∈ f.includeMasksFileFolder, matchesMask .AnyMatch p mask = true) ∨
        (∃ mask ∈ f.includeMasksFolder, matchesMask .ParentFolderMatch p mask = true)) :=
  passFileFilter_eq_true_iff f p

/-- C4: exclude precedence. A path matched by an exclude mask (a file-or-folder
exclude mask under any-match, or a folder-only exclude mask under parent-folder
match) fails `passFileFilter`, whatever include masks it matches. -/
theorem passFileFilter_exclude_precedence (f : NameFilter) (p : Zstring)
    (h : (∃ mask ∈ f.excludeMasksFileFolder, matchesMask .AnyMatch p mask = true) ∨
      (∃ mask ∈ f.excludeMasksFolder, matchesMask .ParentFolderMatch p mask = true)) :
    f.passFileFilter p = false := by
  rw [← Bool.not_eq_true, passFileFilter_eq_true_iff]
  rintro ⟨⟨h1, h2⟩, -⟩
  rcases h with h | h
  · exact h1 h
  · exact h2 h

/-- Witness for C4: include `*`, exclude `a.txt`; the path `a.txt` matches both and
fails. -/
theorem passFileFilter_exclude_precedence_witness :
    ((∃ mask ∈ (NameFilter.ctor ['*'] ['a', '.', 't', 'x', 't']).excludeMasksFileFolder,
        matchesMask .AnyMatch ['a', '.', 't', 'x', 't'] mask = true) ∨
      (∃ mask ∈ (NameFilter.ctor ['*'] ['a', '.', 't', 'x', 't']).excludeMasksFolder,
        matchesMask .ParentFolderMatch ['a', '.', 't', 'x', 't'] mask = true)) ∧
    (∃ mask ∈ (NameFilter.ctor ['*'] ['a', '.', 't', 'x', 't']).includeMasksFileFolder,
        matchesMask .AnyMatch ['a', '.', 't', 'x', 't'] mask = true) ∧
    (NameFilter.ctor ['*'] ['a', '.', 't', 'x', 't']).passFileFilter ['a', '.', 't', 'x', 't']
      = false :=
  ⟨Or.inl ⟨['a', '.', 't', 'x', 't'], by decide, by decide⟩,
    ⟨['*'], by decide, by decide⟩,
    passFileFilter_exclude_precedence _ _ (Or.inl ⟨['a', '.', 't', 'x', 't'], by decide, by decide⟩)⟩

/-- C5: `passDirFilter` with a hint requested (initially true) has exactly three
cases: (a) if `p` any-matches some exclude mask of either class, it returns
false and sets the hint to false; (b) otherwise, if `p` any-matches no include
mask of either class, it returns false and sets the hint to whether
`p + separator` is accepted by `matchesMaskBegin` for some include mask of
either class; (c) otherwise it returns true and leaves the hint true. -/
theorem passDirFilter_three_cases (f : NameFilter) (p : Zstring) :
    ((∃ mask ∈ f.excludeMasksFileFolder ++ f.excludeMasksFolder,
        matchesMask .AnyMatch p mask = true) →
      f.passDirFilter p (some true) = (false, some false)) ∧
    ((¬ ∃ mask ∈ f.excludeMasksFileFolder ++ f.excludeMasksFolder,
        matchesMask .AnyMatch p mask = true) →
      (¬ ∃ mask ∈ f.includeMasksFileFolder ++ f.includeMasksFolder,
        matchesMask .AnyMatch p mask = true) →
      ∃ hint : Bool, f.passDirFilter p (some true) = (false, some hint) ∧
        (hint = true ↔ ∃ mask ∈ f.includeMasksFileFolder ++ f.includeMasksFolder,
          matchesMaskBegin (p ++ [FILE_NAME_SEPARATOR]) mask = true)) ∧
    ((¬ ∃ mask ∈ f.excludeMasksFileFolder ++ f.excludeMasksFolder,
        matchesMask .AnyMatch p mask = true) →
      (∃ mask ∈ f.includeMasksFileFolder ++ f.includeMasksFolder,
        matchesMask .AnyMatch p mask = true) →
      f.passDirFilter p (some true) = (true, some true)) := by
  have hvec : ∀ (pe : PathEndMatcher) (l1 l2 : List Zstring),
      (∃ mask ∈ l1 ++ l2, matchesMask pe p mask = true) ↔
        (matchesMaskVec pe p l1 || matchesMaskVec pe p l2) = true := by
    intro pe l1 l2
    simp only [Bool.or_eq_true, matchesMaskVec_iff, List.mem_append]
    constructor
    · rintro ⟨mask, h1 | h2, hm⟩
      · exact Or.inl ⟨mask, h1, hm⟩
      · exact Or.inr ⟨mask, h2, hm⟩
    · rintro (⟨mask, h1, hm⟩ | ⟨mask, h2, hm⟩)
      · exact ⟨mask, Or.inl h1, hm⟩
      · exact ⟨mask, Or.inr h2, hm⟩
  have hbegin : ∀ (l1 l2 : List Zstring),
      (∃ mask ∈ l1 ++ l2, matchesMaskBegin (p ++ [FILE_NAME_SEPARATOR]) mask = true) ↔
        (matchesMaskBeginVec (p ++ [FILE_NAME_SEPARATOR]) l1 ||
          matchesMaskBeginVec (p ++ [FILE_NAME_SEPARATOR]) l2) = true := by
    intro l1 l2
    simp only [Bool.or_eq_true, matchesMaskBeginVec_iff, List.mem_append]
    constructor
    · rintro ⟨mask, h1 | h2, hm⟩
      · exact Or.inl ⟨mask, h1, hm⟩
      · exact Or.inr ⟨mask, h2, hm⟩
    · rintro (⟨mask, h1, hm⟩ | ⟨mask, h2, hm⟩)
      · exact ⟨mask, Or.inl h1, hm⟩
      · exact ⟨mask, Or.inr h2, hm⟩
  simp only [hvec, hbegin]
  refine ⟨?_, ?_, ?_⟩
  · intro hex
    simp [NameFilter.passDirFilter, hex]
  · intro hex hin
    refine ⟨_, ?_, Iff.rfl⟩
    simp only [Bool.not_eq_true, Bool.or_eq_false_iff] at hex hin
    simp [NameFilter.passDirFilter, hex.1, hex.2, hin.1, hin.2]
  · intro hex hin
    simp only [Bool.not_eq_true, Bool.or_eq_false_iff] at hex
    simp only [Bool.or_eq_true] at hin
    rcases hin with hin | hin <;>
      simp [NameFilter.passDirFilter, hex.1, hex.2, hin]

/-- Witness for C5: include `a/b`, exclude `c`. The directory `c` is case (a), the
directory `a` is case (b) with the hint true, the directory `a/b` is case (c). -/
theorem passDirFilter_three_cases_witness :
    (NameFilter.ctor ['a', '/', 'b'] ['c']).passDirFilter ['c'] (some true) = (false, some false) ∧
    (∃ hint : Bool,
      (NameFilter.ctor ['a', '/', 'b'] ['c']).passDirFilter ['a'] (some true) = (false, some hint) ∧
      (hint = true ↔ ∃ mask ∈ (NameFilter.ctor ['a', '/', 'b'] ['c']).includeMasksFileFolder ++
          (NameFilter.ctor ['a', '/', 'b'] ['c']).includeMasksFolder,
        matchesMaskBegin (['a'] ++ [FILE_NAME_SEPARATOR]) mask = true)) ∧
    (NameFilter.ctor ['a', '/', 'b'] ['c']).passDirFilter ['a', '/', 'b'] (some true)
      = (true, some true) :=
  ⟨(passDirFilter_three_cases (NameFilter.ctor ['a', '/', 'b'] ['c']) ['c']).1 (by decide),
    (passDirFilter_three_cases (NameFilter.ctor ['a', '/', 'b'] ['c']) ['a']).2.1
      (by decide) (by decide),
    (passDirFilter_three_cases (NameFilter.ctor ['a', '/', 'b'] ['c']) ['a', '/', 'b']).2.2
      (by decide) (by decide)⟩

/-- C6: optional-output consistency. The boolean returned by
`passDirFilter(p, nullptr)` equals the boolean returned by
`passDirFilter(p, &hint)`: requesting the hint never changes the decision. -/
theorem passDirFilter_hint_independent (f : NameFilter) (p : Zstring) (hint : Bool) :
    (f.passDirFilter p none).1 = (f.passDirFilter p (some hint)).1 := by
  simp only [NameFilter.passDirFilter]
  split
  · rfl
  · split <;> rfl

/-- C7: `matchesMask<FullMatch>(path, mask)` is true if and only if the path matches
the mask under the reference glob relation (`*` any run of characters, `?` one
character, any other character itself, mask and path exhausted together). -/
theorem matchesMask_fullMatch_iff_glob (path mask : Zstring) :
    matchesMask .FullMatch path mask = true ↔ GlobMatch mask path :=
  matchesMask_fullMatch_iff path mask

/-- C8: `matchesMask<AnyMatch>(path, mask)` is true if and only if some leading part
`q` of the path, which is the whole path or is followed in the path by the
separator, matches the mask under full-match semantics. -/
theorem matchesMask_anyMatch_iff_fullMatch (path mask : Zstring) :
    matchesMask .AnyMatch path mask = true ↔
      ∃ q r, path = q ++ r ∧ (r = [] ∨ r.head? = some FILE_NAME_SEPARATOR) ∧
        matchesMask .FullMatch q mask = true := by
  rw [matchesMask_anyMatch_iff]
  simp only [matchesMask_fullMatch_iff]
  constructor
  · rintro ⟨q, r, rfl, hg, hr⟩
    refine ⟨q, r, rfl, ?_, hg⟩
    rcases hr with rfl | ⟨b, rfl⟩
    · exact Or.inl rfl
    · exact Or.inr rfl
  · rintro ⟨q, r, rfl, hr, hg⟩
    refine ⟨q, r, rfl, hg, ?_⟩
    rcases hr with rfl | hr
    · exact Or.inl rfl
    · cases r with
      | nil => simp at hr
      | cons d r =>
        simp only [List.head?_cons, Option.some.injEq] at hr
        exact Or.inr ⟨r, by rw [hr]⟩

/-- C9: `matchesMask<ParentFolderMatch>(path, mask)` is true if and only if
`path = q + separator + r` for some `q` and `r` such that `q` matches the mask
under full-match semantics: the mask matches a strict ancestor directory. For
the mask `*` this is the requirement that a separator occurs in the path. -/
theorem matchesMask_parentFolderMatch_iff_fullMatch (path mask : Zstring) :
    (matchesMask .ParentFolderMatch path mask = true ↔
      ∃ q r, path = q ++ [FILE_NAME_SEPARATOR] ++ r ∧ matchesMask .FullMatch q mask = true) ∧
    (matchesMask .ParentFolderMatch path ['*'] = true ↔ FILE_NAME_SEPARATOR ∈ path) := by
  constructor
  · rw [matchesMask_parentFolderMatch_iff]
    simp only [matchesMask_fullMatch_iff, List.append_assoc, List.singleton_append]
  · rw [matchesMask_star_end]
    simp only [PathEndMatcher.matchesMaskStar, cStringFind_isSome_iff]
    constructor
    · rintro ⟨a, b, rfl⟩
      simp
    · intro h
      obtain ⟨a, b, hab⟩ := List.append_of_mem h
      exact ⟨a, b, hab⟩

/-- C10, the claim as stated fails: the mask `a` is free of wildcards and the rest
`b/c` of the path `ab/c` contains the separator, yet the parent-folder match
fails, because the rest does not begin with the separator. -/
theorem parentFolderMatch_contains_separator_counterexample :
    (∀ c ∈ ['a'], c ≠ '*' ∧ c ≠ '?') ∧
      ¬ (matchesMask .ParentFolderMatch (['a'] ++ ['b', '/', 'c']) ['a'] = true ↔
        FILE_NAME_SEPARATOR ∈ ['b', '/', 'c']) := by
  decide

/-- C10, amended: under the parent-folder policy, when the mask is exhausted the
match succeeds exactly when the path remaining at that point begins with the
separator: for every mask `m` free of wildcards and every string `t`,
`matchesMask<ParentFolderMatch>(m + t, m)` is true if and only if `t` starts
with the separator. -/
theorem parentFolderMatch_literal_mask_iff (m t : Zstring)
    (hm : ∀ c ∈ m, c ≠ '*' ∧ c ≠ '?') :
    matchesMask .ParentFolderMatch (m ++ t) m = true ↔ ∃ r, t = FILE_NAME_SEPARATOR :: r := by
  rw [matchesMask_literal_run _ m t hm]
  exact head?_eq_some_iff t FILE_NAME_SEPARATOR

/-- Witness for the amended C10: mask `ab`, rest `/c`. -/
theorem parentFolderMatch_literal_mask_iff_witness :
    (∀ c ∈ ['a', 'b'], c ≠ '*' ∧ c ≠ '?') ∧
      (matchesMask .ParentFolderMatch (['a', 'b'] ++ ['/', 'c']) ['a', 'b'] = true ↔
        ∃ r, ['/', 'c'] = FILE_NAME_SEPARATOR :: r) :=
  ⟨by decide, parentFolderMatch_literal_mask_iff ['a', 'b'] ['/', 'c'] (by decide)⟩

/-! ## Further lemmas on the matchers -/

/-- A parent-folder match needs a separator in the path. -/
theorem parentFolderMatch_false_of_no_separator (p mask : Zstring)
    (hp : FILE_NAME_SEPARATOR ∉ p) : matchesMask .ParentFolderMatch p mask = false := by
  rw [← Bool.not_eq_true, matchesMask_parentFolderMatch_iff]
  rintro ⟨q, b, rfl, -⟩
  exact hp (by simp)

theorem matchesMaskVec_parentFolder_of_no_separator (p : Zstring) (masks : List Zstring)
    (hp : FILE_NAME_SEPARATOR ∉ p) : matchesMaskVec .ParentFolderMatch p masks = false := by
  rw [← Bool.not_eq_true, matchesMaskVec_iff]
  rintro ⟨mask, -, hm⟩
  rw [parentFolderMatch_false_of_no_separator p mask hp] at hm
  exact absurd hm (by simp)

/-- Every mask has a string it fully matches. -/
theorem globMatch_exists (mask : Zstring) : ∃ w, GlobMatch mask w := by
  induction mask with
  | nil => exact ⟨[], GlobMatch.done⟩
  | cons m mask ih =>
    obtain ⟨w, hw⟩ := ih
    by_cases hs : m = '*'
    · subst hs
      exact ⟨w, (globMatch_star_iff _ _).mpr ⟨[], w, rfl, hw⟩⟩
    · by_cases hq : m = '?'
      · subst hq
        exact ⟨'a' :: w, GlobMatch.question 'a' w mask hw⟩
      · exact ⟨m :: w, GlobMatch.literal m w mask hs hq hw⟩

/-- A string accepted by the prefix matcher can be completed to a string the mask
fully matches. -/
theorem globMatch_of_matchesMaskBegin (mask : Zstring) :
    ∀ s : Zstring, matchesMaskBegin s mask = true → ∃ t, GlobMatch mask (s ++ t) := by
  induction mask with
  | nil =>
    intro s h
    cases s with
    | nil => exact ⟨[], GlobMatch.done⟩
    | cons c s => simp [matchesMaskBegin] at h
  | cons m mask ih =>
    intro s h
    by_cases hq : m = '?'
    · subst hq
      cases s with
      | nil =>
        obtain ⟨w, hw⟩ := globMatch_exists ('?' :: mask)
        exact ⟨w, by simpa using hw⟩
      | cons c s1 =>
        have h1 : matchesMaskBegin s1 mask = true := by simpa [matchesMaskBegin] using h
        obtain ⟨t, ht⟩ := ih s1 h1
        exact ⟨t, GlobMatch.question c (s1 ++ t) mask ht⟩
    · by_cases hs : m = '*'
      · subst hs
        obtain ⟨w, hw⟩ := globMatch_exists mask
        exact ⟨w, GlobMatch.star s w mask hw⟩
      · cases s with
        | nil =>
          obtain ⟨w, hw⟩ := globMatch_exists (m :: mask)
          exact ⟨w, by simpa using hw⟩
        | cons c s1 =>
          have h1 : c = m ∧ matchesMaskBegin s1 mask = true := by
            simpa [matchesMaskBegin, hs, hq] using h
          obtain ⟨rfl, h2⟩ := h1
          obtain ⟨t, ht⟩ := ih s1 h2
          exact ⟨t, GlobMatch.literal c (s1 ++ t) mask hs hq ht⟩

/-- A mask prefix without wildcards consumes itself from the front of the path. -/
theorem matchesMask_literal_prefix (pe : PathEndMatcher) (u t mask : Zstring)
    (hu : ∀ c ∈ u, c ≠ '*' ∧ c ≠ '?') :
    matchesMask pe (u ++ t) (u ++ mask) = matchesMask pe t mask := by
  induction u with
  | nil => simp
  | cons c u ih =>
    have hc := hu c (List.mem_cons_self c u)
    rw [List.cons_append, List.cons_append, matchesMask_literal pe c _ _ hc.1 hc.2]
    simp only [if_true]
    exact ih (fun d hd => hu d (List.mem_cons_of_mem c hd))

/-- A mask prefix without `*` consumes as many path characters as it has mask
characters: when the path is used up by it, a following `?` fails. -/
theorem matchesMask_question_after_starfree (pe : PathEndMatcher) (r : Zstring) (g : Zstring) :
    ∀ u : Zstring, (∀ c ∈ g, c ≠ '*') → GlobMatch g u →
      matchesMask pe u (g ++ '?' :: r) = false := by
  induction g with
  | nil =>
    intro u _ hg
    have hu : u = [] := (globMatch_nil_iff u).mp hg
    subst hu
    rw [List.nil_append, matchesMask_question]
  | cons m g ih =>
    intro u hstar hg
    have hm : m ≠ '*' := hstar m (List.mem_cons_self m g)
    have hrest : ∀ c ∈ g, c ≠ '*' := fun c hc => hstar c (List.mem_cons_of_mem m hc)
    by_cases hq : m = '?'
    · subst hq
      obtain ⟨c, b, rfl, hb⟩ := (globMatch_question_iff _ _).mp hg
      rw [List.cons_append, matchesMask_question]
      exact ih b hrest hb
    · obtain ⟨b, rfl, hb⟩ := (globMatch_literal_iff m _ _ hm hq).mp hg
      rw [List.cons_append, matchesMask_literal pe m _ _ hm hq]
      simp only [if_true]
      exact ih b hrest hb

theorem globMatch_self (u : Zstring) (hu : ∀ c ∈ u, c ≠ '*' ∧ c ≠ '?') : GlobMatch u u := by
  induction u with
  | nil => exact GlobMatch.done
  | cons c u ih =>
    have hc := hu c (List.mem_cons_self c u)
    exact GlobMatch.literal c u u hc.1 hc.2 (ih (fun d hd => hu d (List.mem_cons_of_mem c hd)))

/-! ## Lemmas on the string helpers -/


theorem startsWith_iff (str pre : Zstring) :
    startsWith str pre = true ↔ ∃ t, str = pre ++ t := by
  induction pre generalizing str with
  | nil => simp [startsWith]
  | cons p pre ih =>
    cases str with
    | nil => simp [startsWith]
    | cons c str =>
      simp only [startsWith, Bool.and_eq_true, beq_iff_eq, ih, List.cons_append, List.cons.injEq]
      constructor
      · rintro ⟨rfl, t, rfl⟩
        exact ⟨t, rfl, rfl⟩
      · rintro ⟨t, rfl, rfl⟩
        exact ⟨rfl, t, rfl⟩

theorem endsWith_iff (str post : Zstring) :
    endsWith str post = true ↔ ∃ d, str = d ++ post := by
  rw [endsWith, startsWith_iff]
  constructor
  · rintro ⟨t, ht⟩
    refine ⟨t.reverse, ?_⟩
    have := congrArg List.reverse ht
    simpa using this
  · rintro ⟨d, rfl⟩
    exact ⟨d.reverse, by simp⟩

theorem afterFirst_of_startsWith (term rest : Zstring) :
    afterFirst (term ++ rest) term = rest := by
  cases h : term ++ rest with
  | nil =>
    have := List.append_eq_nil.mp h
    simp [afterFirst, this.2]
  | cons c s =>
    rw [afterFirst, ← h]
    have hs : startsWith (term ++ rest) term = true := (startsWith_iff _ _).mpr ⟨rest, rfl⟩
    simp [hs]

theorem beforeLast_append_sep (d : Zstring) :
    beforeLast (d ++ [FILE_NAME_SEPARATOR]) FILE_NAME_SEPARATOR = d := by
  have h := afterFirst_of_startsWith [FILE_NAME_SEPARATOR] d.reverse
  simp only [beforeLast, List.reverse_append, List.reverse_cons, List.reverse_nil,
    List.nil_append, List.singleton_append] at h ⊢
  rw [h, List.reverse_reverse]

theorem beforeLast_append_sepAsterisk (d : Zstring) :
    beforeLast (d ++ sepAsterisk) FILE_NAME_SEPARATOR = d := by
  have h := afterFirst_of_startsWith [FILE_NAME_SEPARATOR] d.reverse
  simp only [List.singleton_append] at h
  have hne : startsWith ('*' :: FILE_NAME_SEPARATOR :: d.reverse) [FILE_NAME_SEPARATOR] = false := by
    simp [startsWith, FILE_NAME_SEPARATOR]
  simp only [beforeLast, sepAsterisk, asterisk, List.reverse_append, List.reverse_cons,
    List.reverse_nil, List.nil_append, List.singleton_append, List.cons_append]
  rw [afterFirst, hne]
  simp only [Bool.false_eq_true, if_false]
  rw [h, List.reverse_reverse]

/-! ## The claims on the matchers, continued -/

/-- C11: folder-only masks act on files only through ancestry. For every path `p`
without a separator, `matchesMask<ParentFolderMatch>(p, mask)` is false for
every mask, so `passFileFilter(p)` is the same whatever the two folder-only
mask sets are. With include `*` and the folder-only exclude mask `temp`, the
file `temp` passes and `temp<sep>file.txt` fails. -/
theorem folderOnly_masks_need_ancestry (p : Zstring) (hp : FILE_NAME_SEPARATOR ∉ p) :
    (∀ mask : Zstring, matchesMask .ParentFolderMatch p mask = false) ∧
    (∀ (f : NameFilter) (incFolder excFolder : List Zstring),
      NameFilter.passFileFilter
        { includeMasksFileFolder := f.includeMasksFileFolder, includeMasksFolder := incFolder,
          excludeMasksFileFolder := f.excludeMasksFileFolder, excludeMasksFolder := excFolder } p
        = f.passFileFilter p) ∧
    (NameFilter.passFileFilter
        { includeMasksFileFolder := [['*']], includeMasksFolder := [],
          excludeMasksFileFolder := [], excludeMasksFolder := [['t', 'e', 'm', 'p']] }
        ['t', 'e', 'm', 'p'] = true ∧
      NameFilter.passFileFilter
        { includeMasksFileFolder := [['*']], includeMasksFolder := [],
          excludeMasksFileFolder := [], excludeMasksFolder := [['t', 'e', 'm', 'p']] }
        (['t', 'e', 'm', 'p'] ++ [FILE_NAME_SEPARATOR] ++ ['f', 'i', 'l', 'e', '.', 't', 'x', 't'])
        = false) := by
  refine ⟨fun mask => parentFolderMatch_false_of_no_separator p mask hp, ?_, by decide⟩
  intro f incFolder excFolder
  simp [NameFilter.passFileFilter, matchesMaskVec_parentFolder_of_no_separator p _ hp]

/-- Witness for C11: the path `temp` has no separator. -/
theorem folderOnly_masks_need_ancestry_witness :
    FILE_NAME_SEPARATOR ∉ ['t', 'e', 'm', 'p'] ∧
      ∀ mask : Zstring, matchesMask .ParentFolderMatch ['t', 'e', 'm', 'p'] mask = false :=
  ⟨by decide, (folderOnly_masks_need_ancestry ['t', 'e', 'm', 'p'] (by decide)).1⟩

/-- C12: `matchesMaskBegin(s, m)` is true if and only if there is a completion `t`,
possibly empty, such that `s + t` matches `m` under full-match semantics. -/
theorem matchesMaskBegin_iff_completion (s m : Zstring) :
    matchesMaskBegin s m = true ↔ ∃ t, matchesMask .FullMatch (s ++ t) m = true := by
  simp only [matchesMask_fullMatch_iff]
  constructor
  · exact globMatch_of_matchesMaskBegin m s
  · rintro ⟨t, ht⟩
    exact matchesMaskBegin_of_globMatch m s t ht

/-- C13: the mask `*` matches every path, the empty one included, under any-match
and under full-match semantics. -/
theorem star_matches_everything (p : Zstring) :
    matchesMask .AnyMatch p ['*'] = true ∧ matchesMask .FullMatch p ['*'] = true ∧
      matchesMask .AnyMatch [] ['*'] = true ∧ matchesMask .FullMatch [] ['*'] = true := by
  simp [matchesMask_star_end, PathEndMatcher.matchesMaskStar]

/-- C14, the claim as stated fails: the string `a` is free of wildcards and is
fully matched by the mask prefix `*` that stands before the `?` of the mask
`*?`, the path is exactly `a`, and yet the match succeeds (the star matches
the empty run and the `?` matches `a`). -/
theorem question_after_star_counterexample :
    (∀ c ∈ ['a'], c ≠ '*' ∧ c ≠ '?') ∧
      matchesMask .FullMatch ['a'] ['*'] = true ∧
      ¬ (matchesMask .FullMatch ['a'] (['*'] ++ '?' :: []) = false) := by
  decide

/-- C14, amended: `?` never matches an exhausted path. For each policy and every
mask remainder `r`, the empty path fails the masks `?r` and `*?r`; more
generally, if the mask prefix before a `?` contains no `*` and fully matches a
string `u` (in particular if the prefix is `u` itself, free of wildcards), and
the path is exactly `u`, the match fails. -/
theorem question_needs_a_character (pe : PathEndMatcher) (r : Zstring) :
    matchesMask pe [] ('?' :: r) = false ∧
    matchesMask pe [] ('*' :: '?' :: r) = false ∧
    (∀ u : Zstring, (∀ c ∈ u, c ≠ '*' ∧ c ≠ '?') →
      matchesMask pe u (u ++ '?' :: r) = false) ∧
    (∀ g u : Zstring, (∀ c ∈ g, c ≠ '*') → GlobMatch g u →
      matchesMask pe u (g ++ '?' :: r) = false) := by
  have h0 : matchesMask pe [] ('?' :: r) = false := by
    rw [matchesMask_question]
  refine ⟨h0, ?_, ?_, ?_⟩
  · rw [matchesMask_star_question]
    rfl
  · intro u hu
    exact matchesMask_question_after_starfree pe r u u (fun c hc => (hu c hc).1)
      (globMatch_self u hu)
  · intro g u hg hgu
    exact matchesMask_question_after_starfree pe r g u hg hgu

/-- Witness for C14: mask `ab?c` on the path `ab`. -/
theorem question_needs_a_character_witness :
    (∀ c ∈ ['a', 'b'], c ≠ '*' ∧ c ≠ '?') ∧
      matchesMask .AnyMatch ['a', 'b'] (['a', 'b'] ++ '?' :: ['c']) = false :=
  ⟨by decide, (question_needs_a_character .AnyMatch ['c']).2.2.1 ['a', 'b'] (by decide)⟩

/-! ## The mask compiler -/

/-- A candidate that ends with the separator, or with the separator and a star, is
classified folder-only, without that ending. -/
theorem processTail_folder (d : Zstring) (masksFileFolder masksFolder : List Zstring)
    (c : Zstring) (hc : c = d ++ [FILE_NAME_SEPARATOR] ∨ c = d ++ sepAsterisk) :
    processTail c masksFileFolder masksFolder =
      (masksFileFolder, if d = [] then masksFolder else masksFolder ++ [d]) := by
  have hends : (endsWith c [FILE_NAME_SEPARATOR] || endsWith c sepAsterisk) = true := by
    rw [Bool.or_eq_true, endsWith_iff, endsWith_iff]
    rcases hc with h | h
    · exact Or.inl ⟨d, h⟩
    · exact Or.inr ⟨d, h⟩
  have hdir : beforeLast c FILE_NAME_SEPARATOR = d := by
    rcases hc with h | h
    · rw [h, beforeLast_append_sep]
    · rw [h, beforeLast_append_sepAsterisk]
  simp only [processTail, hends, if_true, hdir]
  cases d <;> simp

/-- Any other candidate is classified file-or-folder, unmodified. -/
theorem processTail_fileFolder (c : Zstring) (masksFileFolder masksFolder : List Zstring)
    (h1 : ¬ ∃ d, c = d ++ [FILE_NAME_SEPARATOR]) (h2 : ¬ ∃ d, c = d ++ sepAsterisk) :
    processTail c masksFileFolder masksFolder =
      (if c = [] then masksFileFolder else masksFileFolder ++ [c], masksFolder) := by
  have hends : (endsWith c [FILE_NAME_SEPARATOR] || endsWith c sepAsterisk) = false := by
    rw [Bool.or_eq_false_iff, ← Bool.not_eq_true, ← Bool.not_eq_true, endsWith_iff, endsWith_iff]
    exact ⟨h1, h2⟩
  simp only [processTail, hends, Bool.false_eq_true, if_false]
  cases c <;> simp

/-- C15: leading-separator rule of the mask compiler. For a phrase that starts
with the separator, `addFilterEntry` appends exactly what processing the
remainder after that first separator appends, as a single candidate: the phrase
`<sep>abc` yields only the file-or-folder mask `abc`, the phrase `<sep>*<sep>abc`
yields only the file-or-folder mask `*<sep>abc`, and the phrase that is just the
separator yields nothing. -/
theorem addFilterEntry_leading_separator (rest : Zstring)
    (masksFileFolder masksFolder : List Zstring) :
    addFilterEntry (FILE_NAME_SEPARATOR :: rest) masksFileFolder masksFolder =
      processTail rest masksFileFolder masksFolder ∧
    addFilterEntry (FILE_NAME_SEPARATOR :: ['a', 'b', 'c']) masksFileFolder masksFolder =
      (masksFileFolder ++ [['a', 'b', 'c']], masksFolder) ∧
    addFilterEntry (FILE_NAME_SEPARATOR :: '*' :: FILE_NAME_SEPARATOR :: ['a', 'b', 'c'])
        masksFileFolder masksFolder =
      (masksFileFolder ++ [['*', FILE_NAME_SEPARATOR, 'a', 'b', 'c']], masksFolder) ∧
    addFilterEntry [FILE_NAME_SEPARATOR] masksFileFolder masksFolder =
      (masksFileFolder, masksFolder) := by
  have hgen : ∀ r : Zstring, addFilterEntry (FILE_NAME_SEPARATOR :: r) masksFileFolder masksFolder =
      processTail r masksFileFolder masksFolder := by
    intro r
    have hs : startsWith (FILE_NAME_SEPARATOR :: r) [FILE_NAME_SEPARATOR] = true :=
      (startsWith_iff _ _).mpr ⟨r, rfl⟩
    have ha : afterFirst (FILE_NAME_SEPARATOR :: r) [FILE_NAME_SEPARATOR] = r :=
      afterFirst_of_startsWith [FILE_NAME_SEPARATOR] r
    simp only [addFilterEntry, hs, if_true, ha]
  refine ⟨hgen rest, ?_, ?_, ?_⟩
  · rw [hgen]
    rfl
  · rw [hgen]
    rfl
  · rw [hgen]
    rfl

/-- C16: `*<sep>` rule of the mask compiler. For a phrase that does not start with
the separator, `addFilterEntry` processes the whole phrase; if the phrase starts
with `*` followed by the separator it then processes the remainder after these
two characters as a second candidate, and otherwise it processes nothing more.
The phrase `*<sep>abc` yields the file-or-folder masks `*<sep>abc` and `abc`, in
this order. -/
theorem addFilterEntry_no_leading_separator (phrase : Zstring)
    (masksFileFolder masksFolder : List Zstring)
    (h : ¬ ∃ rest, phrase = FILE_NAME_SEPARATOR :: rest) :
    (∀ rest, phrase = '*' :: FILE_NAME_SEPARATOR :: rest →
      addFilterEntry phrase masksFileFolder masksFolder =
        processTail rest (processTail phrase masksFileFolder masksFolder).1
          (processTail phrase masksFileFolder masksFolder).2) ∧
    ((¬ ∃ rest, phrase = '*' :: FILE_NAME_SEPARATOR :: rest) →
      addFilterEntry phrase masksFileFolder masksFolder =
        processTail phrase masksFileFolder masksFolder) ∧
    addFilterEntry ('*' :: FILE_NAME_SEPARATOR :: ['a', 'b', 'c']) masksFileFolder masksFolder =
      (masksFileFolder ++ [['*', FILE_NAME_SEPARATOR, 'a', 'b', 'c']] ++ [['a', 'b', 'c']],
        masksFolder) := by
  have hs : startsWith phrase [FILE_NAME_SEPARATOR] = false := by
    rw [← Bool.not_eq_true, startsWith_iff]
    simpa using h
  refine ⟨?_, ?_, ?_⟩
  · intro rest hrest
    have hs2 : startsWith phrase asteriskSep = true :=
      (startsWith_iff _ _).mpr ⟨rest, by rw [hrest]; rfl⟩
    have ha : afterFirst phrase asteriskSep = rest := by
      rw [hrest]
      exact afterFirst_of_startsWith asteriskSep rest
    simp only [addFilterEntry, hs, Bool.false_eq_true, if_false, hs2, if_true, ha]
  · intro hno
    have hs2 : startsWith phrase asteriskSep = false := by
      rw [← Bool.not_eq_true, startsWith_iff]
      rintro ⟨t, ht⟩
      exact hno ⟨t, by rw [ht]; rfl⟩
    simp only [addFilterEntry, hs, Bool.false_eq_true, if_false, hs2]
  · simp [addFilterEntry, startsWith, processTail, endsWith, afterFirst, beforeLast,
      asteriskSep, sepAsterisk, asterisk, FILE_NAME_SEPARATOR]

/-- Witness for C16: the phrase `*/x` does not start with the separator. -/
theorem addFilterEntry_no_leading_separator_witness :
    (¬ ∃ rest, ['*', '/', 'x'] = FILE_NAME_SEPARATOR :: rest) ∧
      addFilterEntry ['*', '/', 'x'] [] [] =
        processTail ['x'] (processTail ['*', '/', 'x'] [] []).1
          (processTail ['*', '/', 'x'] [] []).2 :=
  ⟨by simp [FILE_NAME_SEPARATOR],
    (addFilterEntry_no_leading_separator ['*', '/', 'x'] [] []
      (by simp [FILE_NAME_SEPARATOR])).1 ['x'] rfl⟩

/-- C17: candidate classification of `processTail`. If the candidate ends with the
separator or with the separator followed by `*`, the text `d` before that last
separator is appended to the folder-only list when it is not empty, and nothing
is appended when it is empty; otherwise the candidate itself is appended to the
file-or-folder list when it is not empty, and nothing is appended when it is
empty. In every case at most one mask is appended, to one of the two lists. -/
theorem processTail_classification (c : Zstring) (masksFileFolder masksFolder : List Zstring) :
    (∀ d : Zstring, (c = d ++ [FILE_NAME_SEPARATOR] ∨ c = d ++ [FILE_NAME_SEPARATOR, '*']) →
      processTail c masksFileFolder masksFolder =
        (masksFileFolder, if d = [] then masksFolder else masksFolder ++ [d])) ∧
    ((¬ ∃ d, c = d ++ [FILE_NAME_SEPARATOR]) → (¬ ∃ d, c = d ++ [FILE_NAME_SEPARATOR, '*']) →
      processTail c masksFileFolder masksFolder =
        (if c = [] then masksFileFolder else masksFileFolder ++ [c], masksFolder)) ∧
    (∃ added : List Zstring, added.length ≤ 1 ∧
      (processTail c masksFileFolder masksFolder = (masksFileFolder ++ added, masksFolder) ∨
        processTail c masksFileFolder masksFolder = (masksFileFolder, masksFolder ++ added))) := by
  have hfolder := fun d hd => processTail_folder d masksFileFolder masksFolder c hd
  have hfile := processTail_fileFolder c masksFileFolder masksFolder
  refine ⟨hfolder, hfile, ?_⟩
  by_cases h1 : ∃ d, c = d ++ [FILE_NAME_SEPARATOR]
  · obtain ⟨d, hd⟩ := h1
    rw [hfolder d (Or.inl hd)]
    by_cases hd0 : d = []
    · exact ⟨[], by simp, Or.inr (by simp [hd0])⟩
    · exact ⟨[d], by simp, Or.inr (by simp [hd0])⟩
  · by_cases h2 : ∃ d, c = d ++ [FILE_NAME_SEPARATOR, '*']
    · obtain ⟨d, hd⟩ := h2
      rw [hfolder d (Or.inr hd)]
      by_cases hd0 : d = []
      · exact ⟨[], by simp, Or.inr (by simp [hd0])⟩
      · exact ⟨[d], by simp, Or.inr (by simp [hd0])⟩
    · rw [hfile h1 h2]
      by_cases hc0 : c = []
      · exact ⟨[], by simp, Or.inl (by simp [hc0])⟩
      · exact ⟨[c], by simp, Or.inl (by simp [hc0])⟩

/-- Witness for C17: the candidate `ab/*` gives the folder-only mask `ab`. -/
theorem processTail_classification_witness :
    (['a', 'b', '/', '*'] = ['a', 'b'] ++ [FILE_NAME_SEPARATOR] ∨
        ['a', 'b', '/', '*'] = ['a', 'b'] ++ [FILE_NAME_SEPARATOR, '*']) ∧
      processTail ['a', 'b', '/', '*'] [] [['x']] =
        ([], if ['a', 'b'] = ([] : Zstring) then [['x']] else [['x']] ++ [['a', 'b']]) :=
  ⟨Or.inr rfl, (processTail_classification ['a', 'b', '/', '*'] [] [['x']]).1 ['a', 'b'] (Or.inr rfl)⟩

/-! ## No empty mask -/

theorem mem_insertSortedUnique (x y : Zstring) (l : List Zstring) :
    y ∈ insertSortedUnique x l ↔ y = x ∨ y ∈ l := by
  induction l with
  | nil => simp [insertSortedUnique]
  | cons z l ih =>
    rw [insertSortedUnique]
    split
    · simp
    · split
      · rename_i hxz
        subst hxz
        simp
      · simp only [List.mem_cons, ih]
        tauto

theorem mem_removeDuplicates (y : Zstring) (v : List Zstring) :
    y ∈ removeDuplicates v ↔ y ∈ v := by
  induction v with
  | nil => simp [removeDuplicates]
  | cons x v ih =>
    have hstep : removeDuplicates (x :: v) = insertSortedUnique x (removeDuplicates v) := rfl
    rw [hstep, mem_insertSortedUnique, ih, List.mem_cons]

theorem processTail_noEmpty (phrase : Zstring) (masksFileFolder masksFolder : List Zstring)
    (h : [] ∉ masksFileFolder ∧ [] ∉ masksFolder) :
    [] ∉ (processTail phrase masksFileFolder masksFolder).1 ∧
      [] ∉ (processTail phrase masksFileFolder masksFolder).2 := by
  obtain ⟨h1, h2⟩ := h
  simp only [processTail]
  split
  · split
    · rename_i hd
      refine ⟨h1, ?_⟩
      simp only [List.mem_append, List.mem_singleton, not_or]
      refine ⟨h2, ?_⟩
      intro he
      rw [← he] at hd
      simp at hd
    · exact ⟨h1, h2⟩
  · split
    · rename_i hd
      refine ⟨?_, h2⟩
      simp only [List.mem_append, List.mem_singleton, not_or]
      refine ⟨h1, ?_⟩
      intro he
      rw [← he] at hd
      simp at hd
    · exact ⟨h1, h2⟩

theorem addFilterEntry_noEmpty (phrase : Zstring) (masksFileFolder masksFolder : List Zstring)
    (h : [] ∉ masksFileFolder ∧ [] ∉ masksFolder) :
    [] ∉ (addFilterEntry phrase masksFileFolder masksFolder).1 ∧
      [] ∉ (addFilterEntry phrase masksFileFolder masksFolder).2 := by
  simp only [addFilterEntry]
  split
  · exact processTail_noEmpty _ _ _ h
  · split
    · exact processTail_noEmpty _ _ _ (processTail_noEmpty _ _ _ h)
    · exact processTail_noEmpty _ _ _ h

theorem addFilterEntries_noEmpty (entries : List Zstring) :
    ∀ masksFileFolder masksFolder : List Zstring,
      [] ∉ masksFileFolder ∧ [] ∉ masksFolder →
      [] ∉ (addFilterEntries entries masksFileFolder masksFolder).1 ∧
        [] ∉ (addFilterEntries entries masksFileFolder masksFolder).2 := by
  induction entries with
  | nil =>
    intro ff fo h
    exact h
  | cons e entries ih =>
    intro ff fo h
    have hstep : addFilterEntries (e :: entries) ff fo =
        addFilterEntries entries (addFilterEntry e ff fo).1 (addFilterEntry e ff fo).2 := rfl
    rw [hstep]
    exact ih _ _ (addFilterEntry_noEmpty e ff fo h)

theorem ctor_noEmpty (includePhrase excludePhrase : Zstring) :
    [] ∉ (NameFilter.ctor includePhrase excludePhrase).includeMasksFileFolder ∧ [] ∉ (NameFilter.ctor includePhrase excludePhrase).includeMasksFolder ∧
      [] ∉ (NameFilter.ctor includePhrase excludePhrase).excludeMasksFileFolder ∧ [] ∉ (NameFilter.ctor includePhrase excludePhrase).excludeMasksFolder := by
  have hi := addFilterEntries_noEmpty (splitByDelimiter includePhrase) [] []
    ⟨by simp, by simp⟩
  have he := addFilterEntries_noEmpty (splitByDelimiter excludePhrase) [] []
    ⟨by simp, by simp⟩
  simp only [NameFilter.ctor, mem_removeDuplicates]
  exact ⟨hi.1, hi.2, he.1, he.2⟩

theorem addExclusion_noEmpty (f : NameFilter) (excludePhrase : Zstring)
    (h : [] ∉ (f).includeMasksFileFolder ∧ [] ∉ (f).includeMasksFolder ∧
      [] ∉ (f).excludeMasksFileFolder ∧ [] ∉ (f).excludeMasksFolder) :
    [] ∉ (f.addExclusion excludePhrase).includeMasksFileFolder ∧ [] ∉ (f.addExclusion excludePhrase).includeMasksFolder ∧
      [] ∉ (f.addExclusion excludePhrase).excludeMasksFileFolder ∧ [] ∉ (f.addExclusion excludePhrase).excludeMasksFolder := by
  have he := addFilterEntries_noEmpty (splitByDelimiter excludePhrase)
    f.excludeMasksFileFolder f.excludeMasksFolder ⟨h.2.2.1, h.2.2.2⟩
  simp only [NameFilter.addExclusion, mem_removeDuplicates]
  exact ⟨h.1, h.2.1, he.1, he.2⟩

theorem foldl_addExclusion_noEmpty (extras : List Zstring) :
    ∀ f : NameFilter, ([] ∉ (f).includeMasksFileFolder ∧ [] ∉ (f).includeMasksFolder ∧
      [] ∉ (f).excludeMasksFileFolder ∧ [] ∉ (f).excludeMasksFolder) →
      ([] ∉ (extras.foldl NameFilter.addExclusion f).includeMasksFileFolder ∧ [] ∉ (extras.foldl NameFilter.addExclusion f).includeMasksFolder ∧
      [] ∉ (extras.foldl NameFilter.addExclusion f).excludeMasksFileFolder ∧ [] ∉ (extras.foldl NameFilter.addExclusion f).excludeMasksFolder) := by
  induction extras with
  | nil =>
    intro f h
    exact h
  | cons e extras ih =>
    intro f h
    exact ih _ (addExclusion_noEmpty f e h)

/-- C18: no empty mask is ever stored. For all include and exclude texts and every
sequence of later `addExclusion` calls with arbitrary texts, none of the four
mask sets of the filter contains the empty string. -/
theorem no_empty_mask_stored (includePhrase excludePhrase : Zstring) (extras : List Zstring) :
    [] ∉ (extras.foldl NameFilter.addExclusion
        (NameFilter.ctor includePhrase excludePhrase)).includeMasksFileFolder ∧
    [] ∉ (extras.foldl NameFilter.addExclusion
        (NameFilter.ctor includePhrase excludePhrase)).includeMasksFolder ∧
    [] ∉ (extras.foldl NameFilter.addExclusion
        (NameFilter.ctor includePhrase excludePhrase)).excludeMasksFileFolder ∧
    [] ∉ (extras.foldl NameFilter.addExclusion
        (NameFilter.ctor includePhrase excludePhrase)).excludeMasksFolder :=
  foldl_addExclusion_noEmpty extras _ (ctor_noEmpty includePhrase excludePhrase)

/-! ## Splitting a filter text into phrases -/

theorem split_ne_nil (str : Zstring) (delimiter : Char) : split str delimiter ≠ [] := by
  cases str with
  | nil => simp [split]
  | cons c str =>
    rw [split]
    split
    · simp
    · split <;> simp

theorem cutAtDelimiters_ne_nil (str : Zstring) : cutAtDelimiters str ≠ [] := by
  cases str with
  | nil => simp [cutAtDelimiters]
  | cons c str =>
    rw [cutAtDelimiters]
    split
    · simp
    · split <;> simp

/-- Cutting at `;` and then every piece at the newline is cutting at both. -/
theorem split_split_eq_cutAtDelimiters (str : Zstring) :
    ((split str ';').map (fun piece => split piece (Char.ofNat 10))).flatten =
      cutAtDelimiters str := by
  induction str with
  | nil => simp [split, cutAtDelimiters]
  | cons c str ih =>
    rw [split, cutAtDelimiters]
    by_cases h1 : c = ';'
    · simp only [h1, if_true, true_or, List.map_cons, List.flatten_cons, split]
      rw [ih]
      rfl
    · simp only [h1, if_false, false_or]
      obtain ⟨piece, pieces, hp⟩ := List.exists_cons_of_ne_nil (split_ne_nil str ';')
      rw [hp] at ih ⊢
      simp only [List.map_cons, List.flatten_cons] at ih ⊢
      by_cases h2 : c = Char.ofNat 10
      · rw [split]
        simp only [h2, if_true, List.cons_append]
        rw [ih]
      · rw [split]
        simp only [h2, if_false]
        obtain ⟨q, qs, hq⟩ := List.exists_cons_of_ne_nil (split_ne_nil piece (Char.ofNat 10))
        rw [hq] at ih ⊢
        simp only [List.cons_append] at ih ⊢
        rw [← ih]

/-- The function `splitByDelimiter` on the reference cut: every piece is trimmed and the
empty results are dropped, in the order of the pieces. -/
theorem splitByDelimiter_eq_cut (filterString : Zstring) :
    splitByDelimiter filterString =
      ((cutAtDelimiters filterString).map trimCpy).filter (fun entry => !entry.isEmpty) := by
  rw [← split_split_eq_cutAtDelimiters, splitByDelimiter]
  generalize split filterString ';' = l
  induction l with
  | nil => simp
  | cons x l ih =>
    simp only [List.map_cons, List.flatten_cons, List.map_append, List.filter_append]
    rw [ih]

/-- A piece of the cut holds characters of the text only, and no delimiter. -/
theorem mem_cutAtDelimiters (str : Zstring) :
    ∀ piece ∈ cutAtDelimiters str, ∀ c ∈ piece,
      c ∈ str ∧ c ≠ ';' ∧ c ≠ Char.ofNat 10 := by
  induction str with
  | nil =>
    intro piece hp c hc
    simp only [cutAtDelimiters, List.mem_singleton] at hp
    subst hp
    simp at hc
  | cons d str ih =>
    intro piece hp c hc
    rw [cutAtDelimiters] at hp
    split at hp
    · simp only [List.mem_cons] at hp
      rcases hp with rfl | hp
      · simp at hc
      · obtain ⟨h1, h2⟩ := ih piece hp c hc
        exact ⟨List.mem_cons_of_mem d h1, h2⟩
    · rename_i hd
      simp only [not_or] at hd
      split at hp
      · simp only [List.mem_singleton] at hp
        subst hp
        simp only [List.mem_singleton] at hc
        subst hc
        exact ⟨List.mem_cons_self _ _, hd.1, hd.2⟩
      · rename_i q qs hq
        simp only [List.mem_cons] at hp
        rcases hp with rfl | hp
        · simp only [List.mem_cons] at hc
          rcases hc with rfl | hc
          · exact ⟨List.mem_cons_self _ _, hd.1, hd.2⟩
          · obtain ⟨h1, h2⟩ := ih q (by rw [hq]; exact List.mem_cons_self _ _) c hc
            exact ⟨List.mem_cons_of_mem d h1, h2⟩
        · obtain ⟨h1, h2⟩ := ih piece (by rw [hq]; exact List.mem_cons_of_mem _ hp) c hc
          exact ⟨List.mem_cons_of_mem d h1, h2⟩

theorem mem_of_mem_trimCpy (str : Zstring) (c : Char) (h : c ∈ trimCpy str) : c ∈ str := by
  simp only [trimCpy, List.mem_reverse] at h
  have h1 := (List.dropWhile_sublist isWhiteSpace).subset h
  simp only [List.mem_reverse] at h1
  exact (List.dropWhile_sublist isWhiteSpace).subset h1

theorem head?_dropWhile_isWhiteSpace (l : Zstring) (c : Char)
    (h : (l.dropWhile isWhiteSpace).head? = some c) : isWhiteSpace c = false := by
  have := List.head?_dropWhile_not isWhiteSpace l
  rw [h] at this
  exact this

theorem getLast?_trimCpy (str : Zstring) (c : Char) (h : (trimCpy str).getLast? = some c) :
    isWhiteSpace c = false := by
  rw [trimCpy, List.getLast?_reverse] at h
  exact head?_dropWhile_isWhiteSpace _ c h

theorem head?_trimCpy (str : Zstring) (c : Char) (h : (trimCpy str).head? = some c) :
    isWhiteSpace c = false := by
  rw [trimCpy, List.head?_reverse] at h
  obtain ⟨t, ht⟩ := List.dropWhile_suffix (l := (str.dropWhile isWhiteSpace).reverse) isWhiteSpace
  have hne : List.dropWhile isWhiteSpace (str.dropWhile isWhiteSpace).reverse ≠ [] := by
    intro h0
    rw [h0] at h
    simp at h
  have hlast := List.getLast?_append_of_ne_nil t hne
  rw [ht, List.getLast?_reverse] at hlast
  rw [← hlast] at h
  exact head?_dropWhile_isWhiteSpace _ c h

theorem trimCpy_eq_nil_of_all_whiteSpace (str : Zstring)
    (h : ∀ c ∈ str, isWhiteSpace c = true) : trimCpy str = [] := by
  have h1 : str.dropWhile isWhiteSpace = [] := by
    rw [List.dropWhile_eq_nil_iff]
    exact h
  simp [trimCpy, h1]


/-- Trimming removes a run of whitespace at the front and a run of whitespace at
the end, and nothing else. -/
theorem trimCpy_decompose (str : Zstring) :
    ∃ a b : Zstring, str = a ++ trimCpy str ++ b ∧
      (∀ c ∈ a, isWhiteSpace c = true) ∧ (∀ c ∈ b, isWhiteSpace c = true) := by
  refine ⟨str.takeWhile isWhiteSpace,
    ((str.dropWhile isWhiteSpace).reverse.takeWhile isWhiteSpace).reverse, ?_, ?_, ?_⟩
  · have h1 := List.takeWhile_append_dropWhile isWhiteSpace str
    have h2 := List.takeWhile_append_dropWhile isWhiteSpace (str.dropWhile isWhiteSpace).reverse
    have h3 := congrArg List.reverse h2
    rw [List.reverse_append, List.reverse_reverse] at h3
    rw [trimCpy, List.append_assoc, h3, h1]
  · intro c hc
    exact (List.mem_takeWhile_imp hc)
  · intro c hc
    rw [List.mem_reverse] at hc
    exact (List.mem_takeWhile_imp hc)

/-- C19: `splitByDelimiter` returns, in input order, exactly the whitespace-trimmed,
non-empty pieces obtained by cutting the input at every `;` and every newline
(trimming takes a run of whitespace off both ends of a piece and nothing else).
Hence no returned phrase is empty, contains `;` or a newline, or begins or ends
with whitespace; and an input made of delimiters and whitespace only yields the
empty list. -/
theorem splitByDelimiter_spec (filterString : Zstring) :
    splitByDelimiter filterString =
      ((cutAtDelimiters filterString).map trimCpy).filter (fun entry => !entry.isEmpty) ∧
    (∀ piece : Zstring, ∃ a b : Zstring, piece = a ++ trimCpy piece ++ b ∧
      (∀ c ∈ a, isWhiteSpace c = true) ∧ (∀ c ∈ b, isWhiteSpace c = true)) ∧
    (∀ phrase ∈ splitByDelimiter filterString,
      phrase ≠ [] ∧ ';' ∉ phrase ∧ Char.ofNat 10 ∉ phrase ∧
      (∀ c, phrase.head? = some c → isWhiteSpace c = false) ∧
      (∀ c, phrase.getLast? = some c → isWhiteSpace c = false)) ∧
    ((∀ c ∈ filterString, c = ';' ∨ c = Char.ofNat 10 ∨ isWhiteSpace c = true) →
      splitByDelimiter filterString = []) := by
  refine ⟨splitByDelimiter_eq_cut filterString, trimCpy_decompose, ?_, ?_⟩
  · intro phrase hphrase
    rw [splitByDelimiter_eq_cut, List.mem_filter, List.mem_map] at hphrase
    obtain ⟨⟨piece, hpiece, rfl⟩, hne⟩ := hphrase
    have hchars : ∀ c ∈ trimCpy piece, c ≠ ';' ∧ c ≠ Char.ofNat 10 := fun c hc =>
      (mem_cutAtDelimiters filterString piece hpiece c (mem_of_mem_trimCpy piece c hc)).2
    refine ⟨?_, ?_, ?_, head?_trimCpy piece, getLast?_trimCpy piece⟩
    · intro h0
      rw [h0] at hne
      simp at hne
    · intro hmem
      exact (hchars _ hmem).1 rfl
    · intro hmem
      exact (hchars _ hmem).2 rfl
  · intro hall
    rw [splitByDelimiter_eq_cut, List.filter_eq_nil_iff]
    intro entry hentry
    rw [List.mem_map] at hentry
    obtain ⟨piece, hpiece, rfl⟩ := hentry
    have hws : ∀ c ∈ piece, isWhiteSpace c = true := by
      intro c hc
      obtain ⟨hin, h1, h2⟩ := mem_cutAtDelimiters filterString piece hpiece c hc
      rcases hall c hin with h | h | h
      · exact absurd h h1
      · exact absurd h h2
      · exact h
    simp [trimCpy_eq_nil_of_all_whiteSpace piece hws]

/-- Witness for C19: a text of blanks, a `;` and a newline yields no phrase. -/
theorem splitByDelimiter_spec_witness :
    (∀ c ∈ [' ', ';', Char.ofNat 10, ' '],
        c = ';' ∨ c = Char.ofNat 10 ∨ isWhiteSpace c = true) ∧
      splitByDelimiter [' ', ';', Char.ofNat 10, ' '] = [] :=
  ⟨by decide, (splitByDelimiter_spec [' ', ';', Char.ofNat 10, ' ']).2.2.2 (by decide)⟩

/-! ## Ordering of name filters -/

theorem zstringLess_irrefl (a : Zstring) : zstringLess a a = false := by
  induction a with
  | nil => rfl
  | cons c a ih => simp [zstringLess, ih]

theorem vectorLess_irrefl (v : List Zstring) : vectorLess v v = false := by
  induction v with
  | nil => rfl
  | cons a v ih => simp [vectorLess, zstringLess_irrefl, ih]

/-- C20: `cmpLessSameType(a, b)` is the lexicographic comparison of the four mask
sets in the field order include file-or-folder, include folder-only, exclude
file-or-folder, exclude folder-only: the first field in which `a` and `b`
differ decides, by the ordered-sequence comparison of that field, and the
result is false when all four fields are equal. -/
theorem cmpLessSameType_lexicographic (a b : NameFilter) :
    (a.includeMasksFileFolder ≠ b.includeMasksFileFolder →
      a.cmpLessSameType b = vectorLess a.includeMasksFileFolder b.includeMasksFileFolder) ∧
    (a.includeMasksFileFolder = b.includeMasksFileFolder →
      a.includeMasksFolder ≠ b.includeMasksFolder →
      a.cmpLessSameType b = vectorLess a.includeMasksFolder b.includeMasksFolder) ∧
    (a.includeMasksFileFolder = b.includeMasksFileFolder →
      a.includeMasksFolder = b.includeMasksFolder →
      a.excludeMasksFileFolder ≠ b.excludeMasksFileFolder →
      a.cmpLessSameType b = vectorLess a.excludeMasksFileFolder b.excludeMasksFileFolder) ∧
    (a.includeMasksFileFolder = b.includeMasksFileFolder →
      a.includeMasksFolder = b.includeMasksFolder →
      a.excludeMasksFileFolder = b.excludeMasksFileFolder →
      a.excludeMasksFolder ≠ b.excludeMasksFolder →
      a.cmpLessSameType b = vectorLess a.excludeMasksFolder b.excludeMasksFolder) ∧
    (a.includeMasksFileFolder = b.includeMasksFileFolder →
      a.includeMasksFolder = b.includeMasksFolder →
      a.excludeMasksFileFolder = b.excludeMasksFileFolder →
      a.excludeMasksFolder = b.excludeMasksFolder →
      a.cmpLessSameType b = false) ∧
    (a.cmpLessSameType b = true ↔
      vectorLess a.includeMasksFileFolder b.includeMasksFileFolder = true ∨
      (a.includeMasksFileFolder = b.includeMasksFileFolder ∧
        (vectorLess a.includeMasksFolder b.includeMasksFolder = true ∨
        (a.includeMasksFolder = b.includeMasksFolder ∧
          (vectorLess a.excludeMasksFileFolder b.excludeMasksFileFolder = true ∨
          (a.excludeMasksFileFolder = b.excludeMasksFileFolder ∧
            vectorLess a.excludeMasksFolder b.excludeMasksFolder = true)))))) := by
  refine ⟨?_, ?_, ?_, ?_, ?_, ?_⟩
  · intro h1
    simp [NameFilter.cmpLessSameType, h1]
  · intro h1 h2
    simp [NameFilter.cmpLessSameType, h1, h2]
  · intro h1 h2 h3
    simp [NameFilter.cmpLessSameType, h1, h2, h3]
  · intro h1 h2 h3 h4
    simp [NameFilter.cmpLessSameType, h1, h2, h3, h4]
  · intro h1 h2 h3 h4
    simp [NameFilter.cmpLessSameType, h1, h2, h3, h4]
  · by_cases h1 : a.includeMasksFileFolder = b.includeMasksFileFolder
    · by_cases h2 : a.includeMasksFolder = b.includeMasksFolder
      · by_cases h3 : a.excludeMasksFileFolder = b.excludeMasksFileFolder
        · by_cases h4 : a.excludeMasksFolder = b.excludeMasksFolder
          · simp [NameFilter.cmpLessSameType, h1, h2, h3, h4, vectorLess_irrefl]
          · simp [NameFilter.cmpLessSameType, h1, h2, h3, h4, vectorLess_irrefl]
        · simp [NameFilter.cmpLessSameType, h1, h2, h3, vectorLess_irrefl]
      · simp [NameFilter.cmpLessSameType, h1, h2, vectorLess_irrefl]
    · simp [NameFilter.cmpLessSameType, h1]

/-- Witness for C20: two filters that first differ in the exclude file-or-folder
masks, `a` against `b`. -/
theorem cmpLessSameType_lexicographic_witness :
    (NameFilter.ctor ['*'] ['a']).includeMasksFileFolder =
        (NameFilter.ctor ['*'] ['b']).includeMasksFileFolder ∧
      (NameFilter.ctor ['*'] ['a']).includeMasksFolder =
        (NameFilter.ctor ['*'] ['b']).includeMasksFolder ∧
      (NameFilter.ctor ['*'] ['a']).excludeMasksFileFolder ≠
        (NameFilter.ctor ['*'] ['b']).excludeMasksFileFolder ∧
      (NameFilter.ctor ['*'] ['a']).cmpLessSameType (NameFilter.ctor ['*'] ['b']) =
        vectorLess (NameFilter.ctor ['*'] ['a']).excludeMasksFileFolder
          (NameFilter.ctor ['*'] ['b']).excludeMasksFileFolder ∧
      (NameFilter.ctor ['*'] ['a']).cmpLessSameType (NameFilter.ctor ['*'] ['b']) = true :=
  ⟨by decide, by decide, by decide,
    (cmpLessSameType_lexicographic (NameFilter.ctor ['*'] ['a'])
      (NameFilter.ctor ['*'] ['b'])).2.2.1 (by decide) (by decide) (by decide),
    by decide⟩

/-! ## The order of strings, of vectors and of filters -/

theorem char_eq_of_toNat_eq (a b : Char) (h : a.toNat = b.toNat) : a = b := by
  apply Char.ext
  apply UInt32.ext
  exact h

theorem zstringLess_asymm (a : Zstring) :
    ∀ b : Zstring, zstringLess a b = true → zstringLess b a = false := by
  induction a with
  | nil =>
    intro b _
    cases b <;> rfl
  | cons c a ih =>
    intro b h
    cases b with
    | nil => simp [zstringLess] at h
    | cons d b =>
      simp only [zstringLess] at h ⊢
      by_cases h1 : c.toNat < d.toNat
      · have h2 : ¬ d.toNat < c.toNat := by omega
        simp [h2, h1]
      · by_cases h2 : d.toNat < c.toNat
        · simp [h1, h2] at h
        · simp only [h1, h2, if_false] at h ⊢
          exact ih b h

theorem zstringLess_total (a : Zstring) :
    ∀ b : Zstring, zstringLess a b = false → zstringLess b a = false → a = b := by
  induction a with
  | nil =>
    intro b h _
    cases b with
    | nil => rfl
    | cons d b => simp [zstringLess] at h
  | cons c a ih =>
    intro b h h'
    cases b with
    | nil => simp [zstringLess] at h'
    | cons d b =>
      simp only [zstringLess] at h h'
      by_cases h1 : c.toNat < d.toNat
      · simp [h1] at h
      · by_cases h2 : d.toNat < c.toNat
        · simp [h2] at h'
        · simp only [h1, h2, if_false] at h h'
          have hcd : c = d := char_eq_of_toNat_eq c d (by omega)
          rw [hcd, ih b h h']

theorem zstringLess_trans (a : Zstring) :
    ∀ b c : Zstring, zstringLess a b = true → zstringLess b c = true →
      zstringLess a c = true := by
  induction a with
  | nil =>
    intro b c h1 h2
    cases b with
    | nil => simp [zstringLess] at h1
    | cons y b =>
      cases c with
      | nil => simp [zstringLess] at h2
      | cons z c => rfl
  | cons x a ih =>
    intro b c h1 h2
    cases b with
    | nil => simp [zstringLess] at h1
    | cons y b =>
      cases c with
      | nil => simp [zstringLess] at h2
      | cons z c =>
        simp only [zstringLess] at h1 h2 ⊢
        by_cases hxy : x.toNat < y.toNat
        · by_cases hyz : y.toNat < z.toNat
          · have : x.toNat < z.toNat := by omega
            simp [this]
          · by_cases hzy : z.toNat < y.toNat
            · simp [hyz, hzy] at h2
            · have : x.toNat < z.toNat := by omega
              simp [this]
        · by_cases hyx : y.toNat < x.toNat
          · simp [hxy, hyx] at h1
          · simp only [hxy, hyx, if_false] at h1
            by_cases hyz : y.toNat < z.toNat
            · have : x.toNat < z.toNat := by omega
              simp [this]
            · by_cases hzy : z.toNat < y.toNat
              · simp [hyz, hzy] at h2
              · simp only [hyz, hzy, if_false] at h2
                have h3 : ¬ x.toNat < z.toNat := by omega
                have h4 : ¬ z.toNat < x.toNat := by omega
                simp only [h3, h4, if_false]
                exact ih b c h1 h2

theorem vectorLess_asymm (u : List Zstring) :
    ∀ v : List Zstring, vectorLess u v = true → vectorLess v u = false := by
  induction u with
  | nil =>
    intro v _
    cases v <;> rfl
  | cons a u ih =>
    intro v h
    cases v with
    | nil => simp [vectorLess] at h
    | cons b v =>
      simp only [vectorLess] at h ⊢
      by_cases h1 : zstringLess a b = true
      · have h2 : zstringLess b a = false := zstringLess_asymm a b h1
        simp [h1, h2]
      · by_cases h2 : zstringLess b a = true
        · simp [h1, h2] at h
        · simp only [h1, h2, if_false] at h ⊢
          exact ih v h

theorem vectorLess_total (u : List Zstring) :
    ∀ v : List Zstring, vectorLess u v = false → vectorLess v u = false → u = v := by
  induction u with
  | nil =>
    intro v h _
    cases v with
    | nil => rfl
    | cons b v => simp [vectorLess] at h
  | cons a u ih =>
    intro v h h'
    cases v with
    | nil => simp [vectorLess] at h'
    | cons b v =>
      simp only [vectorLess] at h h'
      by_cases h1 : zstringLess a b = true
      · simp [h1] at h
      · by_cases h2 : zstringLess b a = true
        · simp [h2] at h'
        · simp only [h1, h2, if_false] at h h'
          have hab : a = b := zstringLess_total a b (by simpa using h1) (by simpa using h2)
          rw [hab, ih v h h']

theorem vectorLess_trans (u : List Zstring) :
    ∀ v w : List Zstring, vectorLess u v = true → vectorLess v w = true →
      vectorLess u w = true := by
  induction u with
  | nil =>
    intro v w h1 h2
    cases v with
    | nil => simp [vectorLess] at h1
    | cons y v =>
      cases w with
      | nil => simp [vectorLess] at h2
      | cons z w => rfl
  | cons x u ih =>
    intro v w h1 h2
    cases v with
    | nil => simp [vectorLess] at h1
    | cons y v =>
      cases w with
      | nil => simp [vectorLess] at h2
      | cons z w =>
        simp only [vectorLess] at h1 h2 ⊢
        by_cases hxy : zstringLess x y = true
        · by_cases hyz : zstringLess y z = true
          · simp [zstringLess_trans x y z hxy hyz]
          · by_cases hzy : zstringLess z y = true
            · simp [hyz, hzy] at h2
            · have hyz' : y = z := zstringLess_total y z (by simpa using hyz) (by simpa using hzy)
              subst hyz'
              simp [hxy]
        · by_cases hyx : zstringLess y x = true
          · simp [hxy, hyx] at h1
          · simp only [hxy, hyx, if_false] at h1
            have hxy' : x = y := zstringLess_total x y (by simpa using hxy) (by simpa using hyx)
            subst hxy'
            by_cases hyz : zstringLess x z = true
            · simp [hyz]
            · by_cases hzy : zstringLess z x = true
              · simp [hyz, hzy] at h2
              · simp only [hyz, hzy, if_false] at h2 ⊢
                exact ih v w h1 h2

/-- Two different vectors are ordered one way, and only one way. -/
theorem vectorLess_of_ne (u v : List Zstring) (h : u ≠ v) :
    (vectorLess u v = true ∧ vectorLess v u = false) ∨
      (vectorLess u v = false ∧ vectorLess v u = true) := by
  cases h1 : vectorLess u v with
  | true => exact Or.inl ⟨rfl, vectorLess_asymm u v h1⟩
  | false =>
    cases h2 : vectorLess v u with
    | true => exact Or.inr ⟨rfl, rfl⟩
    | false => exact absurd (vectorLess_total u v h1 h2) h

/-- The comparison of two filters as a lexicographic comparison of the four
fields. -/
theorem cmpLessSameType_eq_true_iff (a b : NameFilter) :
    a.cmpLessSameType b = true ↔
      vectorLess a.includeMasksFileFolder b.includeMasksFileFolder = true ∨
      (a.includeMasksFileFolder = b.includeMasksFileFolder ∧
        (vectorLess a.includeMasksFolder b.includeMasksFolder = true ∨
        (a.includeMasksFolder = b.includeMasksFolder ∧
          (vectorLess a.excludeMasksFileFolder b.excludeMasksFileFolder = true ∨
          (a.excludeMasksFileFolder = b.excludeMasksFileFolder ∧
            vectorLess a.excludeMasksFolder b.excludeMasksFolder = true))))) := by
  by_cases h1 : a.includeMasksFileFolder = b.includeMasksFileFolder
  · by_cases h2 : a.includeMasksFolder = b.includeMasksFolder
    · by_cases h3 : a.excludeMasksFileFolder = b.excludeMasksFileFolder
      · by_cases h4 : a.excludeMasksFolder = b.excludeMasksFolder
        · simp [NameFilter.cmpLessSameType, h1, h2, h3, h4, vectorLess_irrefl]
        · simp [NameFilter.cmpLessSameType, h1, h2, h3, h4, vectorLess_irrefl]
      · simp [NameFilter.cmpLessSameType, h1, h2, h3, vectorLess_irrefl]
    · simp [NameFilter.cmpLessSameType, h1, h2, vectorLess_irrefl]
  · simp [NameFilter.cmpLessSameType, h1]

/-- One step of the transitivity of a lexicographic comparison. -/
theorem lex_step_trans {α : Type} (V : α → α → Prop) (x y z : α) (P Q R : Prop)
    (hV : V x y → V y z → V x z) (hPQ : P → Q → R)
    (h1 : V x y ∨ (x = y ∧ P)) (h2 : V y z ∨ (y = z ∧ Q)) : V x z ∨ (x = z ∧ R) := by
  rcases h1 with h | ⟨hxy, p⟩
  · rcases h2 with h' | ⟨hyz, _⟩
    · exact Or.inl (hV h h')
    · subst hyz
      exact Or.inl h
  · subst hxy
    rcases h2 with h' | ⟨hyz, q⟩
    · exact Or.inl h'
    · exact Or.inr ⟨hyz, hPQ p q⟩

theorem cmpLessSameType_irrefl (a : NameFilter) : a.cmpLessSameType a = false := by
  simp [NameFilter.cmpLessSameType]

theorem cmpLessSameType_trans (a b c : NameFilter)
    (h1 : a.cmpLessSameType b = true) (h2 : b.cmpLessSameType c = true) :
    a.cmpLessSameType c = true := by
  rw [cmpLessSameType_eq_true_iff] at h1 h2 ⊢
  refine lex_step_trans (fun u v => vectorLess u v = true) _ _ _ _ _ _
    (vectorLess_trans _ _ _) ?_ h1 h2
  intro p1 q1
  refine lex_step_trans (fun u v => vectorLess u v = true) _ _ _ _ _ _
    (vectorLess_trans _ _ _) ?_ p1 q1
  intro p2 q2
  refine lex_step_trans (fun u v => vectorLess u v = true) _ _ _ _ _ _
    (vectorLess_trans _ _ _) ?_ p2 q2
  intro p3 q3
  exact vectorLess_trans _ _ _ p3 q3

/-- Of two filters, exactly one is less than the other, unless the four fields are
equal, and then neither is. -/
theorem cmpLessSameType_trichotomy (a b : NameFilter) :
    (a.cmpLessSameType b = true ∧ b.cmpLessSameType a = false ∧ a ≠ b) ∨
    (a.cmpLessSameType b = false ∧ b.cmpLessSameType a = true ∧ a ≠ b) ∨
    (a.cmpLessSameType b = false ∧ b.cmpLessSameType a = false ∧ a = b) := by
  have hcase : ∀ u v : List Zstring, u ≠ v →
      ∀ x y : Bool, x = vectorLess u v → y = vectorLess v u →
        (x = true ∧ y = false) ∨ (x = false ∧ y = true) := by
    intro u v huv x y hx hy
    rw [hx, hy]
    exact vectorLess_of_ne u v huv
  by_cases h1 : a.includeMasksFileFolder = b.includeMasksFileFolder
  · by_cases h2 : a.includeMasksFolder = b.includeMasksFolder
    · by_cases h3 : a.excludeMasksFileFolder = b.excludeMasksFileFolder
      · by_cases h4 : a.excludeMasksFolder = b.excludeMasksFolder
        · right; right
          have hab : a = b := by
            cases a
            cases b
            simp only [NameFilter.mk.injEq]
            exact ⟨h1, h2, h3, h4⟩
          subst hab
          exact ⟨cmpLessSameType_irrefl a, cmpLessSameType_irrefl a, rfl⟩
        · have hne : a ≠ b := fun h => h4 (by rw [h])
          rcases hcase _ _ h4 (a.cmpLessSameType b) (b.cmpLessSameType a)
            (by simp [NameFilter.cmpLessSameType, h1, h2, h3, h4])
            (by simp [NameFilter.cmpLessSameType, h1.symm, h2.symm, h3.symm, Ne.symm h4])
            with h | h
          · exact Or.inl ⟨h.1, h.2, hne⟩
          · exact Or.inr (Or.inl ⟨h.1, h.2, hne⟩)
      · have hne : a ≠ b := fun h => h3 (by rw [h])
        rcases hcase _ _ h3 (a.cmpLessSameType b) (b.cmpLessSameType a)
          (by simp [NameFilter.cmpLessSameType, h1, h2, h3])
          (by simp [NameFilter.cmpLessSameType, h1.symm, h2.symm, Ne.symm h3])
          with h | h
        · exact Or.inl ⟨h.1, h.2, hne⟩
        · exact Or.inr (Or.inl ⟨h.1, h.2, hne⟩)
    · have hne : a ≠ b := fun h => h2 (by rw [h])
      rcases hcase _ _ h2 (a.cmpLessSameType b) (b.cmpLessSameType a)
        (by simp [NameFilter.cmpLessSameType, h1, h2])
        (by simp [NameFilter.cmpLessSameType, h1.symm, Ne.symm h2])
        with h | h
      · exact Or.inl ⟨h.1, h.2, hne⟩
      · exact Or.inr (Or.inl ⟨h.1, h.2, hne⟩)
  · have hne : a ≠ b := fun h => h1 (by rw [h])
    rcases hcase _ _ h1 (a.cmpLessSameType b) (b.cmpLessSameType a)
      (by simp [NameFilter.cmpLessSameType, h1])
      (by simp [NameFilter.cmpLessSameType, Ne.symm h1])
      with h | h
    · exact Or.inl ⟨h.1, h.2, hne⟩
    · exact Or.inr (Or.inl ⟨h.1, h.2, hne⟩)

theorem nameFilter_eq_iff (a b : NameFilter) :
    a = b ↔
      a.includeMasksFileFolder = b.includeMasksFileFolder ∧
      a.includeMasksFolder = b.includeMasksFolder ∧
      a.excludeMasksFileFolder = b.excludeMasksFileFolder ∧
      a.excludeMasksFolder = b.excludeMasksFolder := by
  cases a
  cases b
  simp only [NameFilter.mk.injEq]

/-- C21: the comparison of name filters is a strict total order on the compiled
content. `cmpLessSameType` is irreflexive and transitive, and for any two
filters `a`, `b` exactly one of three holds: `a` is less than `b`, `b` is less
than `a`, or the four mask sets of `a` and `b` are equal. The operator `<` on
two name filters is this comparison. -/
theorem cmpLessSameType_strict_total_order :
    (∀ a : NameFilter, a.cmpLessSameType a = false) ∧
    (∀ a b c : NameFilter, a.cmpLessSameType b = true → b.cmpLessSameType c = true →
      a.cmpLessSameType c = true) ∧
    (∀ a b : NameFilter,
      (a.cmpLessSameType b = true ∧ b.cmpLessSameType a = false ∧
        ¬ (a.includeMasksFileFolder = b.includeMasksFileFolder ∧
          a.includeMasksFolder = b.includeMasksFolder ∧
          a.excludeMasksFileFolder = b.excludeMasksFileFolder ∧
          a.excludeMasksFolder = b.excludeMasksFolder)) ∨
      (a.cmpLessSameType b = false ∧ b.cmpLessSameType a = true ∧
        ¬ (a.includeMasksFileFolder = b.includeMasksFileFolder ∧
          a.includeMasksFolder = b.includeMasksFolder ∧
          a.excludeMasksFileFolder = b.excludeMasksFileFolder ∧
          a.excludeMasksFolder = b.excludeMasksFolder)) ∨
      (a.cmpLessSameType b = false ∧ b.cmpLessSameType a = false ∧
        (a.includeMasksFileFolder = b.includeMasksFileFolder ∧
          a.includeMasksFolder = b.includeMasksFolder ∧
          a.excludeMasksFileFolder = b.excludeMasksFileFolder ∧
          a.excludeMasksFolder = b.excludeMasksFolder))) ∧
    (∀ a b : NameFilter, hardFilterLess a b = a.cmpLessSameType b) := by
  refine ⟨cmpLessSameType_irrefl, cmpLessSameType_trans, ?_, fun _ _ => rfl⟩
  intro a b
  simp only [← nameFilter_eq_iff]
  exact cmpLessSameType_trichotomy a b

/-- Witness for C21: the filters with the include masks `a`, `b`, `c` are in
ascending order, and the first is less than the third. -/
theorem cmpLessSameType_strict_total_order_witness :
    (NameFilter.ctor ['a'] []).cmpLessSameType (NameFilter.ctor ['b'] []) = true ∧
      (NameFilter.ctor ['b'] []).cmpLessSameType (NameFilter.ctor ['c'] []) = true ∧
      (NameFilter.ctor ['a'] []).cmpLessSameType (NameFilter.ctor ['c'] []) = true :=
  ⟨by decide, by decide,
    cmpLessSameType_strict_total_order.2.1 (NameFilter.ctor ['a'] []) (NameFilter.ctor ['b'] [])
      (NameFilter.ctor ['c'] []) (by decide) (by decide)⟩

/-! ## Deduplicated mask sets -/

theorem insertSortedUnique_sorted (x : Zstring) (l : List Zstring)
    (h : l.Pairwise (fun a b => zstringLess a b = true)) :
    (insertSortedUnique x l).Pairwise (fun a b => zstringLess a b = true) := by
  induction l with
  | nil => simp [insertSortedUnique]
  | cons y ys ih =>
    rw [List.pairwise_cons] at h
    rw [insertSortedUnique]
    split
    · rename_i hxy
      rw [List.pairwise_cons]
      refine ⟨?_, List.pairwise_cons.mpr h⟩
      intro z hz
      rcases List.mem_cons.mp hz with rfl | hz
      · exact hxy
      · exact zstringLess_trans x y z hxy (h.1 z hz)
    · rename_i hxy
      split
      · exact List.pairwise_cons.mpr h
      · rename_i hne
        have hyx : zstringLess y x = true := by
          cases hyx : zstringLess y x with
          | true => rfl
          | false => exact absurd (zstringLess_total x y (by simpa using hxy) hyx) hne
        rw [List.pairwise_cons]
        refine ⟨?_, ih h.2⟩
        intro z hz
        rcases (mem_insertSortedUnique x z ys).mp hz with rfl | hz
        · exact hyx
        · exact h.1 z hz

theorem removeDuplicates_sorted (v : List Zstring) :
    (removeDuplicates v).Pairwise (fun a b => zstringLess a b = true) := by
  induction v with
  | nil => simp [removeDuplicates]
  | cons x v ih =>
    have hstep : removeDuplicates (x :: v) = insertSortedUnique x (removeDuplicates v) := rfl
    rw [hstep]
    exact insertSortedUnique_sorted x _ ih

/-- Two ascending sequences with the same members are the same sequence. -/
theorem sorted_eq_of_mem_iff (u : List Zstring) :
    ∀ v : List Zstring,
      u.Pairwise (fun a b => zstringLess a b = true) →
      v.Pairwise (fun a b => zstringLess a b = true) →
      (∀ m, m ∈ u ↔ m ∈ v) → u = v := by
  induction u with
  | nil =>
    intro v _ _ hmem
    cases v with
    | nil => rfl
    | cons b v => exact absurd ((hmem b).mpr (List.mem_cons_self b v)) (by simp)
  | cons a u ih =>
    intro v hu hv hmem
    cases v with
    | nil => exact absurd ((hmem a).mp (List.mem_cons_self a u)) (by simp)
    | cons b v =>
      rw [List.pairwise_cons] at hu hv
      have hab : a = b := by
        by_contra hne
        have h1 : a ∈ v := by
          rcases List.mem_cons.mp ((hmem a).mp (List.mem_cons_self a u)) with h | h
          · exact absurd h hne
          · exact h
        have h2 : b ∈ u := by
          rcases List.mem_cons.mp ((hmem b).mpr (List.mem_cons_self b v)) with h | h
          · exact absurd h.symm hne
          · exact h
        have h3 := hv.1 a h1
        have h4 := hu.1 b h2
        rw [zstringLess_asymm a b h4] at h3
        exact absurd h3 (by simp)
      subst hab
      have hnotu : a ∉ u := fun h => by
        have := hu.1 a h
        rw [zstringLess_irrefl] at this
        exact absurd this (by simp)
      have hnotv : a ∉ v := fun h => by
        have := hv.1 a h
        rw [zstringLess_irrefl] at this
        exact absurd this (by simp)
      have htail : ∀ m, m ∈ u ↔ m ∈ v := by
        intro m
        constructor
        · intro hm
          rcases List.mem_cons.mp ((hmem m).mp (List.mem_cons_of_mem a hm)) with h | h
          · exact absurd (h ▸ hm) hnotu
          · exact h
        · intro hm
          rcases List.mem_cons.mp ((hmem m).mpr (List.mem_cons_of_mem a hm)) with h | h
          · exact absurd (h ▸ hm) hnotv
          · exact h
      rw [ih v hu.2 hv.2 htail]

/-- The deduplicated vector depends on the set of members only. -/
theorem removeDuplicates_congr (u v : List Zstring) (h : ∀ m, m ∈ u ↔ m ∈ v) :
    removeDuplicates u = removeDuplicates v := by
  apply sorted_eq_of_mem_iff _ _ (removeDuplicates_sorted u) (removeDuplicates_sorted v)
  intro m
  rw [mem_removeDuplicates, mem_removeDuplicates]
  exact h m

theorem removeDuplicates_nodup (v : List Zstring) : (removeDuplicates v).Nodup := by
  refine List.Pairwise.imp ?_ (removeDuplicates_sorted v)
  intro a b hab heq
  rw [heq, zstringLess_irrefl] at hab
  exact absurd hab (by simp)

theorem processTail_eq_append (c : Zstring) (masksFileFolder masksFolder : List Zstring) :
    processTail c masksFileFolder masksFolder =
      (masksFileFolder ++ (processTail c [] []).1, masksFolder ++ (processTail c [] []).2) := by
  simp only [processTail]
  split
  · split <;> simp
  · split <;> simp

theorem addFilterEntry_eq_append (e : Zstring) (masksFileFolder masksFolder : List Zstring) :
    addFilterEntry e masksFileFolder masksFolder =
      (masksFileFolder ++ (addFilterEntry e [] []).1,
        masksFolder ++ (addFilterEntry e [] []).2) := by
  simp only [addFilterEntry]
  split
  · exact processTail_eq_append _ _ _
  · split
    · rw [processTail_eq_append _ (processTail e masksFileFolder masksFolder).1,
        processTail_eq_append e masksFileFolder masksFolder,
        processTail_eq_append _ (processTail e [] []).1]
      simp
    · exact processTail_eq_append _ _ _

theorem mem_addFilterEntries (entries : List Zstring) :
    ∀ (masksFileFolder masksFolder : List Zstring) (m : Zstring),
      (m ∈ (addFilterEntries entries masksFileFolder masksFolder).1 ↔
        m ∈ masksFileFolder ∨ ∃ e ∈ entries, m ∈ (addFilterEntry e [] []).1) ∧
      (m ∈ (addFilterEntries entries masksFileFolder masksFolder).2 ↔
        m ∈ masksFolder ∨ ∃ e ∈ entries, m ∈ (addFilterEntry e [] []).2) := by
  induction entries with
  | nil =>
    intro ff fo m
    simp [addFilterEntries]
  | cons e entries ih =>
    intro ff fo m
    have hstep : addFilterEntries (e :: entries) ff fo =
        addFilterEntries entries (addFilterEntry e ff fo).1 (addFilterEntry e ff fo).2 := rfl
    rw [hstep, (ih _ _ m).1, (ih _ _ m).2, addFilterEntry_eq_append e ff fo]
    simp only [List.mem_append, List.mem_cons, exists_eq_or_imp, or_assoc, and_self]

/-- Two phrase lists with the same members compile to the same two mask sets. -/
theorem addFilterEntries_congr (entries1 entries2 : List Zstring)
    (h : ∀ p, p ∈ entries1 ↔ p ∈ entries2) :
    removeDuplicates (addFilterEntries entries1 [] []).1 =
        removeDuplicates (addFilterEntries entries2 [] []).1 ∧
      removeDuplicates (addFilterEntries entries1 [] []).2 =
        removeDuplicates (addFilterEntries entries2 [] []).2 := by
  constructor
  · apply removeDuplicates_congr
    intro m
    rw [(mem_addFilterEntries entries1 [] [] m).1, (mem_addFilterEntries entries2 [] [] m).1]
    simp only [h]
  · apply removeDuplicates_congr
    intro m
    rw [(mem_addFilterEntries entries1 [] [] m).2, (mem_addFilterEntries entries2 [] [] m).2]
    simp only [h]

theorem ctor_eq_of_same_phrases (inc1 inc2 exc1 exc2 : Zstring)
    (hi : ∀ p, p ∈ splitByDelimiter inc1 ↔ p ∈ splitByDelimiter inc2)
    (he : ∀ p, p ∈ splitByDelimiter exc1 ↔ p ∈ splitByDelimiter exc2) :
    NameFilter.ctor inc1 exc1 = NameFilter.ctor inc2 exc2 := by
  have h1 := addFilterEntries_congr _ _ hi
  have h2 := addFilterEntries_congr _ _ he
  simp only [NameFilter.ctor, h1.1, h1.2, h2.1, h2.2]

theorem cutAtDelimiters_append_semicolon (a b : Zstring) :
    cutAtDelimiters (a ++ ';' :: b) = cutAtDelimiters a ++ cutAtDelimiters b := by
  induction a with
  | nil => simp [cutAtDelimiters]
  | cons c a ih =>
    rw [List.cons_append, cutAtDelimiters, cutAtDelimiters, ih]
    split
    · rfl
    · obtain ⟨q, qs, hq⟩ := List.exists_cons_of_ne_nil (cutAtDelimiters_ne_nil a)
      rw [hq]
      rfl

theorem splitByDelimiter_append_semicolon (a b : Zstring) :
    splitByDelimiter (a ++ ';' :: b) = splitByDelimiter a ++ splitByDelimiter b := by
  simp only [splitByDelimiter_eq_cut, cutAtDelimiters_append_semicolon, List.map_append,
    List.filter_append]

/-- Adding exclusions to a constructed filter gives the filter constructed from
the exclude text, `;`, and the added text. -/
theorem addExclusion_ctor (inc exc extra : Zstring) :
    (NameFilter.ctor inc exc).addExclusion extra =
      NameFilter.ctor inc (exc ++ ';' :: extra) := by
  simp only [NameFilter.addExclusion, NameFilter.ctor, NameFilter.mk.injEq, true_and]
  constructor
  · apply removeDuplicates_congr
    intro m
    rw [(mem_addFilterEntries _ _ _ m).1, mem_removeDuplicates,
      (mem_addFilterEntries _ _ _ m).1, (mem_addFilterEntries _ _ _ m).1,
      splitByDelimiter_append_semicolon]
    simp only [List.not_mem_nil, false_or, List.mem_append, or_and_right, exists_or]
  · apply removeDuplicates_congr
    intro m
    rw [(mem_addFilterEntries _ _ _ m).2, mem_removeDuplicates,
      (mem_addFilterEntries _ _ _ m).2, (mem_addFilterEntries _ _ _ m).2,
      splitByDelimiter_append_semicolon]
    simp only [List.not_mem_nil, false_or, List.mem_append, or_and_right, exists_or]

/-- C22: the compiled filter depends only on the set of phrases. Two name filters
built from the same include and exclude texts compare equal; so do two name
filters whose include texts, and whose exclude texts, split into the same
phrases in another order or with repetitions (`a;b` against `b;a;a`); and no
mask set holds a mask twice. -/
theorem ctor_depends_on_phrase_set :
    (∀ inc exc : Zstring,
      (NameFilter.ctor inc exc).cmpLessSameType (NameFilter.ctor inc exc) = false ∧
      hardFilterEq (NameFilter.ctor inc exc) (NameFilter.ctor inc exc) = true) ∧
    (∀ inc1 inc2 exc1 exc2 : Zstring,
      (∀ p, p ∈ splitByDelimiter inc1 ↔ p ∈ splitByDelimiter inc2) →
      (∀ p, p ∈ splitByDelimiter exc1 ↔ p ∈ splitByDelimiter exc2) →
      NameFilter.ctor inc1 exc1 = NameFilter.ctor inc2 exc2 ∧
      (NameFilter.ctor inc1 exc1).cmpLessSameType (NameFilter.ctor inc2 exc2) = false ∧
      (NameFilter.ctor inc2 exc2).cmpLessSameType (NameFilter.ctor inc1 exc1) = false ∧
      hardFilterEq (NameFilter.ctor inc1 exc1) (NameFilter.ctor inc2 exc2) = true) ∧
    hardFilterEq (NameFilter.ctor ['a', ';', 'b'] ['x', ';', 'y'])
      (NameFilter.ctor ['b', ';', 'a', ';', 'a'] ['y', ';', 'y', ';', 'x']) = true ∧
    (∀ inc exc : Zstring,
      (NameFilter.ctor inc exc).includeMasksFileFolder.Nodup ∧
      (NameFilter.ctor inc exc).includeMasksFolder.Nodup ∧
      (NameFilter.ctor inc exc).excludeMasksFileFolder.Nodup ∧
      (NameFilter.ctor inc exc).excludeMasksFolder.Nodup) := by
  have hrefl : ∀ f : NameFilter, hardFilterEq f f = true := by
    intro f
    simp [hardFilterEq, hardFilterLess, cmpLessSameType_irrefl]
  refine ⟨fun inc exc => ⟨cmpLessSameType_irrefl _, hrefl _⟩, ?_, by decide, ?_⟩
  · intro inc1 inc2 exc1 exc2 hi he
    have heq := ctor_eq_of_same_phrases inc1 inc2 exc1 exc2 hi he
    rw [heq]
    exact ⟨rfl, cmpLessSameType_irrefl _, cmpLessSameType_irrefl _, hrefl _⟩
  · intro inc exc
    simp only [NameFilter.ctor]
    exact ⟨removeDuplicates_nodup _, removeDuplicates_nodup _, removeDuplicates_nodup _,
      removeDuplicates_nodup _⟩

/-- Witness for C22: the include texts `a;b` and `b;a;a`. -/
theorem ctor_depends_on_phrase_set_witness :
    (∀ p, p ∈ splitByDelimiter ['a', ';', 'b'] ↔ p ∈ splitByDelimiter ['b', ';', 'a', ';', 'a']) ∧
      NameFilter.ctor ['a', ';', 'b'] [] = NameFilter.ctor ['b', ';', 'a', ';', 'a'] [] :=
  have h : ∀ p, p ∈ splitByDelimiter ['a', ';', 'b'] ↔
      p ∈ splitByDelimiter ['b', ';', 'a', ';', 'a'] := by
    intro p
    rw [show splitByDelimiter ['a', ';', 'b'] = [['a'], ['b']] by decide,
      show splitByDelimiter ['b', ';', 'a', ';', 'a'] = [['b'], ['a'], ['a']] by decide]
    simp only [List.mem_cons, List.mem_singleton, List.not_mem_nil, or_false]
    tauto
  ⟨h, (ctor_depends_on_phrase_set.2.1 ['a', ';', 'b'] ['b', ';', 'a', ';', 'a'] [] []
      h (fun _ => Iff.rfl)).1⟩

/-- C25: `addExclusion` extends the exclude side only and amounts to compiling the
phrases up front. The filter `NameFilter(inc, exc)` after `addExclusion(extra)`
has the two include mask sets it had before, and it is the filter
`NameFilter(inc, exc + ";" + extra)`: neither is less than the other. -/
theorem addExclusion_as_compiled_up_front (inc exc extra : Zstring) :
    ((NameFilter.ctor inc exc).addExclusion extra).includeMasksFileFolder =
        (NameFilter.ctor inc exc).includeMasksFileFolder ∧
    ((NameFilter.ctor inc exc).addExclusion extra).includeMasksFolder =
        (NameFilter.ctor inc exc).includeMasksFolder ∧
    (NameFilter.ctor inc exc).addExclusion extra = NameFilter.ctor inc (exc ++ [';'] ++ extra) ∧
    ((NameFilter.ctor inc exc).addExclusion extra).cmpLessSameType
        (NameFilter.ctor inc (exc ++ [';'] ++ extra)) = false ∧
    (NameFilter.ctor inc (exc ++ [';'] ++ extra)).cmpLessSameType
        ((NameFilter.ctor inc exc).addExclusion extra) = false ∧
    hardFilterEq ((NameFilter.ctor inc exc).addExclusion extra)
        (NameFilter.ctor inc (exc ++ [';'] ++ extra)) = true := by
  have heq : (NameFilter.ctor inc exc).addExclusion extra =
      NameFilter.ctor inc (exc ++ [';'] ++ extra) := by
    rw [addExclusion_ctor]
    simp
  refine ⟨rfl, rfl, heq, ?_, ?_, ?_⟩
  · rw [heq]
    exact cmpLessSameType_irrefl _
  · rw [heq]
    exact cmpLessSameType_irrefl _
  · rw [heq]
    simp [hardFilterEq, hardFilterLess, cmpLessSameType_irrefl]

/-! ## The null filter -/

theorem dropWhile_append_of_all (p : Char → Bool) (l1 l2 : Zstring)
    (h : ∀ c ∈ l1, p c = true) : (l1 ++ l2).dropWhile p = l2.dropWhile p := by
  induction l1 with
  | nil => rfl
  | cons c l1 ih =>
    rw [List.cons_append, List.dropWhile_cons, h c (List.mem_cons_self c l1)]
    exact ih (fun d hd => h d (List.mem_cons_of_mem c hd))

theorem trimCpy_cons_whiteSpace (c : Char) (s : Zstring) (hc : isWhiteSpace c = true) :
    trimCpy (c :: s) = trimCpy s := by
  simp only [trimCpy, List.dropWhile_cons, hc, if_true]

/-- A whitespace character at the front of a filter text adds no phrase. -/
theorem splitByDelimiter_cons_whiteSpace (c : Char) (s : Zstring)
    (hc : isWhiteSpace c = true) : splitByDelimiter (c :: s) = splitByDelimiter s := by
  rw [splitByDelimiter_eq_cut, splitByDelimiter_eq_cut, cutAtDelimiters]
  split
  · simp [trimCpy]
  · obtain ⟨q, qs, hq⟩ := List.exists_cons_of_ne_nil (cutAtDelimiters_ne_nil s)
    rw [hq]
    simp only [List.map_cons, trimCpy_cons_whiteSpace c q hc]

theorem splitByDelimiter_append_whiteSpace_left (a s : Zstring)
    (ha : ∀ c ∈ a, isWhiteSpace c = true) :
    splitByDelimiter (a ++ s) = splitByDelimiter s := by
  induction a with
  | nil => rfl
  | cons c a ih =>
    rw [List.cons_append, splitByDelimiter_cons_whiteSpace c _ (ha c (List.mem_cons_self c a))]
    exact ih (fun d hd => ha d (List.mem_cons_of_mem c hd))

theorem trimCpy_star_whiteSpace (q : Zstring) (hq : ∀ c ∈ q, isWhiteSpace c = true) :
    trimCpy ('*' :: q) = ['*'] := by
  have h1 : List.dropWhile isWhiteSpace ('*' :: q) = '*' :: q := by
    rw [List.dropWhile_cons]
    rfl
  have h2 : List.dropWhile isWhiteSpace (q.reverse ++ ['*']) = ['*'] := by
    rw [dropWhile_append_of_all isWhiteSpace q.reverse ['*']
      (fun c hc => hq c (List.mem_reverse.mp hc))]
    rfl
  rw [trimCpy, h1, List.reverse_cons, h2]
  rfl

/-- The text `*` followed by whitespace is the single phrase `*`. -/
theorem splitByDelimiter_star_whiteSpace (b : Zstring)
    (hb : ∀ c ∈ b, isWhiteSpace c = true) : splitByDelimiter ('*' :: b) = [['*']] := by
  rw [splitByDelimiter_eq_cut, cutAtDelimiters]
  have hnd : ¬ ('*' = ';' ∨ '*' = Char.ofNat 10) := by decide
  simp only [hnd, if_false]
  have hpieces : ∀ piece ∈ cutAtDelimiters b, ∀ c ∈ piece, isWhiteSpace c = true :=
    fun piece hp c hc => hb c (mem_cutAtDelimiters b piece hp c hc).1
  obtain ⟨q, qs, hq⟩ := List.exists_cons_of_ne_nil (cutAtDelimiters_ne_nil b)
  rw [hq] at hpieces ⊢
  have hq1 : trimCpy ('*' :: q) = ['*'] :=
    trimCpy_star_whiteSpace q (hpieces q (List.mem_cons_self q qs))
  have hrest : (qs.map trimCpy).filter (fun entry => !entry.isEmpty) = [] := by
    rw [List.filter_eq_nil_iff]
    intro entry hentry
    rw [List.mem_map] at hentry
    obtain ⟨piece, hpiece, rfl⟩ := hentry
    simp [trimCpy_eq_nil_of_all_whiteSpace piece (hpieces piece (List.mem_cons_of_mem q hpiece))]
  simp only [List.map_cons, hq1]
  rw [List.filter_cons_of_pos (by rfl), hrest]

theorem splitByDelimiter_nil : splitByDelimiter [] = [] := by
  decide

/-- A text that trims to `*` is the single phrase `*`. -/
theorem splitByDelimiter_of_trimCpy_star (s : Zstring) (h : trimCpy s = ['*']) :
    splitByDelimiter s = [['*']] := by
  obtain ⟨a, b, hs, ha, hb⟩ := trimCpy_decompose s
  rw [h] at hs
  rw [hs, List.append_assoc, splitByDelimiter_append_whiteSpace_left a _ ha]
  exact splitByDelimiter_star_whiteSpace b hb

/-- A text that trims to the empty string holds no phrase. -/
theorem splitByDelimiter_of_trimCpy_nil (s : Zstring) (h : trimCpy s = []) :
    splitByDelimiter s = [] := by
  obtain ⟨a, b, hs, ha, hb⟩ := trimCpy_decompose s
  rw [h, List.append_nil] at hs
  have hall : ∀ c ∈ a ++ b, isWhiteSpace c = true := by
    intro c hc
    rcases List.mem_append.mp hc with h1 | h1
    · exact ha c h1
    · exact hb c h1
  have := splitByDelimiter_append_whiteSpace_left (a ++ b) [] hall
  rw [List.append_nil] at this
  rw [hs, this]
  exact splitByDelimiter_nil

/-- The member `isNull` holds exactly for the filter whose only mask is the
file-or-folder include mask `*`. -/
theorem isNull_iff (f : NameFilter) :
    f.isNull = true ↔
      f = { includeMasksFileFolder := [['*']], includeMasksFolder := [],
            excludeMasksFileFolder := [], excludeMasksFolder := [] } := by
  rw [NameFilter.isNull, ctor_nullFilter, hardFilterEq, hardFilterLess, hardFilterLess]
  constructor
  · intro h
    simp only [Bool.and_eq_true, Bool.not_eq_true'] at h
    rcases cmpLessSameType_trichotomy f
      { includeMasksFileFolder := [['*']], includeMasksFolder := [],
        excludeMasksFileFolder := [], excludeMasksFolder := [] } with h1 | h1 | h1
    · rw [h.1] at h1
      exact absurd h1.1 (by simp)
    · rw [h.2] at h1
      exact absurd h1.2.1 (by simp)
    · exact h1.2.2
  · intro h
    rw [h]
    simp [cmpLessSameType_irrefl]

/-- C23: the null check on the raw texts agrees with the null check on the
compiled content. If the static `NameFilter::isNull(include, exclude)` is true
(the trimmed include text is exactly `*` and the trimmed exclude text is empty),
then the constructed `NameFilter(include, exclude).isNull()` is true: its
include file-or-folder set is the single mask `*` and its other three sets are
empty. -/
theorem isNullPhrases_imp_isNull (inc exc : Zstring)
    (h : NameFilter.isNullPhrases inc exc = true) :
    (NameFilter.ctor inc exc).isNull = true ∧
    (NameFilter.ctor inc exc).includeMasksFileFolder = [['*']] ∧
    (NameFilter.ctor inc exc).includeMasksFolder = [] ∧
    (NameFilter.ctor inc exc).excludeMasksFileFolder = [] ∧
    (NameFilter.ctor inc exc).excludeMasksFolder = [] := by
  simp only [NameFilter.isNullPhrases, Bool.and_eq_true, beq_iff_eq, List.isEmpty_iff] at h
  have h1 := splitByDelimiter_of_trimCpy_star inc h.1
  have h2 := splitByDelimiter_of_trimCpy_nil exc h.2
  have hctor : NameFilter.ctor inc exc =
      { includeMasksFileFolder := [['*']], includeMasksFolder := [],
        excludeMasksFileFolder := [], excludeMasksFolder := [] } := by
    simp only [NameFilter.ctor, h1, h2]
    decide
  refine ⟨(isNull_iff _).mpr hctor, ?_, ?_, ?_, ?_⟩ <;> rw [hctor]

/-- Witness for C23: include text ` *` with a newline, exclude text of one blank. -/
theorem isNullPhrases_imp_isNull_witness :
    NameFilter.isNullPhrases [' ', '*', Char.ofNat 10] [' '] = true ∧
      (NameFilter.ctor [' ', '*', Char.ofNat 10] [' ']).isNull = true :=
  ⟨by decide, (isNullPhrases_imp_isNull [' ', '*', Char.ofNat 10] [' '] (by decide)).1⟩

/-! ## Totality, scenarios, runs of stars -/

theorem matchesMask_star_run_question (pe : PathEndMatcher) (path rest : Zstring) (n : Nat) :
    matchesMask pe path ('*' :: (List.replicate n '*' ++ '?' :: rest)) =
      starQuestionLoop (fun p => matchesMask pe p rest) path := by
  induction n with
  | zero => exact matchesMask_star_question pe path rest
  | succ n ih =>
    rw [List.replicate_succ, List.cons_append, matchesMask_star_star]
    exact ih

theorem matchesMask_star_run_letter (pe : PathEndMatcher) (m : Char) (path rest : Zstring)
    (n : Nat) (h1 : m ≠ '*') (h2 : m ≠ '?') :
    matchesMask pe path ('*' :: (List.replicate n '*' ++ m :: rest)) =
      starLetterLoop m (fun p => matchesMask pe p rest) path := by
  induction n with
  | zero => exact matchesMask_star_letter pe m path rest h1 h2
  | succ n ih =>
    rw [List.replicate_succ, List.cons_append, matchesMask_star_star]
    exact ih

theorem cStringFindFuel_eq (str : Zstring) (ch : Char) :
    ∀ fuel : Nat, str.length + 1 ≤ fuel → cStringFindFuel fuel str ch = some (cStringFind str ch) := by
  induction str with
  | nil =>
    intro fuel h
    cases fuel with
    | zero => omega
    | succ fuel => rfl
  | cons s rest ih =>
    intro fuel h
    cases fuel with
    | zero => omega
    | succ fuel =>
      simp only [List.length_cons] at h
      rw [cStringFindFuel, cStringFind]
      by_cases hs : s = ch
      · simp [hs]
      · simp only [hs, if_false]
        exact ih fuel (by omega)

/-- What `cStringFind` returns begins with the character looked for and is not
longer than the string searched. -/
theorem cStringFind_some (str : Zstring) (ch : Char) (found : Zstring)
    (h : cStringFind str ch = some found) :
    found.tail.length + 1 ≤ str.length := by
  induction str with
  | nil => simp [cStringFind] at h
  | cons s rest ih =>
    rw [cStringFind] at h
    by_cases hs : s = ch
    · simp only [hs, if_true, Option.some.injEq] at h
      rw [← h]
      simp
    · simp only [hs, if_false] at h
      have := ih h
      simp only [List.length_cons]
      omega

theorem matchesMaskBeginFuel_eq (mask : Zstring) :
    ∀ (str : Zstring) (fuel : Nat), mask.length + 1 ≤ fuel →
      matchesMaskBeginFuel fuel str mask = some (matchesMaskBegin str mask) := by
  induction mask with
  | nil =>
    intro str fuel h
    cases fuel with
    | zero => omega
    | succ fuel =>
      cases str <;> simp [matchesMaskBeginFuel, matchesMaskBegin]
  | cons m mask1 ih =>
    intro str fuel h
    cases fuel with
    | zero => omega
    | succ fuel =>
      simp only [List.length_cons] at h
      have hrec := fun str1 => ih str1 fuel (by omega)
      conv => lhs; unfold matchesMaskBeginFuel
      conv => rhs; unfold matchesMaskBegin
      by_cases hq : m = '?'
      · cases str <;> simp [hq, hrec]
      · by_cases hs : m = '*'
        · simp [hs]
        · cases str with
          | nil => simp [hq, hs]
          | cons c str1 =>
            by_cases hc : c = m
            · simp [hq, hs, hc, hrec]
            · simp [hq, hs, hc]

/-- The run of `matchesMask` from each of its loops returns, within the budgets,
what the matcher returns. -/
theorem matchesMaskRun_eq (pe : PathEndMatcher) :
    ∀ steps depth : Nat,
      (∀ path mask : Zstring, path.length + mask.length + 1 ≤ steps → mask.length ≤ depth →
        matchesMaskRun pe steps depth (.scan path mask) = some (matchesMask pe path mask)) ∧
      (∀ path mask : Zstring, path.length + mask.length + 1 ≤ steps → mask.length ≤ depth →
        matchesMaskRun pe steps depth (.skipStars path mask) =
          some (matchesMask pe path ('*' :: mask))) ∧
      (∀ path mask : Zstring, path.length + mask.length + 1 ≤ steps → mask.length + 1 ≤ depth →
        matchesMaskRun pe steps depth (.starQuestion path mask) =
          some (starQuestionLoop (fun p => matchesMask pe p mask) path)) ∧
      (∀ (m : Char) (path mask : Zstring),
        path.length + mask.length + 1 ≤ steps → mask.length + 1 ≤ depth →
        matchesMaskRun pe steps depth (.starLetter m path mask) =
          some (starLetterLoop m (fun p => matchesMask pe p mask) path)) := by
  intro steps
  induction steps with
  | zero =>
    intro depth
    refine ⟨?_, ?_, ?_, ?_⟩ <;> intros <;> omega
  | succ steps ih =>
    intro depth
    refine ⟨?_, ?_, ?_, ?_⟩
    · -- the outer loop
      intro path mask hs hd
      conv => lhs; unfold matchesMaskRun
      cases mask with
      | nil => simp [matchesMask_nil]
      | cons m mask1 =>
        simp only [List.length_cons] at hs hd
        by_cases hq : m = '?'
        · subst hq
          rw [matchesMask_question]
          cases path with
          | nil => simp
          | cons c path1 =>
            simp only [List.length_cons] at hs
            simp only [if_true]
            exact (ih depth).1 path1 mask1 (by omega) (by omega)
        · by_cases hst : m = '*'
          · subst hst
            simp only [hq, if_false, if_true]
            exact (ih depth).2.1 path mask1 (by omega) (by omega)
          · rw [matchesMask_literal pe m path mask1 hst hq]
            simp only [hq, hst, if_false]
            cases path with
            | nil => simp
            | cons c path1 =>
              simp only [List.length_cons] at hs
              by_cases hc : c = m
              · simp only [hc, ne_eq, not_true_eq_false, if_false, if_true]
                exact (ih depth).1 path1 mask1 (by omega) (by omega)
              · simp [hc]
    · -- the run of stars
      intro path mask hs hd
      conv => lhs; unfold matchesMaskRun
      cases mask with
      | nil => simp [matchesMask_star_end]
      | cons m mask2 =>
        simp only [List.length_cons] at hs hd
        by_cases hst : m = '*'
        · subst hst
          simp only [if_true]
          rw [matchesMask_star_star]
          exact (ih depth).2.1 path mask2 (by omega) (by omega)
        · by_cases hq : m = '?'
          · subst hq
            simp only [hst, if_false, if_true]
            rw [matchesMask_star_question]
            exact (ih depth).2.2.1 path mask2 (by omega) (by omega)
          · simp only [hst, hq, if_false]
            rw [matchesMask_star_letter pe m path mask2 hst hq]
            exact (ih depth).2.2.2 m path mask2 (by omega) (by omega)
    · -- the loop behind `*?`
      intro path mask hs hd
      conv => lhs; unfold matchesMaskRun
      cases path with
      | nil => simp [starQuestionLoop]
      | cons c path1 =>
        simp only [List.length_cons] at hs
        cases depth with
        | zero => omega
        | succ depth1 =>
          simp only []
          rw [(ih depth1).1 path1 mask (by omega) (by omega),
            (ih (depth1 + 1)).2.2.1 path1 mask (by omega) (by omega), starQuestionLoop]
          cases matchesMask pe path1 mask <;> simp
    · -- the loop behind `*[letter]`
      intro m path mask hs hd
      rw [matchesMaskRun, cStringFindFuel_eq path m (steps + 1) (by omega),
        starLetterLoop_eq_find]
      cases hfind : cStringFind path m with
      | none => simp
      | some found =>
        have hlen := cStringFind_some path m found hfind
        cases depth with
        | zero => omega
        | succ depth1 =>
          simp only []
          rw [(ih depth1).1 found.tail mask (by omega) (by omega),
            (ih (depth1 + 1)).2.2.2 m found.tail mask (by omega) (by omega)]
          cases matchesMask pe found.tail mask <;> simp

/-- C24: the matchers are total. For every path and every mask, the empty ones
included, the run of `matchesMask` under each policy returns a boolean, the
one the matcher computes, as soon as the budget of loop passes is the length
of the path plus the length of the mask plus one and the budget of nested
recursive calls is the length of the mask: every recursive call is made on a
strictly shorter mask suffix. The loop of `matchesMaskBegin` returns within the
length of the mask plus one passes, the loop of `cStringFind` within the length
of the string plus one passes. A budget that is too small is really used up:
the mask `*?` on the path `a` needs four passes and one recursive call. -/
theorem matchers_total (pe : PathEndMatcher) (path mask : Zstring) :
    (∀ steps depth : Nat, path.length + mask.length + 1 ≤ steps → mask.length ≤ depth →
      matchesMaskFuel steps depth pe path mask = some (matchesMask pe path mask)) ∧
    (∀ fuel : Nat, mask.length + 1 ≤ fuel →
      matchesMaskBeginFuel fuel path mask = some (matchesMaskBegin path mask)) ∧
    (∀ (fuel : Nat) (ch : Char), path.length + 1 ≤ fuel →
      cStringFindFuel fuel path ch = some (cStringFind path ch)) ∧
    (matchesMaskFuel 1 0 .FullMatch [] [] = some true ∧
      matchesMaskFuel 1 0 .ParentFolderMatch [] [] = some false ∧
      matchesMaskFuel 1 0 .AnyMatch [] [] = some true ∧
      matchesMaskBeginFuel 1 [] [] = some true) ∧
    ((∀ depth : Nat, matchesMaskFuel 0 depth pe path mask = none) ∧
      matchesMaskFuel 3 1 .FullMatch ['a'] ['*', '?'] = none ∧
      matchesMaskFuel 4 0 .FullMatch ['a'] ['*', '?'] = none ∧
      matchesMaskFuel 4 1 .FullMatch ['a'] ['*', '?'] = some true) := by
  refine ⟨?_, ?_, ?_, by decide, fun _ => rfl, by decide, by decide, by decide⟩
  · intro steps depth hs hd
    exact (matchesMaskRun_eq pe steps depth).1 path mask hs hd
  · intro fuel hf
    exact matchesMaskBeginFuel_eq mask path fuel hf
  · intro fuel ch hf
    exact cStringFindFuel_eq path ch fuel hf

/-- Witness for C24: the mask `*?b*c` on the path `xabc`, with ten loop passes and
five nested calls. -/
theorem matchers_total_witness :
    ['x', 'a', 'b', 'c'].length + ['*', '?', 'b', '*', 'c'].length + 1 ≤ 10 ∧
      ['*', '?', 'b', '*', 'c'].length ≤ 5 ∧
      matchesMaskFuel 10 5 .AnyMatch ['x', 'a', 'b', 'c'] ['*', '?', 'b', '*', 'c'] =
        some (matchesMask .AnyMatch ['x', 'a', 'b', 'c'] ['*', '?', 'b', '*', 'c']) :=
  ⟨by decide, by decide,
    (matchers_total .AnyMatch ['x', 'a', 'b', 'c'] ['*', '?', 'b', '*', 'c']).1 10 5
      (by decide) (by decide)⟩

/-- A mask without wildcards fully matches itself only. -/
theorem globMatch_literal_mask_iff (u : Zstring) (hu : ∀ c ∈ u, c ≠ '*' ∧ c ≠ '?') :
    ∀ b : Zstring, GlobMatch u b ↔ b = u := by
  induction u with
  | nil =>
    intro b
    exact globMatch_nil_iff b
  | cons c u ih =>
    intro b
    have hc := hu c (List.mem_cons_self c u)
    rw [globMatch_literal_iff c u b hc.1 hc.2]
    constructor
    · rintro ⟨b1, rfl, h⟩
      rw [(ih (fun d hd => hu d (List.mem_cons_of_mem c hd)) b1).mp h]
    · rintro rfl
      exact ⟨u, rfl, (ih (fun d hd => hu d (List.mem_cons_of_mem c hd)) u).mpr rfl⟩

/-- C26: scenario A. For `NameFilter("*.txt", "")`, `passFileFilter("notes.txt")` is
true and `passFileFilter("notes.doc")` is false; a file name without separator
passes if and only if it ends with `.txt`. -/
theorem scenario_txt_files (name : Zstring) (hname : FILE_NAME_SEPARATOR ∉ name) :
    (NameFilter.ctor ['*', '.', 't', 'x', 't'] []).passFileFilter
        ['n', 'o', 't', 'e', 's', '.', 't', 'x', 't'] = true ∧
    (NameFilter.ctor ['*', '.', 't', 'x', 't'] []).passFileFilter
        ['n', 'o', 't', 'e', 's', '.', 'd', 'o', 'c'] = false ∧
    ((NameFilter.ctor ['*', '.', 't', 'x', 't'] []).passFileFilter name = true ↔
      ∃ stem, name = stem ++ ['.', 't', 'x', 't']) := by
  refine ⟨by decide, by decide, ?_⟩
  have hc : NameFilter.ctor ['*', '.', 't', 'x', 't'] [] =
      { includeMasksFileFolder := [['*', '.', 't', 'x', 't']], includeMasksFolder := [],
        excludeMasksFileFolder := [], excludeMasksFolder := [] } := by decide
  have hpass : (NameFilter.ctor ['*', '.', 't', 'x', 't'] []).passFileFilter name =
      matchesMask .AnyMatch name ['*', '.', 't', 'x', 't'] := by
    rw [hc]
    simp [NameFilter.passFileFilter, matchesMaskVec]
  rw [hpass, matchesMask_anyMatch_iff]
  have hlit : ∀ b : Zstring, GlobMatch ['.', 't', 'x', 't'] b ↔ b = ['.', 't', 'x', 't'] :=
    globMatch_literal_mask_iff _ (by decide)
  constructor
  · rintro ⟨q, r, rfl, hg, hr⟩
    rcases hr with rfl | ⟨b, rfl⟩
    · obtain ⟨a, b, rfl, hb⟩ := (globMatch_star_iff _ _).mp hg
      rw [(hlit b).mp hb]
      exact ⟨a, by simp⟩
    · exact absurd (by simp) hname
  · rintro ⟨stem, rfl⟩
    exact ⟨stem ++ ['.', 't', 'x', 't'], [], by simp,
      (globMatch_star_iff _ _).mpr ⟨stem, _, rfl, (hlit _).mpr rfl⟩, Or.inl rfl⟩

/-- Witness for C26: the file name `a.txt`. -/
theorem scenario_txt_files_witness :
    FILE_NAME_SEPARATOR ∉ ['a', '.', 't', 'x', 't'] ∧
      ((NameFilter.ctor ['*', '.', 't', 'x', 't'] []).passFileFilter ['a', '.', 't', 'x', 't']
          = true ↔
        ∃ stem, ['a', '.', 't', 'x', 't'] = stem ++ ['.', 't', 'x', 't']) :=
  ⟨by decide, (scenario_txt_files ['a', '.', 't', 'x', 't'] (by decide)).2.2⟩

/-- C27: scenario B. For `NameFilter("*", "temp<sep>*")` the exclude phrase compiles
to the single folder-only mask `temp`; `passDirFilter("temp", &hint)` returns
false with the hint false; `passFileFilter("temp<sep>x.txt")` is false and
`passFileFilter("temp.txt")` is true. -/
theorem scenario_folder_exclusion :
    (NameFilter.ctor ['*'] ['t', 'e', 'm', 'p', FILE_NAME_SEPARATOR, '*']).excludeMasksFolder =
      [['t', 'e', 'm', 'p']] ∧
    (NameFilter.ctor ['*'] ['t', 'e', 'm', 'p', FILE_NAME_SEPARATOR, '*']).excludeMasksFileFolder =
      [] ∧
    (NameFilter.ctor ['*'] ['t', 'e', 'm', 'p', FILE_NAME_SEPARATOR, '*']).passDirFilter
      ['t', 'e', 'm', 'p'] (some true) = (false, some false) ∧
    (NameFilter.ctor ['*'] ['t', 'e', 'm', 'p', FILE_NAME_SEPARATOR, '*']).passFileFilter
      ['t', 'e', 'm', 'p', FILE_NAME_SEPARATOR, 'x', '.', 't', 'x', 't'] = false ∧
    (NameFilter.ctor ['*'] ['t', 'e', 'm', 'p', FILE_NAME_SEPARATOR, '*']).passFileFilter
      ['t', 'e', 'm', 'p', '.', 't', 'x', 't'] = true := by
  decide

/-- C28: scenario C. For `NameFilter("*<sep>report.pdf", "")`,
`passDirFilter("2024", &hint)` returns false with the hint true, and
`passFileFilter("2024<sep>report.pdf")` is true. -/
theorem scenario_report_anywhere :
    (NameFilter.ctor ['*', FILE_NAME_SEPARATOR, 'r', 'e', 'p', 'o', 'r', 't', '.', 'p', 'd', 'f']
        []).passDirFilter ['2', '0', '2', '4'] (some true) = (false, some true) ∧
    (NameFilter.ctor ['*', FILE_NAME_SEPARATOR, 'r', 'e', 'p', 'o', 'r', 't', '.', 'p', 'd', 'f']
        []).passFileFilter
      ['2', '0', '2', '4', FILE_NAME_SEPARATOR, 'r', 'e', 'p', 'o', 'r', 't', '.', 'p', 'd', 'f']
      = true := by
  decide

theorem globMatch_cons_congr (m1 m2 : Zstring) (h : ∀ q, GlobMatch m1 q ↔ GlobMatch m2 q)
    (c : Char) : ∀ q, GlobMatch (c :: m1) q ↔ GlobMatch (c :: m2) q := by
  intro q
  by_cases hs : c = '*'
  · subst hs
    simp only [globMatch_star_iff, h]
  · by_cases hq : c = '?'
    · subst hq
      simp only [globMatch_question_iff, h]
    · simp only [globMatch_literal_iff c _ _ hs hq, h]

theorem globMatch_append_congr (u m1 m2 : Zstring) (h : ∀ q, GlobMatch m1 q ↔ GlobMatch m2 q) :
    ∀ q, GlobMatch (u ++ m1) q ↔ GlobMatch (u ++ m2) q := by
  induction u with
  | nil => exact h
  | cons c u ih => exact globMatch_cons_congr _ _ ih c

theorem globMatch_star_star (v : Zstring) :
    ∀ q, GlobMatch ('*' :: '*' :: v) q ↔ GlobMatch ('*' :: v) q := by
  intro q
  constructor
  · intro h
    obtain ⟨a, b, rfl, hb⟩ := (globMatch_star_iff _ _).mp h
    obtain ⟨a1, b1, rfl, hb1⟩ := (globMatch_star_iff _ _).mp hb
    exact (globMatch_star_iff _ _).mpr ⟨a ++ a1, b1, by simp, hb1⟩
  · intro h
    exact (globMatch_star_iff _ _).mpr ⟨[], q, rfl, h⟩

/-- Two masks with the same full matches give the same answer under every
policy. -/
theorem matchesMask_congr (pe : PathEndMatcher) (path m1 m2 : Zstring)
    (h : ∀ q, GlobMatch m1 q ↔ GlobMatch m2 q) :
    matchesMask pe path m1 = matchesMask pe path m2 := by
  rw [Bool.eq_iff_iff, matchesMask_iff, matchesMask_iff]
  simp only [h]

theorem globMatch_star_replicate (n : Nat) (v : Zstring) :
    ∀ q, GlobMatch (List.replicate (n + 1) '*' ++ v) q ↔ GlobMatch ('*' :: v) q := by
  induction n with
  | zero =>
    intro q
    rfl
  | succ n ih =>
    intro q
    rw [List.replicate_succ, List.cons_append]
    rw [globMatch_cons_congr _ _ ih '*' q]
    exact globMatch_star_star v q

/-- C29: consecutive stars collapse. For every path, every policy and all mask
parts `u`, `v`, `matchesMask(path, u + "**" + v)` equals
`matchesMask(path, u + "*" + v)`, and a run of any number of stars behaves as a
single star. -/
theorem consecutive_stars_collapse (pe : PathEndMatcher) (path u v : Zstring) :
    matchesMask pe path (u ++ ['*', '*'] ++ v) = matchesMask pe path (u ++ ['*'] ++ v) ∧
    ∀ n : Nat, matchesMask pe path (u ++ List.replicate (n + 1) '*' ++ v) =
      matchesMask pe path (u ++ ['*'] ++ v) := by
  constructor
  · apply matchesMask_congr
    intro q
    rw [List.append_assoc, List.append_assoc]
    exact globMatch_append_congr u _ _ (globMatch_star_star v) q
  · intro n
    apply matchesMask_congr
    intro q
    rw [List.append_assoc, List.append_assoc]
    exact globMatch_append_congr u _ _ (globMatch_star_replicate n v) q

/-! ## Adding exclusions -/

/-- The exclude masks of a filter are still there after `addExclusion`. -/
theorem mem_addExclusion_of_mem (f : NameFilter) (extra m : Zstring) :
    (m ∈ f.excludeMasksFileFolder → m ∈ (f.addExclusion extra).excludeMasksFileFolder) ∧
      (m ∈ f.excludeMasksFolder → m ∈ (f.addExclusion extra).excludeMasksFolder) := by
  simp only [NameFilter.addExclusion, mem_removeDuplicates]
  exact ⟨fun h => ((mem_addFilterEntries _ _ _ m).1).mpr (Or.inl h),
    fun h => ((mem_addFilterEntries _ _ _ m).2).mpr (Or.inl h)⟩

theorem matchesMaskVec_addExclusion (pe : PathEndMatcher) (f : NameFilter) (extra p : Zstring) :
    (matchesMaskVec pe p f.excludeMasksFileFolder = true →
      matchesMaskVec pe p (f.addExclusion extra).excludeMasksFileFolder = true) ∧
    (matchesMaskVec pe p f.excludeMasksFolder = true →
      matchesMaskVec pe p (f.addExclusion extra).excludeMasksFolder = true) := by
  simp only [matchesMaskVec_iff]
  constructor
  · rintro ⟨m, hm, h⟩
    exact ⟨m, (mem_addExclusion_of_mem f extra m).1 hm, h⟩
  · rintro ⟨m, hm, h⟩
    exact ⟨m, (mem_addExclusion_of_mem f extra m).2 hm, h⟩

/-- C30: adding exclusions is monotone. If a path passes `passFileFilter`
(respectively `passDirFilter`, with or without a hint) after
`f.addExclusion(extra)`, it passed before the call. -/
theorem addExclusion_monotone (f : NameFilter) (extra p : Zstring) :
    ((f.addExclusion extra).passFileFilter p = true → f.passFileFilter p = true) ∧
    (∀ hint : Option Bool, ((f.addExclusion extra).passDirFilter p hint).1 = true →
      (f.passDirFilter p hint).1 = true) := by
  have hinc1 : (f.addExclusion extra).includeMasksFileFolder = f.includeMasksFileFolder := rfl
  have hinc2 : (f.addExclusion extra).includeMasksFolder = f.includeMasksFolder := rfl
  have hA := matchesMaskVec_addExclusion .AnyMatch f extra p
  have hP := matchesMaskVec_addExclusion .ParentFolderMatch f extra p
  constructor
  · intro h
    cases h1 : matchesMaskVec .AnyMatch p f.excludeMasksFileFolder with
    | true => simp [NameFilter.passFileFilter, hA.1 h1] at h
    | false =>
      cases h2 : matchesMaskVec .ParentFolderMatch p f.excludeMasksFolder with
      | true => simp [NameFilter.passFileFilter, hP.2 h2] at h
      | false =>
        simp only [NameFilter.passFileFilter, hinc1, hinc2] at h ⊢
        simp only [h1, h2, Bool.or_self, Bool.false_eq_true, if_false]
        split at h
        · exact absurd h (by simp)
        · exact h
  · intro hint h
    cases h1 : matchesMaskVec .AnyMatch p f.excludeMasksFileFolder with
    | true => simp [NameFilter.passDirFilter, hA.1 h1] at h
    | false =>
      cases h2 : matchesMaskVec .AnyMatch p f.excludeMasksFolder with
      | true => simp [NameFilter.passDirFilter, hA.2 h2] at h
      | false =>
        simp only [NameFilter.passDirFilter, hinc1, hinc2] at h ⊢
        simp only [h1, h2, Bool.or_self, Bool.false_eq_true, if_false]
        split at h
        · exact absurd h (by simp)
        · split at h
          · exact absurd h (by simp)
          · rename_i hni
            rw [if_neg hni]

/-- Witness for C30: the null filter, the added exclusion `a`, the path `b`. -/
theorem addExclusion_monotone_witness :
    ((NameFilter.ctor ['*'] []).addExclusion ['a']).passFileFilter ['b'] = true ∧
      (NameFilter.ctor ['*'] []).passFileFilter ['b'] = true :=
  ⟨by decide, (addExclusion_monotone (NameFilter.ctor ['*'] []) ['a'] ['b']).1 (by decide)⟩

/-! ## Anchoring, inheritance of inclusion, language dialects -/

theorem addFilterEntry_cons_separator (rest : Zstring)
    (masksFileFolder masksFolder : List Zstring) :
    addFilterEntry (FILE_NAME_SEPARATOR :: rest) masksFileFolder masksFolder =
      processTail rest masksFileFolder masksFolder := by
  have hs : startsWith (FILE_NAME_SEPARATOR :: rest) [FILE_NAME_SEPARATOR] = true :=
    (startsWith_iff _ _).mpr ⟨rest, rfl⟩
  have ha : afterFirst (FILE_NAME_SEPARATOR :: rest) [FILE_NAME_SEPARATOR] = rest :=
    afterFirst_of_startsWith [FILE_NAME_SEPARATOR] rest
  simp only [addFilterEntry, hs, if_true, ha]

theorem addFilterEntry_plain (phrase : Zstring) (masksFileFolder masksFolder : List Zstring)
    (h1 : ¬ ∃ rest, phrase = FILE_NAME_SEPARATOR :: rest)
    (h2 : ¬ ∃ rest, phrase = '*' :: FILE_NAME_SEPARATOR :: rest) :
    addFilterEntry phrase masksFileFolder masksFolder =
      processTail phrase masksFileFolder masksFolder := by
  have hs : startsWith phrase [FILE_NAME_SEPARATOR] = false := by
    rw [← Bool.not_eq_true, startsWith_iff]
    simpa using h1
  have hs2 : startsWith phrase asteriskSep = false := by
    rw [← Bool.not_eq_true, startsWith_iff]
    rintro ⟨t, ht⟩
    exact h2 ⟨t, by rw [ht]; rfl⟩
  simp only [addFilterEntry, hs, Bool.false_eq_true, if_false, hs2]

/-- A mask without wildcards any-matches the path equal to it and the paths that
continue it with a separator, and no other path. -/
theorem anyMatch_literal_mask_iff (u p : Zstring) (hu : ∀ c ∈ u, c ≠ '*' ∧ c ≠ '?') :
    matchesMask .AnyMatch p u = true ↔ p = u ∨ ∃ r, p = u ++ FILE_NAME_SEPARATOR :: r := by
  rw [matchesMask_anyMatch_iff]
  constructor
  · rintro ⟨q, r, rfl, hg, hr⟩
    rw [(globMatch_literal_mask_iff u hu q).mp hg]
    rcases hr with rfl | ⟨b, rfl⟩
    · exact Or.inl (by simp)
    · exact Or.inr ⟨b, rfl⟩
  · rintro (rfl | ⟨r, rfl⟩)
    · exact ⟨p, [], by simp, (globMatch_literal_mask_iff p hu p).mpr rfl, Or.inl rfl⟩
    · exact ⟨u, _, rfl, (globMatch_literal_mask_iff u hu u).mpr rfl, Or.inr ⟨r, rfl⟩⟩

/-- C31: a leading separator is redundant for a phrase without a `*<sep>` prefix.
For every phrase that starts neither with the separator nor with `*` followed
by the separator, `addFilterEntry` of the separator followed by the phrase
appends the same masks to the same lists as `addFilterEntry` of the phrase. The
plain phrase `abc` is thus anchored to the filter root: it lets pass `abc` and
the paths that begin with `abc<sep>`, and nothing else, so not `x<sep>abc`. -/
theorem leading_separator_redundant (phrase : Zstring)
    (masksFileFolder masksFolder : List Zstring)
    (h1 : ¬ ∃ rest, phrase = FILE_NAME_SEPARATOR :: rest)
    (h2 : ¬ ∃ rest, phrase = '*' :: FILE_NAME_SEPARATOR :: rest) :
    addFilterEntry (FILE_NAME_SEPARATOR :: phrase) masksFileFolder masksFolder =
      addFilterEntry phrase masksFileFolder masksFolder ∧
    (NameFilter.ctor ['a', 'b', 'c'] []).includeMasksFileFolder = [['a', 'b', 'c']] ∧
    (NameFilter.ctor (FILE_NAME_SEPARATOR :: ['a', 'b', 'c']) []) =
      NameFilter.ctor ['a', 'b', 'c'] [] ∧
    (∀ p : Zstring, (NameFilter.ctor ['a', 'b', 'c'] []).passFileFilter p = true ↔
      p = ['a', 'b', 'c'] ∨ ∃ r, p = ['a', 'b', 'c'] ++ FILE_NAME_SEPARATOR :: r) ∧
    (NameFilter.ctor ['a', 'b', 'c'] []).passFileFilter
      (['x'] ++ [FILE_NAME_SEPARATOR] ++ ['a', 'b', 'c']) = false := by
  refine ⟨?_, by decide, by decide, ?_, by decide⟩
  · rw [addFilterEntry_cons_separator, addFilterEntry_plain phrase _ _ h1 h2]
  · intro p
    have hc : NameFilter.ctor ['a', 'b', 'c'] [] =
        { includeMasksFileFolder := [['a', 'b', 'c']], includeMasksFolder := [],
          excludeMasksFileFolder := [], excludeMasksFolder := [] } := by decide
    have hpass : (NameFilter.ctor ['a', 'b', 'c'] []).passFileFilter p =
        matchesMask .AnyMatch p ['a', 'b', 'c'] := by
      rw [hc]
      simp [NameFilter.passFileFilter, matchesMaskVec]
    rw [hpass]
    exact anyMatch_literal_mask_iff ['a', 'b', 'c'] p (by decide)

/-- Witness for C31: the phrase `abc/`. -/
theorem leading_separator_redundant_witness :
    (¬ ∃ rest, ['a', 'b', 'c', '/'] = FILE_NAME_SEPARATOR :: rest) ∧
      (¬ ∃ rest, ['a', 'b', 'c', '/'] = '*' :: FILE_NAME_SEPARATOR :: rest) ∧
      addFilterEntry (FILE_NAME_SEPARATOR :: ['a', 'b', 'c', '/']) [] [] =
        addFilterEntry ['a', 'b', 'c', '/'] [] [] :=
  ⟨by simp [FILE_NAME_SEPARATOR], by simp,
    (leading_separator_redundant ['a', 'b', 'c', '/'] [] []
      (by simp [FILE_NAME_SEPARATOR]) (by simp)).1⟩

/-- C32: inclusion is inherited by descendants. For every name filter and directory
path `p` with `passDirFilter(p)` true, and every string `x`, the path
`c = p + separator + x` matches an include mask in the sense of both
predicates; so `passFileFilter(c)` is true exactly when `c` is hit by no exclude
mask (any-match on the exclude file-or-folder masks, parent-folder match on the
exclude folder-only masks), and `passDirFilter(c)` is true exactly when `c`
any-matches no exclude mask. -/
theorem inclusion_inherited (f : NameFilter) (p : Zstring) (hint0 : Option Bool)
    (h : (f.passDirFilter p hint0).1 = true) (x : Zstring) :
    ((∃ mask ∈ f.includeMasksFileFolder,
        matchesMask .AnyMatch (p ++ [FILE_NAME_SEPARATOR] ++ x) mask = true) ∨
      (∃ mask ∈ f.includeMasksFolder,
        matchesMask .ParentFolderMatch (p ++ [FILE_NAME_SEPARATOR] ++ x) mask = true)) ∧
    (∃ mask ∈ f.includeMasksFileFolder ++ f.includeMasksFolder,
        matchesMask .AnyMatch (p ++ [FILE_NAME_SEPARATOR] ++ x) mask = true) ∧
    (f.passFileFilter (p ++ [FILE_NAME_SEPARATOR] ++ x) = true ↔
      (¬ ∃ mask ∈ f.excludeMasksFileFolder,
        matchesMask .AnyMatch (p ++ [FILE_NAME_SEPARATOR] ++ x) mask = true) ∧
      (¬ ∃ mask ∈ f.excludeMasksFolder,
        matchesMask .ParentFolderMatch (p ++ [FILE_NAME_SEPARATOR] ++ x) mask = true)) ∧
    (∀ hint : Option Bool, (f.passDirFilter (p ++ [FILE_NAME_SEPARATOR] ++ x) hint).1 = true ↔
      ¬ ∃ mask ∈ f.excludeMasksFileFolder ++ f.excludeMasksFolder,
        matchesMask .AnyMatch (p ++ [FILE_NAME_SEPARATOR] ++ x) mask = true) := by
  have hpx : p ++ [FILE_NAME_SEPARATOR] ++ x = p ++ FILE_NAME_SEPARATOR :: x := by simp
  rw [hpx]
  -- the directory any-matches an include mask of one of the two classes
  have hinc : matchesMaskVec .AnyMatch p f.includeMasksFileFolder = true ∨
      matchesMaskVec .AnyMatch p f.includeMasksFolder = true := by
    simp only [NameFilter.passDirFilter] at h
    split at h
    · exact absurd h (by simp)
    · split at h
      · exact absurd h (by simp)
      · rename_i hni
        simp only [Bool.and_eq_true, Bool.not_eq_true', not_and, Bool.not_eq_false] at hni
        cases h1 : matchesMaskVec .AnyMatch p f.includeMasksFileFolder with
        | true => exact Or.inl rfl
        | false => exact Or.inr (hni h1)
  have hfile : matchesMaskVec .AnyMatch (p ++ FILE_NAME_SEPARATOR :: x) f.includeMasksFileFolder
        = true ∨
      matchesMaskVec .ParentFolderMatch (p ++ FILE_NAME_SEPARATOR :: x) f.includeMasksFolder
        = true := by
    rcases hinc with h1 | h1
    · exact Or.inl (matchesMaskVec_child_of_anyMatch p x _ h1).1
    · exact Or.inr (matchesMaskVec_child_of_anyMatch p x _ h1).2
  have hdir : matchesMaskVec .AnyMatch (p ++ FILE_NAME_SEPARATOR :: x) f.includeMasksFileFolder
        = true ∨
      matchesMaskVec .AnyMatch (p ++ FILE_NAME_SEPARATOR :: x) f.includeMasksFolder
        = true := by
    rcases hinc with h1 | h1
    · exact Or.inl (matchesMaskVec_child_of_anyMatch p x _ h1).1
    · exact Or.inr (matchesMaskVec_child_of_anyMatch p x _ h1).1
  have hsplit : ∀ (l1 l2 : List Zstring),
      (∃ mask ∈ l1 ++ l2, matchesMask .AnyMatch (p ++ FILE_NAME_SEPARATOR :: x) mask = true) ↔
        (matchesMaskVec .AnyMatch (p ++ FILE_NAME_SEPARATOR :: x) l1 = true ∨
          matchesMaskVec .AnyMatch (p ++ FILE_NAME_SEPARATOR :: x) l2 = true) := by
    intro l1 l2
    simp only [matchesMaskVec_iff, List.mem_append]
    constructor
    · rintro ⟨mask, h1 | h2, hm⟩
      · exact Or.inl ⟨mask, h1, hm⟩
      · exact Or.inr ⟨mask, h2, hm⟩
    · rintro (⟨mask, h1, hm⟩ | ⟨mask, h2, hm⟩)
      · exact ⟨mask, Or.inl h1, hm⟩
      · exact ⟨mask, Or.inr h2, hm⟩
  refine ⟨?_, ?_, ?_, ?_⟩
  · simpa only [matchesMaskVec_iff] using hfile
  · exact (hsplit _ _).mpr hdir
  · rw [passFileFilter_eq_true_iff]
    constructor
    · intro hp
      exact hp.1
    · intro hex
      exact ⟨hex, by simpa only [matchesMaskVec_iff] using hfile⟩
  · intro hint
    rw [hsplit]
    simp only [NameFilter.passDirFilter]
    constructor
    · intro hp
      split at hp
      · exact absurd hp (by simp)
      · rename_i hne
        simpa only [Bool.or_eq_true] using hne
    · intro hex
      have hex' : ¬ (matchesMaskVec .AnyMatch (p ++ FILE_NAME_SEPARATOR :: x)
            f.excludeMasksFileFolder ||
          matchesMaskVec .AnyMatch (p ++ FILE_NAME_SEPARATOR :: x) f.excludeMasksFolder)
          = true := by
        simpa only [Bool.or_eq_true] using hex
      rw [if_neg hex']
      have hni : ¬ (!matchesMaskVec .AnyMatch (p ++ FILE_NAME_SEPARATOR :: x)
            f.includeMasksFileFolder &&
          !matchesMaskVec .AnyMatch (p ++ FILE_NAME_SEPARATOR :: x) f.includeMasksFolder)
          = true := by
        rcases hdir with h1 | h1 <;> simp [h1]
      rw [if_neg hni]

/-- Witness for C32: include `a`, exclude `a/b`, directory `a`, child `a/c`. -/
theorem inclusion_inherited_witness :
    ((NameFilter.ctor ['a'] ['a', '/', 'b']).passDirFilter ['a'] none).1 = true ∧
      ((NameFilter.ctor ['a'] ['a', '/', 'b']).passFileFilter
          (['a'] ++ [FILE_NAME_SEPARATOR] ++ ['c']) = true ↔
        (¬ ∃ mask ∈ (NameFilter.ctor ['a'] ['a', '/', 'b']).excludeMasksFileFolder,
          matchesMask .AnyMatch (['a'] ++ [FILE_NAME_SEPARATOR] ++ ['c']) mask = true) ∧
        (¬ ∃ mask ∈ (NameFilter.ctor ['a'] ['a', '/', 'b']).excludeMasksFolder,
          matchesMask .ParentFolderMatch (['a'] ++ [FILE_NAME_SEPARATOR] ++ ['c']) mask
            = true)) :=
  ⟨by decide,
    (inclusion_inherited (NameFilter.ctor ['a'] ['a', '/', 'b']) ['a'] none (by decide)
      ['c']).2.2.1⟩

/-- The function changes every value among the `case` labels of the switch. -/
theorem mapLanguageDialect_ne_of_mem (language : wxLanguage) (h : language ∈ listedDialects) :
    mapLanguageDialect language ≠ language := by
  simp only [listedDialects, List.mem_cons, List.mem_singleton, List.not_mem_nil, or_false] at h
  rcases h with rfl | rfl | rfl | rfl | rfl | rfl | rfl | rfl | rfl | rfl | rfl | rfl | rfl | rfl | rfl | rfl | rfl | rfl | rfl | rfl | rfl | rfl | rfl | rfl | rfl | rfl | rfl | rfl | rfl | rfl | rfl | rfl | rfl | rfl | rfl | rfl | rfl | rfl | rfl | rfl | rfl | rfl | rfl | rfl | rfl | rfl | rfl | rfl | rfl | rfl | rfl | rfl | rfl | rfl | rfl | rfl | rfl | rfl | rfl | rfl | rfl | rfl | rfl | rfl | rfl | rfl | rfl | rfl | rfl | rfl | rfl | rfl | rfl | rfl | rfl <;> exact fun h => wxLanguage.noConfusion h

/-- A value is among the `case` labels of the switch exactly when the function
changes it. -/
theorem mem_listedDialects_iff (language : wxLanguage) :
    language ∈ listedDialects ↔ mapLanguageDialect language ≠ language := by
  refine ⟨mapLanguageDialect_ne_of_mem language, ?_⟩
  cases language <;>
    first
      | exact fun h => absurd rfl h
      | exact fun _ => by
          unfold listedDialects
          repeat (first | exact List.mem_cons_self _ _ | apply List.mem_cons_of_mem)

/-- C33: `mapLanguageDialect` is idempotent. None of the base languages it returns
(Arabic, Chinese simplified and traditional, Dutch, English UK and US, French,
German, Italian, Norwegian Bokmal, Romanian, Russian, Serbian, Spanish,
Swedish) is among the `case` labels of the switch, and each is returned
unchanged. Every value that is not among the `case` labels is returned
unchanged: the base languages, the twenty languages the source names as being
without variants, and every value the function does not name. A value among
the `case` labels is changed, into a value that is not among them, one of the
base languages. -/
theorem mapLanguageDialect_idempotent :
    (∀ language : wxLanguage,
      mapLanguageDialect (mapLanguageDialect language) = mapLanguageDialect language) ∧
    (mapLanguageDialect .wxLANGUAGE_ARABIC = .wxLANGUAGE_ARABIC ∧
      mapLanguageDialect .wxLANGUAGE_CHINESE_SIMPLIFIED = .wxLANGUAGE_CHINESE_SIMPLIFIED ∧
      mapLanguageDialect .wxLANGUAGE_CHINESE_TRADITIONAL = .wxLANGUAGE_CHINESE_TRADITIONAL ∧
      mapLanguageDialect .wxLANGUAGE_DUTCH = .wxLANGUAGE_DUTCH ∧
      mapLanguageDialect .wxLANGUAGE_ENGLISH_UK = .wxLANGUAGE_ENGLISH_UK ∧
      mapLanguageDialect .wxLANGUAGE_ENGLISH_US = .wxLANGUAGE_ENGLISH_US ∧
      mapLanguageDialect .wxLANGUAGE_FRENCH = .wxLANGUAGE_FRENCH ∧
      mapLanguageDialect .wxLANGUAGE_GERMAN = .wxLANGUAGE_GERMAN ∧
      mapLanguageDialect .wxLANGUAGE_ITALIAN = .wxLANGUAGE_ITALIAN ∧
      mapLanguageDialect .wxLANGUAGE_NORWEGIAN_BOKMAL = .wxLANGUAGE_NORWEGIAN_BOKMAL ∧
      mapLanguageDialect .wxLANGUAGE_ROMANIAN = .wxLANGUAGE_ROMANIAN ∧
      mapLanguageDialect .wxLANGUAGE_RUSSIAN = .wxLANGUAGE_RUSSIAN ∧
      mapLanguageDialect .wxLANGUAGE_SERBIAN = .wxLANGUAGE_SERBIAN ∧
      mapLanguageDialect .wxLANGUAGE_SPANISH = .wxLANGUAGE_SPANISH ∧
      mapLanguageDialect .wxLANGUAGE_SWEDISH = .wxLANGUAGE_SWEDISH) ∧
    (wxLanguage.wxLANGUAGE_ARABIC ∉ listedDialects ∧
      wxLanguage.wxLANGUAGE_CHINESE_SIMPLIFIED ∉ listedDialects ∧
      wxLanguage.wxLANGUAGE_CHINESE_TRADITIONAL ∉ listedDialects ∧
      wxLanguage.wxLANGUAGE_DUTCH ∉ listedDialects ∧
      wxLanguage.wxLANGUAGE_ENGLISH_UK ∉ listedDialects ∧
      wxLanguage.wxLANGUAGE_ENGLISH_US ∉ listedDialects ∧
      wxLanguage.wxLANGUAGE_FRENCH ∉ listedDialects ∧
      wxLanguage.wxLANGUAGE_GERMAN ∉ listedDialects ∧
      wxLanguage.wxLANGUAGE_ITALIAN ∉ listedDialects ∧
      wxLanguage.wxLANGUAGE_NORWEGIAN_BOKMAL ∉ listedDialects ∧
      wxLanguage.wxLANGUAGE_ROMANIAN ∉ listedDialects ∧
      wxLanguage.wxLANGUAGE_RUSSIAN ∉ listedDialects ∧
      wxLanguage.wxLANGUAGE_SERBIAN ∉ listedDialects ∧
      wxLanguage.wxLANGUAGE_SPANISH ∉ listedDialects ∧
      wxLanguage.wxLANGUAGE_SWEDISH ∉ listedDialects) ∧
    (∀ language : wxLanguage, language ∉ listedDialects →
      mapLanguageDialect language = language) ∧
    (∀ language : wxLanguage, language ∈ listedDialects →
      mapLanguageDialect language ≠ language ∧ mapLanguageDialect language ∉ listedDialects) ∧
    (mapLanguageDialect .wxLANGUAGE_BULGARIAN = .wxLANGUAGE_BULGARIAN ∧
      mapLanguageDialect .wxLANGUAGE_CROATIAN = .wxLANGUAGE_CROATIAN ∧
      mapLanguageDialect .wxLANGUAGE_CZECH = .wxLANGUAGE_CZECH ∧
      mapLanguageDialect .wxLANGUAGE_DANISH = .wxLANGUAGE_DANISH ∧
      mapLanguageDialect .wxLANGUAGE_FINNISH = .wxLANGUAGE_FINNISH ∧
      mapLanguageDialect .wxLANGUAGE_GREEK = .wxLANGUAGE_GREEK ∧
      mapLanguageDialect .wxLANGUAGE_HINDI = .wxLANGUAGE_HINDI ∧
      mapLanguageDialect .wxLANGUAGE_HEBREW = .wxLANGUAGE_HEBREW ∧
      mapLanguageDialect .wxLANGUAGE_HUNGARIAN = .wxLANGUAGE_HUNGARIAN ∧
      mapLanguageDialect .wxLANGUAGE_JAPANESE = .wxLANGUAGE_JAPANESE ∧
      mapLanguageDialect .wxLANGUAGE_KOREAN = .wxLANGUAGE_KOREAN ∧
      mapLanguageDialect .wxLANGUAGE_LITHUANIAN = .wxLANGUAGE_LITHUANIAN ∧
      mapLanguageDialect .wxLANGUAGE_POLISH = .wxLANGUAGE_POLISH ∧
      mapLanguageDialect .wxLANGUAGE_PORTUGUESE = .wxLANGUAGE_PORTUGUESE ∧
      mapLanguageDialect .wxLANGUAGE_PORTUGUESE_BRAZILIAN = .wxLANGUAGE_PORTUGUESE_BRAZILIAN ∧
      mapLanguageDialect .wxLANGUAGE_SCOTS_GAELIC = .wxLANGUAGE_SCOTS_GAELIC ∧
      mapLanguageDialect .wxLANGUAGE_SLOVAK = .wxLANGUAGE_SLOVAK ∧
      mapLanguageDialect .wxLANGUAGE_SLOVENIAN = .wxLANGUAGE_SLOVENIAN ∧
      mapLanguageDialect .wxLANGUAGE_TURKISH = .wxLANGUAGE_TURKISH ∧
      mapLanguageDialect .wxLANGUAGE_UKRAINIAN = .wxLANGUAGE_UKRAINIAN) ∧
    (∀ language : wxLanguage,
      mapLanguageDialect language = language ∨
        mapLanguageDialect language = .wxLANGUAGE_ARABIC ∨
        mapLanguageDialect language = .wxLANGUAGE_CHINESE_SIMPLIFIED ∨
        mapLanguageDialect language = .wxLANGUAGE_CHINESE_TRADITIONAL ∨
        mapLanguageDialect language = .wxLANGUAGE_DUTCH ∨
        mapLanguageDialect language = .wxLANGUAGE_ENGLISH_UK ∨
        mapLanguageDialect language = .wxLANGUAGE_ENGLISH_US ∨
        mapLanguageDialect language = .wxLANGUAGE_FRENCH ∨
        mapLanguageDialect language = .wxLANGUAGE_GERMAN ∨
        mapLanguageDialect language = .wxLANGUAGE_ITALIAN ∨
        mapLanguageDialect language = .wxLANGUAGE_NORWEGIAN_BOKMAL ∨
        mapLanguageDialect language = .wxLANGUAGE_ROMANIAN ∨
        mapLanguageDialect language = .wxLANGUAGE_RUSSIAN ∨
        mapLanguageDialect language = .wxLANGUAGE_SERBIAN ∨
        mapLanguageDialect language = .wxLANGUAGE_SPANISH ∨
        mapLanguageDialect language = .wxLANGUAGE_SWEDISH) ∧
    (∀ value : Nat, mapLanguageDialect (.other value) = .other value) := by
  have hidem : ∀ language : wxLanguage,
      mapLanguageDialect (mapLanguageDialect language) = mapLanguageDialect language := by
    intro language
    cases language <;> rfl
  have hnot : ∀ language : wxLanguage, mapLanguageDialect language = language →
      language ∉ listedDialects :=
    fun language h hmem => (mem_listedDialects_iff language).mp hmem h
  refine ⟨hidem, ?_, ?_, ?_, ?_, ?_, ?_, fun _ => rfl⟩
  · exact ⟨rfl, rfl, rfl, rfl, rfl, rfl, rfl, rfl, rfl, rfl, rfl, rfl, rfl, rfl, rfl⟩
  · exact ⟨hnot _ rfl, hnot _ rfl, hnot _ rfl, hnot _ rfl, hnot _ rfl, hnot _ rfl, hnot _ rfl, hnot _ rfl, hnot _ rfl, hnot _ rfl, hnot _ rfl, hnot _ rfl, hnot _ rfl, hnot _ rfl, hnot _ rfl⟩
  · intro language h
    by_contra hne
    exact h ((mem_listedDialects_iff language).mpr hne)
  · intro language h
    exact ⟨(mem_listedDialects_iff language).mp h, hnot _ (hidem language)⟩
  · exact ⟨rfl, rfl, rfl, rfl, rfl, rfl, rfl, rfl, rfl, rfl, rfl, rfl, rfl, rfl, rfl, rfl, rfl, rfl, rfl, rfl⟩
  · intro language
    cases language <;>
      first
        | exact Or.inl rfl
        | exact Or.inr (by repeat (first | rfl | exact Or.inl rfl | apply Or.inr))

end zen
